import Mathlib

/-!
# lib_image: a shallow embedding of `Core/Src/lib_image.c`

The image library of the STM32 firmware works on byte buffers reached through
descriptors (`IMAGE_HandleTypeDef`).  The embedding keeps that shape.

* Memory is a map from a base pointer and a byte offset to the content of the
  cell.  Two descriptors refer to the same buffer exactly when their `pData`
  fields are equal; different base pointers name different objects.
* A `uint8_t` load reduces the cell modulo 256 and a `uint8_t` store writes the
  value modulo 256, so every load is a byte whatever the memory holds.
* `uint16_t` fields are natural numbers; theorems that need the range carry it
  as a hypothesis.  Products formed in `int` and kept in a `uint32_t` are
  reduced modulo 2^32, and an `int` index contributes its value modulo 2^32 to
  the address (ILP32 target).
* A function that writes through a pointer takes the memory and returns the
  status code together with the memory after the call.
* The `float` computations of the Otsu threshold are carried out over the
  rationals (exact arithmetic).
-/

namespace LibImage

/-! ## Data model (lib_image.h) -/

/-- Byte memory: `cell p i` is the content of the cell at byte offset `i` of
the object at base pointer `p`. -/
structure Mem where
  cell : Nat → Nat → Nat

/-- The load `p[i]` through a `uint8_t *`. -/
def load8 (m : Mem) (p i : Nat) : Nat := m.cell p i % 256

/-- The store `p[i] = v` through a `uint8_t *`. -/
def store8 (m : Mem) (p i v : Nat) : Mem :=
  ⟨fun q j => if q = p ∧ j = i then v % 256 else m.cell q j⟩

/-- The status `IMAGE_OK`, `((int8_t)0)`. -/
def IMAGE_OK : Int := 0

/-- The status `IMAGE_ERROR`, `((int8_t)-1)`. -/
def IMAGE_ERROR : Int := -1

/-- The enumerator `IMAGE_FORMAT_GRAYSCALE = 1`. -/
def IMAGE_FORMAT_GRAYSCALE : Nat := 1

/-- The enumerator `IMAGE_FORMAT_RGB565 = 2`. -/
def IMAGE_FORMAT_RGB565 : Nat := 2

/-- The enumerator `IMAGE_FORMAT_RGB888 = 3`. -/
def IMAGE_FORMAT_RGB888 : Nat := 3

/-- The descriptor `IMAGE_HandleTypeDef`; `format` holds the value of the
`IMAGE_Format` enumeration. -/
structure IMAGE_HandleTypeDef where
  pData : Nat
  width : Nat
  height : Nat
  format : Nat
  size : Nat
deriving DecidableEq, Repr

/-- The value of `imgIn->width * imgIn->height` stored in a `uint32_t`. -/
def totalPixels (img : IMAGE_HandleTypeDef) : Nat :=
  (img.width * img.height) % 4294967296

/-! ## Binarizer -/

/-- One iteration of the loop of `LIB_IMAGE_ApplyThreshold`:
`pOut[i] = (pIn[i] > threshold) ? 255 : 0`. -/
def thresholdStep (pIn pOut threshold : Nat) (m : Mem) (i : Nat) : Mem :=
  store8 m pOut i (if load8 m pIn i > threshold then 255 else 0)

/-- The function `LIB_IMAGE_ApplyThreshold`. -/
def LIB_IMAGE_ApplyThreshold (m : Mem) (imgIn imgOut : IMAGE_HandleTypeDef)
    (threshold : Nat) : Int × Mem :=
  if imgIn.format ≠ IMAGE_FORMAT_GRAYSCALE ∨ imgOut.format ≠ IMAGE_FORMAT_GRAYSCALE then
    (IMAGE_ERROR, m)
  else if imgIn.width ≠ imgOut.width ∨ imgIn.height ≠ imgOut.height then
    (IMAGE_ERROR, m)
  else
    (IMAGE_OK,
      (List.range (totalPixels imgIn)).foldl
        (thresholdStep imgIn.pData imgOut.pData threshold) m)

/-! ## Threshold engine -/

/-- The array `uint32_t histogram[256]`: `bin v` is `histogram[v]`. -/
structure Histogram where
  bin : Nat → Nat

/-- One iteration of the histogram loop, `histogram[pData[i]]++` on `uint32_t`
counters. -/
def histogramStep (m : Mem) (pData : Nat) (hist : Histogram) (i : Nat) : Histogram :=
  ⟨Function.update hist.bin (load8 m pData i)
    ((hist.bin (load8 m pData i) + 1) % 4294967296)⟩

/-- Step 1 of `LIB_IMAGE_OtsuThreshold`: the histogram of the first `n` pixels,
starting from `histogram[256] = {0}`. -/
def histogram (m : Mem) (pData n : Nat) : Histogram :=
  (List.range n).foldl (histogramStep m pData) ⟨fun _ => 0⟩

/-- The array `prob`: `prob[i] = (float)histogram[i] / totalPixels`. -/
def otsuProb (m : Mem) (img : IMAGE_HandleTypeDef) (i : Nat) : ℚ :=
  ((histogram m img.pData (totalPixels img)).bin i : ℚ) / (totalPixels img : ℚ)

/-- The array `cumSum`: `cumSum[0] = prob[0]`,
`cumSum[i] = cumSum[i-1] + prob[i]`. -/
def cumSum (prob : Nat → ℚ) : Nat → ℚ
  | 0 => prob 0
  | i + 1 => cumSum prob i + prob (i + 1)

/-- The array `cumMean`: `cumMean[0] = 0.0f`,
`cumMean[i] = cumMean[i-1] + (float)i * prob[i]`. -/
def cumMean (prob : Nat → ℚ) : Nat → ℚ
  | 0 => 0
  | i + 1 => cumMean prob i + ((i + 1 : Nat) : ℚ) * prob (i + 1)

/-- The local `variance` of the threshold loop at level `t`, from the arrays
`cumSum` and `cumMean`. -/
def otsuVariance (cs cm : Nat → ℚ) (t : Nat) : ℚ :=
  let w0 := cs t
  let w1 := 1 - w0
  let mean0 := if w0 > 0 then cm t / w0 else 0
  let mean1 := if w1 > 0 then (cm 255 - cm t) / w1 else 0
  w0 * w1 * (mean0 - mean1) * (mean0 - mean1)

/-- One iteration of the threshold loop on the pair
`(maxVariance, bestThreshold)`. -/
def otsuStep (cs cm : Nat → ℚ) (st : ℚ × Nat) (t : Nat) : ℚ × Nat :=
  if cs t = 0 ∨ 1 - cs t = 0 then st
  else if otsuVariance cs cm t > st.1 then (otsuVariance cs cm t, t)
  else st

/-- The function `LIB_IMAGE_OtsuThreshold`, its `float` arithmetic carried out
exactly, over the rationals; `LIB_IMAGE_OtsuThresholdF32` is the function in
single precision. -/
def LIB_IMAGE_OtsuThreshold (m : Mem) (img : IMAGE_HandleTypeDef) : Nat :=
  if img.format ≠ IMAGE_FORMAT_GRAYSCALE then 0
  else
    ((List.range 256).foldl
      (otsuStep (cumSum (otsuProb m img)) (cumMean (otsuProb m img))) (0, 0)).2

/-- The class-0 weight of the specification, `w0 = ω(t)`. -/
def specWeight0 (m : Mem) (img : IMAGE_HandleTypeDef) (t : Nat) : ℚ :=
  cumSum (otsuProb m img) t

/-- The class-1 weight of the specification, `w1 = 1 - w0`. -/
def specWeight1 (m : Mem) (img : IMAGE_HandleTypeDef) (t : Nat) : ℚ :=
  1 - specWeight0 m img t

/-- The score of the specification, `w0 · w1 · (mean0 - mean1)²` with
`mean0 = μ(t)/w0` and `mean1 = (μ(255) - μ(t))/w1`. -/
def specScore (m : Mem) (img : IMAGE_HandleTypeDef) (t : Nat) : ℚ :=
  specWeight0 m img t * specWeight1 m img t *
    (cumMean (otsuProb m img) t / specWeight0 m img t
      - (cumMean (otsuProb m img) 255 - cumMean (otsuProb m img) t)
          / specWeight1 m img t) ^ 2

/-- A level of the specification that is not skipped: both weights non-zero. -/
def specValid (m : Mem) (img : IMAGE_HandleTypeDef) (t : Nat) : Prop :=
  specWeight0 m img t ≠ 0 ∧ specWeight1 m img t ≠ 0

/-- The pixels of the first `n` offsets of buffer `p`, in order. -/
def pixelValues (m : Mem) (p n : Nat) : List Nat :=
  (List.range n).map (load8 m p)

/-- The number of values of `l` that are at most `t` (the size of class 0 at
level `t`). -/
def countLE (l : List Nat) (t : Nat) : Nat := (l.filter (fun v => decide (v ≤ t))).length

/-- The sum of the values of `l` that are at most `t`. -/
def sumLE (l : List Nat) (t : Nat) : Nat := (l.filter (fun v => decide (v ≤ t))).sum

/-! ## Threshold engine in single precision

The type `float` of the target is IEEE 754 binary32, every operation is
rounded to nearest, ties to even, and is evaluated in that type.  The
definitions below follow the same statements of `LIB_IMAGE_OtsuThreshold` as
the exact ones above, with that rounding after every operation. -/

/-- A value of the type `float`: a finite rational, an infinity with its sign
(`true` for the negative one), or a NaN.  The two zeros are one value: they
differ only in the sign of a quotient of a non-zero value by zero, and the
function divides by zero only in `0/0`. -/
inductive F32 where
  | fin (q : ℚ)
  | inf (neg : Bool)
  | nan
deriving DecidableEq

/-- The position of the leading bit of `n`: the number of halvings that bring
`n` down to 1 (0 for `n <= 1`).  The first argument only bounds the recursion,
and `n` halvings always suffice. -/
def halvings : Nat → Nat → Nat
  | 0, _ => 0
  | bound + 1, n => if n ≤ 1 then 0 else halvings bound (n / 2) + 1

/-- The exponent of the positive rational `n/d`: the `e` with
`2^e <= n/d < 2^(e+1)`.  The difference of the positions of the leading bits
is `e` or `e + 1`. -/
def f32Exponent (n d : Nat) : Int :=
  if d * 2 ^ ((halvings n n : Int) - (halvings d d : Int)).toNat
      ≤ n * 2 ^ ((halvings d d : Int) - (halvings n n : Int)).toNat then
    (halvings n n : Int) - (halvings d d : Int)
  else (halvings n n : Int) - (halvings d d : Int) - 1

/-- The integer nearest to `n/d`, the even one of the two when `n/d` lies
half way. -/
def roundHalfEven (n d : Nat) : Nat :=
  if 2 * (n % d) < d then n / d
  else if d < 2 * (n % d) then n / d + 1
  else if (n / d) % 2 = 0 then n / d
  else n / d + 1

/-- The exponent of the unit in the last place at the non-zero rational `q`:
24 significant bits, and not below `2^(-149)` (subnormal values). -/
def f32Ulp (q : ℚ) : Int := max (f32Exponent q.num.natAbs q.den) (-126) - 23

/-- The magnitude of the non-zero rational `q` in units in the last place,
rounded to nearest, ties to even. -/
def f32Mantissa (q : ℚ) : Nat :=
  roundHalfEven (q.num.natAbs * 2 ^ (-(f32Ulp q)).toNat) (q.den * 2 ^ (f32Ulp q).toNat)

/-- The `float` nearest to the rational `q`; a magnitude that rounds to
`2^128` or more gives an infinity. -/
def f32Round (q : ℚ) : F32 :=
  if q = 0 then F32.fin 0
  else if 2 ^ 128 * 2 ^ (-(f32Ulp q)).toNat ≤ f32Mantissa q * 2 ^ (f32Ulp q).toNat then
    F32.inf (decide (q < 0))
  else
    F32.fin ((if q < 0 then -1 else 1)
      * ((f32Mantissa q * 2 ^ (f32Ulp q).toNat : Nat) : ℚ)
      / ((2 ^ (-(f32Ulp q)).toNat : Nat) : ℚ))

/-- The conversion `(float)n` of an unsigned integer. -/
def F32.ofNat (n : Nat) : F32 := f32Round (n : ℚ)

/-- The negation `-a`. -/
def F32.neg : F32 → F32
  | F32.fin a => F32.fin (-a)
  | F32.inf s => F32.inf (!s)
  | F32.nan => F32.nan

/-- The test `a < b`, false when an operand is a NaN. -/
def F32.lt : F32 → F32 → Bool
  | F32.fin a, F32.fin b => decide (a < b)
  | F32.fin _, F32.inf s => !s
  | F32.inf s, F32.fin _ => s
  | F32.inf s, F32.inf t => s && !t
  | _, _ => false

/-- The load `pColorData[i]` through the `uint16_t *` cast of the buffer
(little-endian target). -/
def load16 (m : Mem) (p i : Nat) : Nat :=
  load8 m p (2 * i) + 256 * load8 m p (2 * i + 1)

/-- The body of the conversion loop on one pixel: `r`, `g`, `b` are `uint8_t`,
`gray` is `uint16_t`, the result is `(uint8_t)gray`. -/
def grayOfPixel (pixel : Nat) : Nat :=
  let r := (((pixel >>> 11) &&& 0x1F) <<< 3) % 256
  let g := (((pixel >>> 5) &&& 0x3F) <<< 2) % 256
  let b := ((pixel &&& 0x1F) <<< 3) % 256
  let gray := ((299 * r + 587 * g + 114 * b) / 1000) % 65536
  gray % 256

/-- One iteration of the loop of `LIB_IMAGE_ConvertToGrayscale`. -/
def grayscaleStep (pIn pOut : Nat) (m : Mem) (i : Nat) : Mem :=
  store8 m pOut i (grayOfPixel (load16 m pIn i))

/-- The function `LIB_IMAGE_ConvertToGrayscale`. -/
def LIB_IMAGE_ConvertToGrayscale (m : Mem) (imgIn imgOut : IMAGE_HandleTypeDef) :
    Int × Mem :=
  if imgIn.format ≠ IMAGE_FORMAT_RGB565 ∨ imgOut.format ≠ IMAGE_FORMAT_GRAYSCALE then
    (IMAGE_ERROR, m)
  else if imgIn.width ≠ imgOut.width ∨ imgIn.height ≠ imgOut.height then
    (IMAGE_ERROR, m)
  else
    (IMAGE_OK,
      (List.range (totalPixels imgIn)).foldl (grayscaleStep imgIn.pData imgOut.pData) m)

/-! ## Morphology engine

`LIB_IMAGE_Erosion` and `LIB_IMAGE_Dilation` have the same body up to the
initial value of the accumulator (`255` / `0`) and the comparison that replaces
it (`val < minVal` / `val > maxVal`); the body is written once, with these two
as arguments. -/

/-- The offset contributed by an `int` index expression. -/
def idx32 (v : Int) : Nat := (v % 4294967296).toNat

/-- The values of `for (int k = -halfKernel; k <= halfKernel; k++)`. -/
def kernelOffsets (halfKernel : Nat) : List Int :=
  (List.range (2 * halfKernel + 1)).map (fun (j : Nat) => (j : Int) - (halfKernel : Int))

/-- The border test
`x < halfKernel || x >= width - halfKernel || y < halfKernel || y >= height - halfKernel`,
evaluated in `int`. -/
def isBorder (width height halfKernel x y : Nat) : Prop :=
  (x : Int) < (halfKernel : Int) ∨ (x : Int) ≥ (width : Int) - (halfKernel : Int) ∨
  (y : Int) < (halfKernel : Int) ∨ (y : Int) ≥ (height : Int) - (halfKernel : Int)

instance (width height halfKernel x y : Nat) : Decidable (isBorder width height halfKernel x y) := by
  unfold isBorder; infer_instance

/-- The two kernel loops at pixel `(x, y)` over the input `src` (`src j` is
`pIn[j]`): `replaces val acc` is the test under which `val` becomes the
accumulator, `init` its initial value. -/
def windowScan (replaces : Nat → Nat → Bool) (init : Nat) (src : Nat → Nat)
    (width halfKernel x y : Nat) : Nat :=
  (kernelOffsets halfKernel).foldl
    (fun acc ky =>
      (kernelOffsets halfKernel).foldl
        (fun acc kx =>
          let val := src (idx32 (((y : Int) + ky) * (width : Int) + ((x : Int) + kx)))
          if replaces val acc then val else acc)
        acc)
    init

/-- The body of the pixel loops at `(x, y)`. -/
def morphPixel (replaces : Nat → Nat → Bool) (init : Nat)
    (pIn pOut width height halfKernel y : Nat) (m : Mem) (x : Nat) : Mem :=
  if isBorder width height halfKernel x y then
    store8 m pOut (idx32 ((y : Int) * (width : Int) + (x : Int)))
      (load8 m pIn (idx32 ((y : Int) * (width : Int) + (x : Int))))
  else
    store8 m pOut (idx32 ((y : Int) * (width : Int) + (x : Int)))
      (windowScan replaces init (load8 m pIn) width halfKernel x y)

/-- The value that the body of the pixel loops stores at `(x, y)` when the
input reads as `src`. -/
def morphValue (replaces : Nat → Nat → Bool) (init : Nat) (src : Nat → Nat)
    (width height halfKernel x y : Nat) : Nat :=
  if isBorder width height halfKernel x y then
    src (idx32 ((y : Int) * (width : Int) + (x : Int)))
  else
    windowScan replaces init src width halfKernel x y

/-- The loop over `x` for row `y`. -/
def morphRow (replaces : Nat → Nat → Bool) (init : Nat)
    (pIn pOut width height halfKernel : Nat) (m : Mem) (y : Nat) : Mem :=
  (List.range width).foldl (morphPixel replaces init pIn pOut width height halfKernel y) m

/-- The common body of `LIB_IMAGE_Erosion` and `LIB_IMAGE_Dilation`. -/
def morphology (replaces : Nat → Nat → Bool) (init : Nat) (m : Mem)
    (imgIn imgOut : IMAGE_HandleTypeDef) (kernelSize : Nat) : Int × Mem :=
  if imgIn.format ≠ IMAGE_FORMAT_GRAYSCALE ∨ imgOut.format ≠ IMAGE_FORMAT_GRAYSCALE then
    (IMAGE_ERROR, m)
  else if imgIn.width ≠ imgOut.width ∨ imgIn.height ≠ imgOut.height then
    (IMAGE_ERROR, m)
  else
    (IMAGE_OK,
      (List.range imgIn.height).foldl
        (morphRow replaces init imgIn.pData imgOut.pData imgIn.width imgIn.height
          (kernelSize / 2)) m)

/-- The test `val < minVal` of the erosion. -/
def erosionReplaces (val minVal : Nat) : Bool := decide (val < minVal)

/-- The test `val > maxVal` of the dilation. -/
def dilationReplaces (val maxVal : Nat) : Bool := decide (val > maxVal)

/-- The function `LIB_IMAGE_Erosion`: `minVal` starts at 255. -/
def LIB_IMAGE_Erosion (m : Mem) (imgIn imgOut : IMAGE_HandleTypeDef) (kernelSize : Nat) :
    Int × Mem :=
  morphology erosionReplaces 255 m imgIn imgOut kernelSize

/-- The function `LIB_IMAGE_Dilation`: `maxVal` starts at 0. -/
def LIB_IMAGE_Dilation (m : Mem) (imgIn imgOut : IMAGE_HandleTypeDef) (kernelSize : Nat) :
    Int × Mem :=
  morphology dilationReplaces 0 m imgIn imgOut kernelSize

/-! ## Descriptor construction -/

/-- The function `LIB_IMAGE_InitStruct`.  The descriptor pointer is `none` when
it is null and `some d` when it points to a descriptor holding `d`; the second
component is the descriptor after the call. -/
def LIB_IMAGE_InitStruct (img : Option IMAGE_HandleTypeDef)
    (pImg height width format : Nat) : Int × Option IMAGE_HandleTypeDef :=
  match img with
  | none => (IMAGE_ERROR, none)
  | some d =>
    if pImg = 0 then (IMAGE_ERROR, some d)
    else if format = 0 then (IMAGE_ERROR, some d)
    else if width = 0 then (IMAGE_ERROR, some d)
    else if height = 0 then (IMAGE_ERROR, some d)
    else
      (IMAGE_OK,
        some { pData := pImg, width := width, height := height, format := format,
               size := (format * height * width) % 4294967296 })

/-! ## Opening and closing

Each function owns a `static uint8_t tempBuffer[128*128]`; its address is the
argument `tempBuffer`.  The local descriptor `imgTemp` is not initialised
before `LIB_IMAGE_InitStruct` is called on it and the status of that call is
ignored, so its prior content is the argument `imgTemp`. -/

/-- The descriptor `imgTemp` after
`LIB_IMAGE_InitStruct(&imgTemp, tempBuffer, imgIn->height, imgIn->width, IMAGE_FORMAT_GRAYSCALE)`. -/
def initTemp (tempBuffer : Nat) (imgTemp imgIn : IMAGE_HandleTypeDef) : IMAGE_HandleTypeDef :=
  match (LIB_IMAGE_InitStruct (some imgTemp) tempBuffer imgIn.height imgIn.width
      IMAGE_FORMAT_GRAYSCALE).2 with
  | some d => d
  | none => imgTemp

/-- The function `LIB_IMAGE_Opening`. -/
def LIB_IMAGE_Opening (tempBuffer : Nat) (imgTemp : IMAGE_HandleTypeDef) (m : Mem)
    (imgIn imgOut : IMAGE_HandleTypeDef) (kernelSize : Nat) : Int × Mem :=
  if imgIn.width > 128 ∨ imgIn.height > 128 then (IMAGE_ERROR, m)
  else
    let r := LIB_IMAGE_Erosion m imgIn (initTemp tempBuffer imgTemp imgIn) kernelSize
    if r.1 ≠ IMAGE_OK then (IMAGE_ERROR, r.2)
    else LIB_IMAGE_Dilation r.2 (initTemp tempBuffer imgTemp imgIn) imgOut kernelSize

/-- The function `LIB_IMAGE_Closing`. -/
def LIB_IMAGE_Closing (tempBuffer : Nat) (imgTemp : IMAGE_HandleTypeDef) (m : Mem)
    (imgIn imgOut : IMAGE_HandleTypeDef) (kernelSize : Nat) : Int × Mem :=
  if imgIn.width > 128 ∨ imgIn.height > 128 then (IMAGE_ERROR, m)
  else
    let r := LIB_IMAGE_Dilation m imgIn (initTemp tempBuffer imgTemp imgIn) kernelSize
    if r.1 ≠ IMAGE_OK then (IMAGE_ERROR, r.2)
    else LIB_IMAGE_Erosion r.2 (initTemp tempBuffer imgTemp imgIn) imgOut kernelSize

/-! ## Pipeline controller (main.c), cycles 5 and 6 -/

/-- The transformation of cycle 5 of `main`:
`LIB_IMAGE_Erosion(&imgBinary, &imgTemp, 3); LIB_IMAGE_Dilation(&imgTemp, &imgBinary, 3);`
(both status codes are dropped). -/
def cycle5 (m : Mem) (imgBinary imgTemp : IMAGE_HandleTypeDef) : Mem :=
  (LIB_IMAGE_Dilation (LIB_IMAGE_Erosion m imgBinary imgTemp 3).2 imgTemp imgBinary 3).2

/-- The transformation of cycle 6 of `main`:
`LIB_IMAGE_Dilation(&imgBinary, &imgTemp, 3); LIB_IMAGE_Erosion(&imgTemp, &imgBinary, 3);`
(both status codes are dropped). -/
def cycle6 (m : Mem) (imgBinary imgTemp : IMAGE_HandleTypeDef) : Mem :=
  (LIB_IMAGE_Erosion (LIB_IMAGE_Dilation m imgBinary imgTemp 3).2 imgTemp imgBinary 3).2

/-! ## Pipeline controller (main.c): the loop of `main`

The body of `while (1)` is six guarded blocks followed by the inner
`while (1) { HAL_Delay(1000); }`.  One step of the controller is one block
(the receive, and on `SERIAL_OK` the engine calls and the transmit) or one
turn of the inner loop.  The state keeps a log of what has been executed. -/

/-- An RGB565 descriptor on buffer `p`. -/
def colorImage (p w h : Nat) : IMAGE_HandleTypeDef :=
  { pData := p, width := w, height := h, format := IMAGE_FORMAT_RGB565, size := 2 * w * h }

/-- A grayscale descriptor on buffer `p`. -/
def grayImage (p w h : Nat) : IMAGE_HandleTypeDef :=
  { pData := p, width := w, height := h, format := IMAGE_FORMAT_GRAYSCALE, size := w * h }

/-- A memory whose buffer `p` holds the bytes of `l` (zero elsewhere). -/
def memOfList (p : Nat) (l : List Nat) : Mem :=
  ⟨fun q j => if q = p then l.getD j 0 else 0⟩

/-- A 3x3 image in buffer 1, rows `9 8 7`, `6 5 4`, `3 2 1`. -/
def demoMem : Mem := memOfList 1 [9, 8, 7, 6, 5, 4, 3, 2, 1]

/-- The 4x4 image of eight pixels of intensity 10 and eight of intensity 200,
in buffer 1. -/
def clusterMem : Mem :=
  memOfList 1 [10, 10, 10, 10, 10, 10, 10, 10, 200, 200, 200, 200, 200, 200, 200, 200]

/-- A 2x2 image of the intensities 0 and 255, in buffer 1. -/
def bimodalMem : Mem := memOfList 1 [0, 255, 255, 0]

/-- A 5x5 image in buffer 1 with a bright centre on a darker ground. -/
def gridMem : Mem :=
  memOfList 1 [3, 1, 4, 1, 5, 9, 2, 6, 5, 3, 5, 8, 200, 7, 9, 3, 2, 3, 8, 4, 6, 2, 6, 4, 3]

/-- The image `demoMem` inverted (`255 - v` at every pixel), in buffer 1. -/
def demoMemInv : Mem := memOfList 1 [246, 247, 248, 249, 250, 251, 252, 253, 254]

/-- A 2x2 image whose four pixels have the intensity 7, in buffer 1. -/
def uniformMem : Mem := memOfList 1 [7, 7, 7, 7]

theorem load8_store8_same (m : Mem) (p i v : Nat) :
    load8 (store8 m p i v) p i = v % 256 := by
  simp [load8, store8]

theorem store8_other (m : Mem) (p i v q j : Nat) (h : ¬ (q = p ∧ j = i)) :
    (store8 m p i v).cell q j = m.cell q j := by
  simp [store8, h]

theorem load8_lt (m : Mem) (p i : Nat) : load8 m p i < 256 := by
  unfold load8; omega

/-- Invariant rule for a loop `for (i = 0; i < n; i++)`. -/
theorem foldl_range_inv {α : Type} (P : Nat → α → Prop) (f : α → Nat → α) (a0 : α)
    (n : Nat) (h0 : P 0 a0) (hstep : ∀ i a, i < n → P i a → P (i + 1) (f a i)) :
    P n ((List.range n).foldl f a0) := by
  induction n with
  | zero => simpa using h0
  | succ k ih =>
    rw [List.range_succ, List.foldl_append]
    simp only [List.foldl_cons, List.foldl_nil]
    exact hstep k _ (Nat.lt_succ_self k)
      (ih (fun i a hi hp => hstep i a (Nat.lt_succ_of_lt hi) hp))

theorem mul_lt_two_pow_32 {w h : Nat} (hw : w < 65536) (hh : h < 65536) :
    w * h < 4294967296 := by
  have h1 : w * h ≤ 65535 * 65535 := Nat.mul_le_mul (by omega) (by omega)
  omega

theorem totalPixels_eq (img : IMAGE_HandleTypeDef) (hw : img.width < 65536)
    (hh : img.height < 65536) : totalPixels img = img.width * img.height := by
  unfold totalPixels
  exact Nat.mod_eq_of_lt (mul_lt_two_pow_32 hw hh)

/-! ## Binarizer: the loop -/

theorem threshold_loop (pIn pOut thr : Nat) (m : Mem) (n : Nat) :
    (∀ j, j < n → load8 ((List.range n).foldl (thresholdStep pIn pOut thr) m) pOut j
        = if load8 m pIn j > thr then 255 else 0) ∧
    (∀ q j, (q ≠ pOut ∨ n ≤ j) →
        ((List.range n).foldl (thresholdStep pIn pOut thr) m).cell q j = m.cell q j) := by
  refine foldl_range_inv
    (fun i (a : Mem) =>
      (∀ j, j < i → load8 a pOut j = if load8 m pIn j > thr then 255 else 0) ∧
      (∀ q j, (q ≠ pOut ∨ i ≤ j) → a.cell q j = m.cell q j))
    (thresholdStep pIn pOut thr) m n ⟨by intro j hj; omega, by intro q j _; rfl⟩ ?_
  intro i a _ hP
  obtain ⟨hdone, hrest⟩ := hP
  have hcur : load8 a pIn i = load8 m pIn i := by
    unfold load8
    rw [hrest pIn i (Or.inr (Nat.le_refl i))]
  constructor
  · intro j hj
    by_cases hji : j = i
    · subst hji
      unfold thresholdStep
      rw [load8_store8_same, hcur]
      split <;> rfl
    · have hlt : j < i := by omega
      unfold thresholdStep load8
      rw [store8_other _ _ _ _ _ _ (by intro hc; exact hji hc.2)]
      exact hdone j hlt
  · intro q j hq
    unfold thresholdStep
    rw [store8_other _ _ _ _ _ _ (by rintro ⟨h1, h2⟩; rcases hq with hq | hq <;> omega)]
    exact hrest q j (by rcases hq with hq | hq; exact Or.inl hq; exact Or.inr (by omega))

/-! ## C1: the binarizer -/

/-- C1: for GRAYSCALE descriptors of equal width and height and a threshold in
0..255, `LIB_IMAGE_ApplyThreshold` returns `IMAGE_OK` and every output pixel
`i < width*height` is 255 when the input pixel is strictly greater than the
threshold and 0 otherwise (the input pixel is the one before the call, whether
or not the two descriptors share their buffer). -/
theorem applyThreshold_spec (m : Mem) (imgIn imgOut : IMAGE_HandleTypeDef) (threshold : Nat)
    (hfi : imgIn.format = IMAGE_FORMAT_GRAYSCALE)
    (hfo : imgOut.format = IMAGE_FORMAT_GRAYSCALE)
    (hw : imgIn.width = imgOut.width) (hh : imgIn.height = imgOut.height)
    (hw16 : imgIn.width < 65536) (hh16 : imgIn.height < 65536)
    (_hthr : threshold < 256) :
    (LIB_IMAGE_ApplyThreshold m imgIn imgOut threshold).1 = IMAGE_OK ∧
    ∀ i, i < imgIn.width * imgIn.height →
      load8 (LIB_IMAGE_ApplyThreshold m imgIn imgOut threshold).2 imgOut.pData i
        = if load8 m imgIn.pData i > threshold then 255 else 0 := by
  have hrun : LIB_IMAGE_ApplyThreshold m imgIn imgOut threshold
      = (IMAGE_OK, (List.range (totalPixels imgIn)).foldl
          (thresholdStep imgIn.pData imgOut.pData threshold) m) := by
    unfold LIB_IMAGE_ApplyThreshold
    rw [if_neg (by simp [hfi, hfo]), if_neg (by simp [hw, hh])]
  rw [hrun, totalPixels_eq imgIn hw16 hh16]
  exact ⟨rfl, fun i hi =>
    (threshold_loop imgIn.pData imgOut.pData threshold m _).1 i hi⟩

/-- C1 at a 2x2 image binarized at level 10 into a second buffer: the pixel
equal to the threshold becomes 0, the brighter ones 255. -/
theorem applyThreshold_spec_witness :
    (LIB_IMAGE_ApplyThreshold (memOfList 1 [10, 200, 9, 11]) (grayImage 1 2 2)
        (grayImage 2 2 2) 10).1 = IMAGE_OK ∧
    ∀ i, i < (grayImage 1 2 2).width * (grayImage 1 2 2).height →
      load8 (LIB_IMAGE_ApplyThreshold (memOfList 1 [10, 200, 9, 11]) (grayImage 1 2 2)
          (grayImage 2 2 2) 10).2 (grayImage 2 2 2).pData i
        = if load8 (memOfList 1 [10, 200, 9, 11]) (grayImage 1 2 2).pData i > 10
            then 255 else 0 :=
  applyThreshold_spec (memOfList 1 [10, 200, 9, 11]) (grayImage 1 2 2) (grayImage 2 2 2) 10
    rfl rfl rfl rfl (by decide) (by decide) (by decide)

/-! ## C3, C10: the color reducer -/

theorem grayscale_loop (pIn pOut : Nat) (m : Mem) (n : Nat) :
    (∀ j, j < n → load8 ((List.range n).foldl (grayscaleStep pIn pOut) m) pOut j
        = grayOfPixel (load16 m pIn j)) ∧
    (∀ q j, (q ≠ pOut ∨ n ≤ j) →
        ((List.range n).foldl (grayscaleStep pIn pOut) m).cell q j = m.cell q j) := by
  refine foldl_range_inv
    (fun i (a : Mem) =>
      (∀ j, j < i → load8 a pOut j = grayOfPixel (load16 m pIn j)) ∧
      (∀ q j, (q ≠ pOut ∨ i ≤ j) → a.cell q j = m.cell q j))
    (grayscaleStep pIn pOut) m n ⟨by intro j hj; omega, by intro q j _; rfl⟩ ?_
  intro i a _ hP
  obtain ⟨hdone, hrest⟩ := hP
  have hcur : load16 a pIn i = load16 m pIn i := by
    unfold load16 load8
    rw [hrest pIn (2 * i) (Or.inr (by omega)), hrest pIn (2 * i + 1) (Or.inr (by omega))]
  constructor
  · intro j hj
    by_cases hji : j = i
    · subst hji
      unfold grayscaleStep
      rw [load8_store8_same, hcur]
      unfold grayOfPixel
      simp only [Nat.mod_mod]
    · have hlt : j < i := by omega
      unfold grayscaleStep load8
      rw [store8_other _ _ _ _ _ _ (by intro hc; exact hji hc.2)]
      exact hdone j hlt
  · intro q j hq
    unfold grayscaleStep
    rw [store8_other _ _ _ _ _ _ (by rintro ⟨h1, h2⟩; rcases hq with hq | hq <;> omega)]
    exact hrest q j (by rcases hq with hq | hq; exact Or.inl hq; exact Or.inr (by omega))

/-- The casts of the conversion never change a value: the result is the plain
quotient of the weighted sum of the shifted components. -/
theorem grayOfPixel_eq (p : Nat) :
    grayOfPixel p
      = (299 * (((p >>> 11) &&& 0x1F) <<< 3) + 587 * (((p >>> 5) &&& 0x3F) <<< 2)
          + 114 * ((p &&& 0x1F) <<< 3)) / 1000 := by
  have hr : (p >>> 11) &&& 0x1F ≤ 0x1F := Nat.and_le_right
  have hg : (p >>> 5) &&& 0x3F ≤ 0x3F := Nat.and_le_right
  have hb : p &&& 0x1F ≤ 0x1F := Nat.and_le_right
  unfold grayOfPixel
  simp only [Nat.shiftLeft_eq]
  generalize (p >>> 11) &&& 0x1F = r at hr ⊢
  generalize (p >>> 5) &&& 0x3F = g at hg ⊢
  generalize p &&& 0x1F = b at hb ⊢
  norm_num at hr hg hb ⊢
  rw [Nat.mod_eq_of_lt (show r * 8 < 256 by omega),
    Nat.mod_eq_of_lt (show g * 4 < 256 by omega),
    Nat.mod_eq_of_lt (show b * 8 < 256 by omega)]
  have hq : (299 * (r * 8) + 587 * (g * 4) + 114 * (b * 8)) / 1000 < 256 := by omega
  exact Nat.mod_eq_of_lt hq

theorem convertToGrayscale_run (m : Mem) (imgIn imgOut : IMAGE_HandleTypeDef)
    (hfi : imgIn.format = IMAGE_FORMAT_RGB565)
    (hfo : imgOut.format = IMAGE_FORMAT_GRAYSCALE)
    (hw : imgIn.width = imgOut.width) (hh : imgIn.height = imgOut.height)
    (hw16 : imgIn.width < 65536) (hh16 : imgIn.height < 65536) :
    LIB_IMAGE_ConvertToGrayscale m imgIn imgOut
      = (IMAGE_OK, (List.range (imgIn.width * imgIn.height)).foldl
          (grayscaleStep imgIn.pData imgOut.pData) m) := by
  unfold LIB_IMAGE_ConvertToGrayscale
  rw [if_neg (by simp [hfi, hfo]), if_neg (by simp [hw, hh]), totalPixels_eq imgIn hw16 hh16]

/-- C3: for an RGB565 input and a GRAYSCALE output descriptor of equal
dimensions, `LIB_IMAGE_ConvertToGrayscale` returns `IMAGE_OK` and writes, for
every pixel `i` with 16-bit value `p`, the truncated quotient
`(299*R + 587*G + 114*B) / 1000` with `R = ((p >> 11) & 0x1F) << 3`,
`G = ((p >> 5) & 0x3F) << 2`, `B = (p & 0x1F) << 3`. -/
theorem convertToGrayscale_spec (m : Mem) (imgIn imgOut : IMAGE_HandleTypeDef)
    (hfi : imgIn.format = IMAGE_FORMAT_RGB565)
    (hfo : imgOut.format = IMAGE_FORMAT_GRAYSCALE)
    (hw : imgIn.width = imgOut.width) (hh : imgIn.height = imgOut.height)
    (hw16 : imgIn.width < 65536) (hh16 : imgIn.height < 65536) :
    (LIB_IMAGE_ConvertToGrayscale m imgIn imgOut).1 = IMAGE_OK ∧
    ∀ i, i < imgIn.width * imgIn.height →
      load8 (LIB_IMAGE_ConvertToGrayscale m imgIn imgOut).2 imgOut.pData i
        = (299 * (((load16 m imgIn.pData i >>> 11) &&& 0x1F) <<< 3)
            + 587 * (((load16 m imgIn.pData i >>> 5) &&& 0x3F) <<< 2)
            + 114 * ((load16 m imgIn.pData i &&& 0x1F) <<< 3)) / 1000 := by
  rw [convertToGrayscale_run m imgIn imgOut hfi hfo hw hh hw16 hh16]
  refine ⟨rfl, fun i hi => ?_⟩
  rw [← grayOfPixel_eq]
  exact (grayscale_loop imgIn.pData imgOut.pData m _).1 i hi

/-- C3 at a 2x1 image holding the pixels 0x0001 and 0xF800 (little-endian
bytes): blue 8 gives 912/1000, truncated to 0 and not rounded to 1. -/
theorem convertToGrayscale_spec_witness :
    ((LIB_IMAGE_ConvertToGrayscale (memOfList 1 [1, 0, 0, 248]) (colorImage 1 2 1)
        (grayImage 2 2 1)).1 = IMAGE_OK ∧
    ∀ i, i < (colorImage 1 2 1).width * (colorImage 1 2 1).height →
      load8 (LIB_IMAGE_ConvertToGrayscale (memOfList 1 [1, 0, 0, 248]) (colorImage 1 2 1)
          (grayImage 2 2 1)).2 (grayImage 2 2 1).pData i
        = (299 * (((load16 (memOfList 1 [1, 0, 0, 248]) (colorImage 1 2 1).pData i >>> 11)
              &&& 0x1F) <<< 3)
            + 587 * (((load16 (memOfList 1 [1, 0, 0, 248]) (colorImage 1 2 1).pData i >>> 5)
              &&& 0x3F) <<< 2)
            + 114 * ((load16 (memOfList 1 [1, 0, 0, 248]) (colorImage 1 2 1).pData i
              &&& 0x1F) <<< 3)) / 1000) ∧
    load8 (LIB_IMAGE_ConvertToGrayscale (memOfList 1 [1, 0, 0, 248]) (colorImage 1 2 1)
        (grayImage 2 2 1)).2 2 0 = 0 :=
  ⟨convertToGrayscale_spec (memOfList 1 [1, 0, 0, 248]) (colorImage 1 2 1) (grayImage 2 2 1)
    rfl rfl rfl rfl (by decide) (by decide), by decide⟩

/-- C10 fails: the 1x1 image whose pixel is 0xFFFF is converted to 250, not
255. -/
theorem convertToGrayscale_white_not_255 :
    load16 (memOfList 1 [255, 255]) 1 0 = 0xFFFF ∧
    (LIB_IMAGE_ConvertToGrayscale (memOfList 1 [255, 255]) (colorImage 1 1 1)
      (grayImage 2 1 1)).1 = IMAGE_OK ∧
    load8 (LIB_IMAGE_ConvertToGrayscale (memOfList 1 [255, 255]) (colorImage 1 1 1)
      (grayImage 2 1 1)).2 2 0 ≠ 255 := by
  decide

/-- C10, amended: `LIB_IMAGE_ConvertToGrayscale` maps every pixel of value
0xFFFF to the output luminance 250 (the components are 248, 252, 248). -/
theorem convertToGrayscale_white (m : Mem) (imgIn imgOut : IMAGE_HandleTypeDef)
    (hfi : imgIn.format = IMAGE_FORMAT_RGB565)
    (hfo : imgOut.format = IMAGE_FORMAT_GRAYSCALE)
    (hw : imgIn.width = imgOut.width) (hh : imgIn.height = imgOut.height)
    (hw16 : imgIn.width < 65536) (hh16 : imgIn.height < 65536)
    (i : Nat) (hi : i < imgIn.width * imgIn.height)
    (hp : load16 m imgIn.pData i = 0xFFFF) :
    load8 (LIB_IMAGE_ConvertToGrayscale m imgIn imgOut).2 imgOut.pData i = 250 := by
  rw [convertToGrayscale_run m imgIn imgOut hfi hfo hw hh hw16 hh16]
  rw [(grayscale_loop imgIn.pData imgOut.pData m _).1 i hi, hp]
  decide

/-- C10, amended, at the second pixel of a 2x1 image. -/
theorem convertToGrayscale_white_witness :
    load8 (LIB_IMAGE_ConvertToGrayscale (memOfList 1 [0, 0, 255, 255]) (colorImage 1 2 1)
      (grayImage 2 2 1)).2 (grayImage 2 2 1).pData 1 = 250 :=
  convertToGrayscale_white (memOfList 1 [0, 0, 255, 255]) (colorImage 1 2 1) (grayImage 2 2 1)
    rfl rfl rfl rfl (by decide) (by decide) 1 (by decide) (by decide)

/-! ## Morphology: indices and the kernel window -/

theorem idx32_natCast (n : Nat) (h : n < 4294967296) : idx32 (n : Int) = n := by
  unfold idx32
  rw [Int.emod_eq_of_lt (by omega) (by omega)]
  exact Int.toNat_ofNat n

theorem pixel_lt {x y w h : Nat} (hx : x < w) (hy : y < h) : y * w + x < w * h := by
  have h1 : (y + 1) * w ≤ h * w := Nat.mul_le_mul_right w hy
  have h2 : (y + 1) * w = y * w + w := by ring
  have h3 : h * w = w * h := Nat.mul_comm h w
  omega

theorem idx32_pixel {x y w h : Nat} (hx : x < w) (hy : y < h)
    (hw16 : w < 65536) (hh16 : h < 65536) :
    idx32 ((y : Int) * (w : Int) + (x : Int)) = y * w + x := by
  have hb : y * w + x < 4294967296 :=
    Nat.lt_trans (pixel_lt hx hy) (mul_lt_two_pow_32 hw16 hh16)
  have hc : (y : Int) * (w : Int) + (x : Int) = ((y * w + x : Nat) : Int) := by push_cast; ring
  rw [hc, idx32_natCast _ hb]

/-- A pixel index determines its row and its column. -/
theorem pixel_index_inj {x y x' y' w : Nat} (hx : x < w) (hx' : x' < w)
    (h : y * w + x = y' * w + x') : x = x' ∧ y = y' := by
  have hwpos : 0 < w := by omega
  have e1 : (y * w + x) % w = x := by
    rw [Nat.add_comm, Nat.add_mul_mod_self_right, Nat.mod_eq_of_lt hx]
  have e2 : (y' * w + x') % w = x' := by
    rw [Nat.add_comm, Nat.add_mul_mod_self_right, Nat.mod_eq_of_lt hx']
  have e3 : (y * w + x) / w = y := by
    rw [Nat.add_comm, Nat.add_mul_div_right _ _ hwpos, Nat.div_eq_of_lt hx, Nat.zero_add]
  have e4 : (y' * w + x') / w = y' := by
    rw [Nat.add_comm, Nat.add_mul_div_right _ _ hwpos, Nat.div_eq_of_lt hx', Nat.zero_add]
  constructor
  · rw [← e1, ← e2, h]
  · rw [← e3, ← e4, h]

theorem mem_kernelOffsets (hk : Nat) (k : Int) :
    k ∈ kernelOffsets hk ↔ -(hk : Int) ≤ k ∧ k ≤ (hk : Int) := by
  unfold kernelOffsets
  rw [List.mem_map]
  constructor
  · rintro ⟨j, hj, rfl⟩
    rw [List.mem_range] at hj
    omega
  · intro hk2
    refine ⟨(k + hk).toNat, ?_, ?_⟩
    · rw [List.mem_range]; omega
    · omega

theorem not_isBorder_iff (w h hk x y : Nat) :
    ¬ isBorder w h hk x y ↔ hk ≤ x ∧ x + hk < w ∧ hk ≤ y ∧ y + hk < h := by
  unfold isBorder
  omega

/-- The offset read by the kernel loops at `(x, y)` for the neighbour
`(b, a)` of the window. -/
theorem idx32_neighbour {x y a b w h : Nat} (hb : b < w) (ha : a < h)
    (hw16 : w < 65536) (hh16 : h < 65536) :
    idx32 (((y : Int) + ((a : Int) - (y : Int))) * (w : Int)
      + ((x : Int) + ((b : Int) - (x : Int)))) = a * w + b := by
  have hc : ((y : Int) + ((a : Int) - (y : Int))) * (w : Int)
      + ((x : Int) + ((b : Int) - (x : Int))) = (a : Int) * (w : Int) + (b : Int) := by ring
  rw [hc, idx32_pixel hb ha hw16 hh16]

/-! ## Morphology: minimum and maximum of the window -/

theorem foldl_min_spec {β : Type} (l : List β) (f : β → Nat) (init : Nat) :
    l.foldl (fun acc b => if erosionReplaces (f b) acc then f b else acc) init ≤ init ∧
    (∀ b ∈ l, l.foldl (fun acc b => if erosionReplaces (f b) acc then f b else acc) init ≤ f b) ∧
    (l.foldl (fun acc b => if erosionReplaces (f b) acc then f b else acc) init = init ∨
      ∃ b ∈ l, l.foldl (fun acc b => if erosionReplaces (f b) acc then f b else acc) init = f b) := by
  induction l generalizing init with
  | nil => simp
  | cons c t ih =>
    simp only [List.foldl_cons, List.mem_cons]
    obtain ⟨h1, h2, h3⟩ := ih (if erosionReplaces (f c) init then f c else init)
    have hle : (if erosionReplaces (f c) init then f c else init) ≤ init := by
      unfold erosionReplaces; split <;> simp_all; omega
    have hle2 : (if erosionReplaces (f c) init then f c else init) ≤ f c := by
      unfold erosionReplaces; split <;> simp_all
    refine ⟨Nat.le_trans h1 hle, ?_, ?_⟩
    · intro b hb
      rcases hb with rfl | hb
      · exact Nat.le_trans h1 hle2
      · exact h2 b hb
    · rcases h3 with h3 | ⟨b, hb, h3⟩
      · by_cases hc : erosionReplaces (f c) init = true
        · right; exact ⟨c, Or.inl rfl, by rw [h3, if_pos hc]⟩
        · left; rw [h3, if_neg hc]
      · right; exact ⟨b, Or.inr hb, h3⟩

theorem foldl_max_spec {β : Type} (l : List β) (f : β → Nat) (init : Nat) :
    init ≤ l.foldl (fun acc b => if dilationReplaces (f b) acc then f b else acc) init ∧
    (∀ b ∈ l, f b ≤ l.foldl (fun acc b => if dilationReplaces (f b) acc then f b else acc) init) ∧
    (l.foldl (fun acc b => if dilationReplaces (f b) acc then f b else acc) init = init ∨
      ∃ b ∈ l, l.foldl (fun acc b => if dilationReplaces (f b) acc then f b else acc) init = f b) := by
  induction l generalizing init with
  | nil => simp
  | cons c t ih =>
    simp only [List.foldl_cons, List.mem_cons]
    obtain ⟨h1, h2, h3⟩ := ih (if dilationReplaces (f c) init then f c else init)
    have hle : init ≤ (if dilationReplaces (f c) init then f c else init) := by
      unfold dilationReplaces; split <;> simp_all; omega
    have hle2 : f c ≤ (if dilationReplaces (f c) init then f c else init) := by
      unfold dilationReplaces; split <;> simp_all
    refine ⟨Nat.le_trans hle h1, ?_, ?_⟩
    · intro b hb
      rcases hb with rfl | hb
      · exact Nat.le_trans hle2 h1
      · exact h2 b hb
    · rcases h3 with h3 | ⟨b, hb, h3⟩
      · by_cases hc : dilationReplaces (f c) init = true
        · right; exact ⟨c, Or.inl rfl, by rw [h3, if_pos hc]⟩
        · left; rw [h3, if_neg hc]
      · right; exact ⟨b, Or.inr hb, h3⟩

theorem foldl_pick {β : Type} (replaces : Nat → Nat → Bool) (l : List β) (f : β → Nat)
    (init : Nat) :
    l.foldl (fun acc b => if replaces (f b) acc then f b else acc) init = init ∨
      ∃ b ∈ l, l.foldl (fun acc b => if replaces (f b) acc then f b else acc) init = f b := by
  induction l generalizing init with
  | nil => simp
  | cons c t ih =>
    simp only [List.foldl_cons, List.mem_cons]
    rcases ih (if replaces (f c) init then f c else init) with h3 | ⟨b, hb, h3⟩
    · by_cases hc : replaces (f c) init = true
      · right; exact ⟨c, Or.inl rfl, by rw [h3, if_pos hc]⟩
      · left; rw [h3, if_neg hc]
    · right; exact ⟨b, Or.inr hb, h3⟩

theorem foldl2_pick {β γ : Type} (replaces : Nat → Nat → Bool) (l1 : List β) (l2 : List γ)
    (g : β → γ → Nat) (init : Nat) :
    l1.foldl (fun acc a =>
        l2.foldl (fun acc b => if replaces (g a b) acc then g a b else acc) acc) init = init ∨
      ∃ a ∈ l1, ∃ b ∈ l2, l1.foldl (fun acc a =>
        l2.foldl (fun acc b => if replaces (g a b) acc then g a b else acc) acc) init
          = g a b := by
  induction l1 generalizing init with
  | nil => simp
  | cons c t ih =>
    simp only [List.foldl_cons, List.mem_cons]
    rcases ih (l2.foldl (fun acc b => if replaces (g c b) acc then g c b else acc) init)
      with h3 | ⟨a, ha, b, hb, h3⟩
    · rcases foldl_pick replaces l2 (g c) init with h4 | ⟨b, hb, h4⟩
      · left; rw [h3, h4]
      · right; exact ⟨c, Or.inl rfl, b, hb, by rw [h3, h4]⟩
    · right; exact ⟨a, Or.inr ha, b, hb, h3⟩

theorem foldl2_min_le {β γ : Type} (l1 : List β) (l2 : List γ) (g : β → γ → Nat)
    (init : Nat) :
    l1.foldl (fun acc a =>
        l2.foldl (fun acc b => if erosionReplaces (g a b) acc then g a b else acc) acc) init
      ≤ init ∧
    ∀ a ∈ l1, ∀ b ∈ l2, l1.foldl (fun acc a =>
        l2.foldl (fun acc b => if erosionReplaces (g a b) acc then g a b else acc) acc) init
      ≤ g a b := by
  induction l1 generalizing init with
  | nil => simp
  | cons c t ih =>
    simp only [List.foldl_cons, List.mem_cons]
    obtain ⟨i1, i2, _⟩ := foldl_min_spec l2 (g c) init
    obtain ⟨h1, h2⟩ :=
      ih (l2.foldl (fun acc b => if erosionReplaces (g c b) acc then g c b else acc) init)
    refine ⟨Nat.le_trans h1 i1, ?_⟩
    intro a ha b hb
    rcases ha with rfl | ha
    · exact Nat.le_trans h1 (i2 b hb)
    · exact h2 a ha b hb

theorem foldl2_max_ge {β γ : Type} (l1 : List β) (l2 : List γ) (g : β → γ → Nat)
    (init : Nat) :
    init ≤ l1.foldl (fun acc a =>
        l2.foldl (fun acc b => if dilationReplaces (g a b) acc then g a b else acc) acc) init ∧
    ∀ a ∈ l1, ∀ b ∈ l2, g a b ≤ l1.foldl (fun acc a =>
        l2.foldl (fun acc b => if dilationReplaces (g a b) acc then g a b else acc) acc) init := by
  induction l1 generalizing init with
  | nil => simp
  | cons c t ih =>
    simp only [List.foldl_cons, List.mem_cons]
    obtain ⟨i1, i2, _⟩ := foldl_max_spec l2 (g c) init
    obtain ⟨h1, h2⟩ :=
      ih (l2.foldl (fun acc b => if dilationReplaces (g c b) acc then g c b else acc) init)
    refine ⟨Nat.le_trans i1 h1, ?_⟩
    intro a ha b hb
    rcases ha with rfl | ha
    · exact Nat.le_trans (i2 b hb) h1
    · exact h2 a ha b hb

/-- The kernel loops return the initial value or a value they have read. -/
theorem windowScan_pick (replaces : Nat → Nat → Bool) (init : Nat) (src : Nat → Nat)
    (w hk x y : Nat) :
    windowScan replaces init src w hk x y = init ∨
    ∃ ky ∈ kernelOffsets hk, ∃ kx ∈ kernelOffsets hk,
      windowScan replaces init src w hk x y
        = src (idx32 (((y : Int) + ky) * (w : Int) + ((x : Int) + kx))) :=
  foldl2_pick replaces (kernelOffsets hk) (kernelOffsets hk)
    (fun ky kx => src (idx32 (((y : Int) + ky) * (w : Int) + ((x : Int) + kx)))) init

theorem windowScan_min_le (src : Nat → Nat) (w hk x y : Nat) :
    ∀ ky ∈ kernelOffsets hk, ∀ kx ∈ kernelOffsets hk,
      windowScan erosionReplaces 255 src w hk x y
        ≤ src (idx32 (((y : Int) + ky) * (w : Int) + ((x : Int) + kx))) :=
  (foldl2_min_le (kernelOffsets hk) (kernelOffsets hk)
    (fun ky kx => src (idx32 (((y : Int) + ky) * (w : Int) + ((x : Int) + kx)))) 255).2

theorem windowScan_max_ge (src : Nat → Nat) (w hk x y : Nat) :
    ∀ ky ∈ kernelOffsets hk, ∀ kx ∈ kernelOffsets hk,
      src (idx32 (((y : Int) + ky) * (w : Int) + ((x : Int) + kx)))
        ≤ windowScan dilationReplaces 0 src w hk x y :=
  (foldl2_max_ge (kernelOffsets hk) (kernelOffsets hk)
    (fun ky kx => src (idx32 (((y : Int) + ky) * (w : Int) + ((x : Int) + kx)))) 0).2

theorem morphValue_lt (replaces : Nat → Nat → Bool) (init : Nat) (src : Nat → Nat)
    (w h hk x y : Nat) (hinit : init < 256) (hsrc : ∀ j, src j < 256) :
    morphValue replaces init src w h hk x y < 256 := by
  unfold morphValue
  split
  · exact hsrc _
  · rcases windowScan_pick replaces init src w hk x y with h1 | ⟨ky, _, kx, _, h1⟩
    · rw [h1]; exact hinit
    · rw [h1]; exact hsrc _

/-! ## Morphology: the pixel loops -/

theorem load8_store8_other (m : Mem) (p i v q j : Nat) (h : ¬ (q = p ∧ j = i)) :
    load8 (store8 m p i v) q j = load8 m q j := by
  unfold load8
  rw [store8_other m p i v q j h]

theorem morphPixel_eq (replaces : Nat → Nat → Bool) (init pIn pOut w h hk y : Nat)
    (m : Mem) (x : Nat) :
    morphPixel replaces init pIn pOut w h hk y m x
      = store8 m pOut (idx32 ((y : Int) * (w : Int) + (x : Int)))
          (morphValue replaces init (load8 m pIn) w h hk x y) := by
  unfold morphPixel morphValue
  split <;> rfl

/-- Invariant rule for the two pixel loops: `Q D a` is a property of the
memory `a` once the pixels in `D` have been processed. -/
theorem morph_loops_inv (replaces : Nat → Nat → Bool) (init pIn pOut w h hk : Nat)
    (Q : (Nat → Nat → Prop) → Mem → Prop) (m0 : Mem)
    (hcongr : ∀ (D D' : Nat → Nat → Prop) (a : Mem),
      (∀ x y, x < w → (D x y ↔ D' x y)) → Q D a → Q D' a)
    (h0 : Q (fun _ _ => False) m0)
    (hstep : ∀ X Y a, X < w → Y < h →
      Q (fun x y => y < Y ∨ (y = Y ∧ x < X)) a →
      Q (fun x y => y < Y ∨ (y = Y ∧ x < X + 1))
        (morphPixel replaces init pIn pOut w h hk Y a X)) :
    Q (fun _ y => y < h)
      ((List.range h).foldl (morphRow replaces init pIn pOut w h hk) m0) := by
  refine foldl_range_inv (fun Y a => Q (fun _ y => y < Y) a)
    (morphRow replaces init pIn pOut w h hk) m0 h ?_ ?_
  · exact hcongr _ _ m0 (fun x y _ => by simp) h0
  · intro Y a hY hQ
    have hin := foldl_range_inv (fun X b => Q (fun x y => y < Y ∨ (y = Y ∧ x < X)) b)
      (morphPixel replaces init pIn pOut w h hk Y) a w
      (hcongr _ _ a (fun x y _ => by simp) hQ)
      (fun X b hX hb => hstep X Y b hX hY hb)
    exact hcongr _ _ _ (fun x y hx => by constructor <;> intro hd <;> omega) hin

/-- The pixel loops with distinct input and output buffers: every pixel of the
output holds the value computed from the input before the call, and no cell
outside the output buffer changes. -/
theorem morph_loops (replaces : Nat → Nat → Bool) (init pIn pOut w h hk : Nat) (m0 : Mem)
    (hne : pIn ≠ pOut) (hw16 : w < 65536) (hh16 : h < 65536) (hinit : init < 256) :
    (∀ x y, x < w → y < h →
      load8 ((List.range h).foldl (morphRow replaces init pIn pOut w h hk) m0) pOut
          (y * w + x)
        = morphValue replaces init (load8 m0 pIn) w h hk x y) ∧
    (∀ q j, q ≠ pOut →
      ((List.range h).foldl (morphRow replaces init pIn pOut w h hk) m0).cell q j
        = m0.cell q j) := by
  have key := morph_loops_inv replaces init pIn pOut w h hk
    (fun D a =>
      (∀ x y, x < w → y < h → D x y →
        load8 a pOut (y * w + x) = morphValue replaces init (load8 m0 pIn) w h hk x y) ∧
      (∀ q j, q ≠ pOut → a.cell q j = m0.cell q j)) m0
    (fun D D' a hD hQ =>
      ⟨fun x y hx hy hd => hQ.1 x y hx hy ((hD x y hx).2 hd), hQ.2⟩)
    ⟨fun x y _ _ hd => hd.elim, fun q j _ => rfl⟩
    (by
      intro X Y a hX hY hQ
      obtain ⟨h1, h2⟩ := hQ
      have hsrc : load8 a pIn = load8 m0 pIn := by
        funext j
        unfold load8
        rw [h2 pIn j hne]
      rw [morphPixel_eq, idx32_pixel hX hY hw16 hh16, hsrc]
      constructor
      · intro x y hx hy hd
        by_cases hxy : x = X ∧ y = Y
        · obtain ⟨rfl, rfl⟩ := hxy
          rw [load8_store8_same]
          exact Nat.mod_eq_of_lt
            (morphValue_lt replaces init _ w h hk x y hinit (fun j => load8_lt m0 pIn j))
        · have hidx : y * w + x ≠ Y * w + X := fun hc => hxy (pixel_index_inj hx hX hc)
          rw [load8_store8_other _ _ _ _ _ _ (fun hc => hidx hc.2)]
          exact h1 x y hx hy (by omega)
      · intro q j hq
        rw [store8_other _ _ _ _ _ _ (fun hc => hq hc.1)]
        exact h2 q j hq)
  exact ⟨fun x y hx hy => key.1 x y hx hy hy, key.2⟩

/-- The pixel loops on any pair of buffers, the same one included: a border
pixel of the output holds the input pixel at that position. -/
theorem morph_loops_border (replaces : Nat → Nat → Bool) (init pIn pOut w h hk : Nat)
    (m0 : Mem) (hw16 : w < 65536) (hh16 : h < 65536) :
    ∀ x y, x < w → y < h → isBorder w h hk x y →
      load8 ((List.range h).foldl (morphRow replaces init pIn pOut w h hk) m0) pOut
          (y * w + x)
        = load8 m0 pIn (y * w + x) := by
  have key := morph_loops_inv replaces init pIn pOut w h hk
    (fun D a =>
      ∀ x y, x < w → y < h → isBorder w h hk x y →
        load8 a pIn (y * w + x) = load8 m0 pIn (y * w + x) ∧
        (D x y → load8 a pOut (y * w + x) = load8 m0 pIn (y * w + x))) m0
    (fun D D' a hD hQ x y hx hy hb =>
      ⟨(hQ x y hx hy hb).1, fun hd => (hQ x y hx hy hb).2 ((hD x y hx).2 hd)⟩)
    (fun x y _ _ _ => ⟨rfl, fun hd => hd.elim⟩)
    (by
      intro X Y a hX hY hQ x y hx hy hb
      rw [morphPixel_eq, idx32_pixel hX hY hw16 hh16]
      by_cases hxy : x = X ∧ y = Y
      · obtain ⟨rfl, rfl⟩ := hxy
        have hval : morphValue replaces init (load8 a pIn) w h hk x y
            = load8 m0 pIn (y * w + x) := by
          unfold morphValue
          rw [if_pos hb, idx32_pixel hx hy hw16 hh16]
          exact (hQ x y hx hy hb).1
        rw [hval]
        have hmod : load8 m0 pIn (y * w + x) % 256 = load8 m0 pIn (y * w + x) :=
          Nat.mod_eq_of_lt (load8_lt _ _ _)
        constructor
        · by_cases hpp : pIn = pOut
          · rw [hpp, load8_store8_same, ← hpp, hmod]
          · rw [load8_store8_other _ _ _ _ _ _ (fun hc => hpp hc.1)]
            exact (hQ x y hx hy hb).1
        · intro _
          rw [load8_store8_same, hmod]
      · have hidx : y * w + x ≠ Y * w + X := fun hc => hxy (pixel_index_inj hx hX hc)
        rw [load8_store8_other _ _ _ _ _ _ (fun hc => hidx hc.2),
          load8_store8_other _ _ _ _ _ _ (fun hc => hidx hc.2)]
        exact ⟨(hQ x y hx hy hb).1, fun hd => (hQ x y hx hy hb).2 (by omega)⟩)
  exact fun x y hx hy hb => (key x y hx hy hb).2 hy

theorem morphology_run (replaces : Nat → Nat → Bool) (init : Nat) (m : Mem)
    (imgIn imgOut : IMAGE_HandleTypeDef) (k : Nat)
    (hfi : imgIn.format = IMAGE_FORMAT_GRAYSCALE)
    (hfo : imgOut.format = IMAGE_FORMAT_GRAYSCALE)
    (hw : imgIn.width = imgOut.width) (hh : imgIn.height = imgOut.height) :
    morphology replaces init m imgIn imgOut k
      = (IMAGE_OK, (List.range imgIn.height).foldl
          (morphRow replaces init imgIn.pData imgOut.pData imgIn.width imgIn.height (k / 2))
          m) := by
  unfold morphology
  rw [if_neg (by simp [hfi, hfo]), if_neg (by simp [hw, hh])]

/-- With distinct buffers, a successful run stores at every pixel the value
computed from the input before the call and changes no other buffer. -/
theorem morphology_pixel (replaces : Nat → Nat → Bool) (init : Nat) (m : Mem)
    (imgIn imgOut : IMAGE_HandleTypeDef) (k : Nat)
    (hfi : imgIn.format = IMAGE_FORMAT_GRAYSCALE)
    (hfo : imgOut.format = IMAGE_FORMAT_GRAYSCALE)
    (hw : imgIn.width = imgOut.width) (hh : imgIn.height = imgOut.height)
    (hw16 : imgIn.width < 65536) (hh16 : imgIn.height < 65536)
    (hne : imgIn.pData ≠ imgOut.pData) (hinit : init < 256) :
    (morphology replaces init m imgIn imgOut k).1 = IMAGE_OK ∧
    (∀ x y, x < imgIn.width → y < imgIn.height →
      load8 (morphology replaces init m imgIn imgOut k).2 imgOut.pData (y * imgIn.width + x)
        = morphValue replaces init (load8 m imgIn.pData) imgIn.width imgIn.height (k / 2)
            x y) ∧
    (∀ q j, q ≠ imgOut.pData →
      (morphology replaces init m imgIn imgOut k).2.cell q j = m.cell q j) := by
  rw [morphology_run replaces init m imgIn imgOut k hfi hfo hw hh]
  exact ⟨rfl, morph_loops replaces init imgIn.pData imgOut.pData imgIn.width imgIn.height
    (k / 2) m hne hw16 hh16 hinit⟩

/-- The offset read for the kernel offsets `(kx, ky)` at a non-border pixel is
the index of the pixel in row `y + ky` and column `x + kx` of the image. -/
theorem idx32_offset {x y w h hk : Nat} {kx ky : Int}
    (hx1 : hk ≤ x) (hx2 : x + hk < w) (hy1 : hk ≤ y) (hy2 : y + hk < h)
    (hkx : kx ∈ kernelOffsets hk) (hky : ky ∈ kernelOffsets hk)
    (hw16 : w < 65536) (hh16 : h < 65536) :
    ∃ a b : Nat, y - hk ≤ a ∧ a ≤ y + hk ∧ x - hk ≤ b ∧ b ≤ x + hk ∧
      idx32 (((y : Int) + ky) * (w : Int) + ((x : Int) + kx)) = a * w + b := by
  rw [mem_kernelOffsets] at hkx hky
  obtain ⟨a, ha⟩ : ∃ a : Nat, (y : Int) + ky = (a : Int) :=
    ⟨((y : Int) + ky).toNat, by omega⟩
  obtain ⟨b, hb⟩ : ∃ b : Nat, (x : Int) + kx = (b : Int) :=
    ⟨((x : Int) + kx).toNat, by omega⟩
  refine ⟨a, b, by omega, by omega, by omega, by omega, ?_⟩
  rw [ha, hb]
  exact idx32_pixel (by omega) (by omega) hw16 hh16

/-! ## C4, C5: erosion and dilation at the non-border pixels -/

/-- C4: with GRAYSCALE descriptors of equal dimensions on distinct buffers and
`h = k/2`, `LIB_IMAGE_Erosion` writes at every pixel `(x, y)` with
`h <= x < width - h` and `h <= y < height - h` the minimum of the input pixels
of the `(2h+1) x (2h+1)` neighbourhood centred at `(x, y)`: the output is below
every pixel of the neighbourhood and is one of them. -/
theorem erosion_interior_min (m : Mem) (imgIn imgOut : IMAGE_HandleTypeDef) (k : Nat)
    (hfi : imgIn.format = IMAGE_FORMAT_GRAYSCALE)
    (hfo : imgOut.format = IMAGE_FORMAT_GRAYSCALE)
    (hw : imgIn.width = imgOut.width) (hh : imgIn.height = imgOut.height)
    (hw16 : imgIn.width < 65536) (hh16 : imgIn.height < 65536)
    (hne : imgIn.pData ≠ imgOut.pData) (x y : Nat)
    (hx1 : k / 2 ≤ x) (hx2 : x < imgIn.width - k / 2)
    (hy1 : k / 2 ≤ y) (hy2 : y < imgIn.height - k / 2) :
    (∀ a b, y - k / 2 ≤ a → a ≤ y + k / 2 → x - k / 2 ≤ b → b ≤ x + k / 2 →
      load8 (LIB_IMAGE_Erosion m imgIn imgOut k).2 imgOut.pData (y * imgIn.width + x)
        ≤ load8 m imgIn.pData (a * imgIn.width + b)) ∧
    (∃ a b, y - k / 2 ≤ a ∧ a ≤ y + k / 2 ∧ x - k / 2 ≤ b ∧ b ≤ x + k / 2 ∧
      load8 (LIB_IMAGE_Erosion m imgIn imgOut k).2 imgOut.pData (y * imgIn.width + x)
        = load8 m imgIn.pData (a * imgIn.width + b)) := by
  have hxw : x + k / 2 < imgIn.width := by omega
  have hyh : y + k / 2 < imgIn.height := by omega
  have hnb : ¬ isBorder imgIn.width imgIn.height (k / 2) x y :=
    (not_isBorder_iff _ _ _ _ _).2 ⟨hx1, hxw, hy1, hyh⟩
  have hval : load8 (LIB_IMAGE_Erosion m imgIn imgOut k).2 imgOut.pData (y * imgIn.width + x)
      = windowScan erosionReplaces 255 (load8 m imgIn.pData) imgIn.width (k / 2) x y := by
    unfold LIB_IMAGE_Erosion
    rw [(morphology_pixel erosionReplaces 255 m imgIn imgOut k hfi hfo hw hh hw16 hh16 hne
      (by decide)).2.1 x y (by omega) (by omega)]
    unfold morphValue
    rw [if_neg hnb]
  rw [hval]
  have hall : ∀ a b, y - k / 2 ≤ a → a ≤ y + k / 2 → x - k / 2 ≤ b → b ≤ x + k / 2 →
      windowScan erosionReplaces 255 (load8 m imgIn.pData) imgIn.width (k / 2) x y
        ≤ load8 m imgIn.pData (a * imgIn.width + b) := by
    intro a b ha1 ha2 hb1 hb2
    have hle := windowScan_min_le (load8 m imgIn.pData) imgIn.width (k / 2) x y
      ((a : Int) - (y : Int)) ((mem_kernelOffsets _ _).2 (by omega))
      ((b : Int) - (x : Int)) ((mem_kernelOffsets _ _).2 (by omega))
    rw [idx32_neighbour (show b < imgIn.width by omega) (show a < imgIn.height by omega)
      hw16 hh16] at hle
    exact hle
  refine ⟨hall, ?_⟩
  rcases windowScan_pick erosionReplaces 255 (load8 m imgIn.pData) imgIn.width (k / 2) x y
    with h1 | ⟨ky, hky, kx, hkx, h1⟩
  · refine ⟨y, x, by omega, by omega, by omega, by omega, ?_⟩
    have hc := hall y x (by omega) (by omega) (by omega) (by omega)
    have hlt := load8_lt m imgIn.pData (y * imgIn.width + x)
    omega
  · obtain ⟨a, b, ha1, ha2, hb1, hb2, hidx⟩ :=
      idx32_offset hx1 hxw hy1 hyh hkx hky hw16 hh16
    exact ⟨a, b, ha1, ha2, hb1, hb2, by rw [h1, hidx]⟩

/-- C5: with GRAYSCALE descriptors of equal dimensions on distinct buffers and
`h = k/2`, `LIB_IMAGE_Dilation` writes at every pixel `(x, y)` with
`h <= x < width - h` and `h <= y < height - h` the maximum of the input pixels
of the `(2h+1) x (2h+1)` neighbourhood centred at `(x, y)`: the output is above
every pixel of the neighbourhood and is one of them. -/
theorem dilation_interior_max (m : Mem) (imgIn imgOut : IMAGE_HandleTypeDef) (k : Nat)
    (hfi : imgIn.format = IMAGE_FORMAT_GRAYSCALE)
    (hfo : imgOut.format = IMAGE_FORMAT_GRAYSCALE)
    (hw : imgIn.width = imgOut.width) (hh : imgIn.height = imgOut.height)
    (hw16 : imgIn.width < 65536) (hh16 : imgIn.height < 65536)
    (hne : imgIn.pData ≠ imgOut.pData) (x y : Nat)
    (hx1 : k / 2 ≤ x) (hx2 : x < imgIn.width - k / 2)
    (hy1 : k / 2 ≤ y) (hy2 : y < imgIn.height - k / 2) :
    (∀ a b, y - k / 2 ≤ a → a ≤ y + k / 2 → x - k / 2 ≤ b → b ≤ x + k / 2 →
      load8 m imgIn.pData (a * imgIn.width + b)
        ≤ load8 (LIB_IMAGE_Dilation m imgIn imgOut k).2 imgOut.pData
            (y * imgIn.width + x)) ∧
    (∃ a b, y - k / 2 ≤ a ∧ a ≤ y + k / 2 ∧ x - k / 2 ≤ b ∧ b ≤ x + k / 2 ∧
      load8 (LIB_IMAGE_Dilation m imgIn imgOut k).2 imgOut.pData (y * imgIn.width + x)
        = load8 m imgIn.pData (a * imgIn.width + b)) := by
  have hxw : x + k / 2 < imgIn.width := by omega
  have hyh : y + k / 2 < imgIn.height := by omega
  have hnb : ¬ isBorder imgIn.width imgIn.height (k / 2) x y :=
    (not_isBorder_iff _ _ _ _ _).2 ⟨hx1, hxw, hy1, hyh⟩
  have hval : load8 (LIB_IMAGE_Dilation m imgIn imgOut k).2 imgOut.pData (y * imgIn.width + x)
      = windowScan dilationReplaces 0 (load8 m imgIn.pData) imgIn.width (k / 2) x y := by
    unfold LIB_IMAGE_Dilation
    rw [(morphology_pixel dilationReplaces 0 m imgIn imgOut k hfi hfo hw hh hw16 hh16 hne
      (by decide)).2.1 x y (by omega) (by omega)]
    unfold morphValue
    rw [if_neg hnb]
  rw [hval]
  have hall : ∀ a b, y - k / 2 ≤ a → a ≤ y + k / 2 → x - k / 2 ≤ b → b ≤ x + k / 2 →
      load8 m imgIn.pData (a * imgIn.width + b)
        ≤ windowScan dilationReplaces 0 (load8 m imgIn.pData) imgIn.width (k / 2) x y := by
    intro a b ha1 ha2 hb1 hb2
    have hle := windowScan_max_ge (load8 m imgIn.pData) imgIn.width (k / 2) x y
      ((a : Int) - (y : Int)) ((mem_kernelOffsets _ _).2 (by omega))
      ((b : Int) - (x : Int)) ((mem_kernelOffsets _ _).2 (by omega))
    rw [idx32_neighbour (show b < imgIn.width by omega) (show a < imgIn.height by omega)
      hw16 hh16] at hle
    exact hle
  refine ⟨hall, ?_⟩
  rcases windowScan_pick dilationReplaces 0 (load8 m imgIn.pData) imgIn.width (k / 2) x y
    with h1 | ⟨ky, hky, kx, hkx, h1⟩
  · refine ⟨y, x, by omega, by omega, by omega, by omega, ?_⟩
    have hc := hall y x (by omega) (by omega) (by omega) (by omega)
    omega
  · obtain ⟨a, b, ha1, ha2, hb1, hb2, hidx⟩ :=
      idx32_offset hx1 hxw hy1 hyh hkx hky hw16 hh16
    exact ⟨a, b, ha1, ha2, hb1, hb2, by rw [h1, hidx]⟩

/-! ## Morphology: two passes through a scratch buffer -/

theorem pixel_mod {x w : Nat} (y : Nat) (hx : x < w) : (y * w + x) % w = x := by
  rw [Nat.add_comm, Nat.add_mul_mod_self_right, Nat.mod_eq_of_lt hx]

theorem pixel_div {x w : Nat} (y : Nat) (hx : x < w) : (y * w + x) / w = y := by
  rw [Nat.add_comm, Nat.add_mul_div_right _ _ (by omega : 0 < w), Nat.div_eq_of_lt hx,
    Nat.zero_add]

theorem offset_split {i w h : Nat} (hi : i < w * h) :
    i % w < w ∧ i / w < h ∧ (i / w) * w + i % w = i := by
  have hwpos : 0 < w := by
    rcases Nat.eq_zero_or_pos w with h0 | h0
    · rw [h0, Nat.zero_mul] at hi; omega
    · exact h0
  refine ⟨Nat.mod_lt _ hwpos, Nat.div_lt_of_lt_mul hi, ?_⟩
  have := Nat.div_add_mod i w
  rw [Nat.mul_comm] at this
  exact this

theorem morphValue_border (replaces : Nat → Nat → Bool) (init : Nat) (src : Nat → Nat)
    {w h hk x y : Nat} (hx : x < w) (hy : y < h) (hw16 : w < 65536) (hh16 : h < 65536)
    (hb : isBorder w h hk x y) :
    morphValue replaces init src w h hk x y = src (y * w + x) := by
  unfold morphValue
  rw [if_pos hb, idx32_pixel hx hy hw16 hh16]

/-- The value stored at a pixel depends on the input pixels of the image only. -/
theorem morphValue_congr (replaces : Nat → Nat → Bool) (init : Nat) (src src' : Nat → Nat)
    {w h hk x y : Nat} (hx : x < w) (hy : y < h) (hw16 : w < 65536) (hh16 : h < 65536)
    (hagree : ∀ j, j < w * h → src j = src' j) :
    morphValue replaces init src w h hk x y = morphValue replaces init src' w h hk x y := by
  unfold morphValue
  by_cases hb : isBorder w h hk x y
  · rw [if_pos hb, if_pos hb, idx32_pixel hx hy hw16 hh16]
    exact hagree _ (pixel_lt hx hy)
  · rw [if_neg hb, if_neg hb]
    obtain ⟨hx1, hx2, hy1, hy2⟩ := (not_isBorder_iff _ _ _ _ _).1 hb
    unfold windowScan
    refine List.foldl_ext _ _ _ (fun acc ky hky => ?_)
    refine List.foldl_ext _ _ _ (fun acc2 kx hkx => ?_)
    obtain ⟨a, b, _, ha2, _, hb2, hidx⟩ := idx32_offset hx1 hx2 hy1 hy2 hkx hky hw16 hh16
    simp only [hidx]
    rw [hagree _ (pixel_lt (show b < w by omega) (show a < h by omega))]

/-- Two passes through a scratch buffer distinct from the input and the
output buffer: both succeed and every output pixel is the second
transformation of the image produced by the first, whatever the scratch
buffer is. -/
theorem morph_two_step (rep1 : Nat → Nat → Bool) (init1 : Nat) (rep2 : Nat → Nat → Bool)
    (init2 : Nat) (m : Mem) (imgIn imgMid imgOut : IMAGE_HandleTypeDef) (k : Nat)
    (hfi : imgIn.format = IMAGE_FORMAT_GRAYSCALE)
    (hfm : imgMid.format = IMAGE_FORMAT_GRAYSCALE)
    (hfo : imgOut.format = IMAGE_FORMAT_GRAYSCALE)
    (hwm : imgIn.width = imgMid.width) (hhm : imgIn.height = imgMid.height)
    (hw : imgIn.width = imgOut.width) (hh : imgIn.height = imgOut.height)
    (hw16 : imgIn.width < 65536) (hh16 : imgIn.height < 65536)
    (hmi : imgMid.pData ≠ imgIn.pData) (hmo : imgMid.pData ≠ imgOut.pData)
    (hi1 : init1 < 256) (hi2 : init2 < 256) :
    (morphology rep1 init1 m imgIn imgMid k).1 = IMAGE_OK ∧
    (morphology rep2 init2 (morphology rep1 init1 m imgIn imgMid k).2 imgMid imgOut k).1
      = IMAGE_OK ∧
    ∀ x y, x < imgIn.width → y < imgIn.height →
      load8 (morphology rep2 init2 (morphology rep1 init1 m imgIn imgMid k).2
          imgMid imgOut k).2 imgOut.pData (y * imgIn.width + x)
        = morphValue rep2 init2
            (fun j => morphValue rep1 init1 (load8 m imgIn.pData) imgIn.width imgIn.height
              (k / 2) (j % imgIn.width) (j / imgIn.width))
            imgIn.width imgIn.height (k / 2) x y := by
  obtain ⟨s1, p1, _⟩ := morphology_pixel rep1 init1 m imgIn imgMid k hfi hfm hwm hhm
    hw16 hh16 (fun hc => hmi hc.symm) hi1
  obtain ⟨s2, p2, _⟩ := morphology_pixel rep2 init2 (morphology rep1 init1 m imgIn imgMid k).2
    imgMid imgOut k hfm hfo (by rw [← hwm, hw]) (by rw [← hhm, hh])
    (by rw [← hwm]; exact hw16) (by rw [← hhm]; exact hh16) hmo hi2
  refine ⟨s1, s2, fun x y hx hy => ?_⟩
  have h2 := p2 x y (by rw [← hwm]; exact hx) (by rw [← hhm]; exact hy)
  rw [← hwm, ← hhm] at h2
  rw [h2]
  refine morphValue_congr rep2 init2 _ _ hx hy hw16 hh16 (fun j hj => ?_)
  obtain ⟨hjx, hjy, hjs⟩ := offset_split hj
  have h1 := p1 (j % imgIn.width) (j / imgIn.width) hjx hjy
  rw [hjs] at h1
  exact h1

theorem initTemp_eq (tempBuffer : Nat) (imgTemp imgIn : IMAGE_HandleTypeDef)
    (ht : tempBuffer ≠ 0) (hw : imgIn.width ≠ 0) (hh : imgIn.height ≠ 0) :
    initTemp tempBuffer imgTemp imgIn
      = { pData := tempBuffer, width := imgIn.width, height := imgIn.height,
          format := IMAGE_FORMAT_GRAYSCALE,
          size := (IMAGE_FORMAT_GRAYSCALE * imgIn.height * imgIn.width) % 4294967296 } := by
  unfold initTemp LIB_IMAGE_InitStruct
  simp [ht, hw, hh, IMAGE_FORMAT_GRAYSCALE]

/-- The pixels of `LIB_IMAGE_Opening`: the dilation of the eroded input. -/
theorem opening_pixel (tempBuffer : Nat) (imgTemp : IMAGE_HandleTypeDef) (m : Mem)
    (imgIn imgOut : IMAGE_HandleTypeDef) (k : Nat)
    (hfi : imgIn.format = IMAGE_FORMAT_GRAYSCALE)
    (hfo : imgOut.format = IMAGE_FORMAT_GRAYSCALE)
    (hw : imgIn.width = imgOut.width) (hh : imgIn.height = imgOut.height)
    (hw128 : imgIn.width ≤ 128) (hh128 : imgIn.height ≤ 128)
    (ht0 : tempBuffer ≠ 0) (hti : tempBuffer ≠ imgIn.pData) (hto : tempBuffer ≠ imgOut.pData)
    (x y : Nat) (hx : x < imgIn.width) (hy : y < imgIn.height) :
    (LIB_IMAGE_Opening tempBuffer imgTemp m imgIn imgOut k).1 = IMAGE_OK ∧
    load8 (LIB_IMAGE_Opening tempBuffer imgTemp m imgIn imgOut k).2 imgOut.pData
        (y * imgIn.width + x)
      = morphValue dilationReplaces 0
          (fun j => morphValue erosionReplaces 255 (load8 m imgIn.pData) imgIn.width
            imgIn.height (k / 2) (j % imgIn.width) (j / imgIn.width))
          imgIn.width imgIn.height (k / 2) x y := by
  have hT := initTemp_eq tempBuffer imgTemp imgIn ht0 (by omega) (by omega)
  obtain ⟨s1, s2, p⟩ := morph_two_step erosionReplaces 255 dilationReplaces 0 m imgIn
    (initTemp tempBuffer imgTemp imgIn) imgOut k hfi (by rw [hT]) hfo (by rw [hT]) (by rw [hT])
    hw hh (by omega) (by omega) (by rw [hT]; exact hti) (by rw [hT]; exact hto)
    (by decide) (by decide)
  unfold LIB_IMAGE_Opening LIB_IMAGE_Erosion LIB_IMAGE_Dilation
  rw [if_neg (by omega)]
  simp only [s1, ne_eq, not_true_eq_false, if_false]
  exact ⟨s2, p x y hx hy⟩

/-- The pixels of `LIB_IMAGE_Closing`: the erosion of the dilated input. -/
theorem closing_pixel (tempBuffer : Nat) (imgTemp : IMAGE_HandleTypeDef) (m : Mem)
    (imgIn imgOut : IMAGE_HandleTypeDef) (k : Nat)
    (hfi : imgIn.format = IMAGE_FORMAT_GRAYSCALE)
    (hfo : imgOut.format = IMAGE_FORMAT_GRAYSCALE)
    (hw : imgIn.width = imgOut.width) (hh : imgIn.height = imgOut.height)
    (hw128 : imgIn.width ≤ 128) (hh128 : imgIn.height ≤ 128)
    (ht0 : tempBuffer ≠ 0) (hti : tempBuffer ≠ imgIn.pData) (hto : tempBuffer ≠ imgOut.pData)
    (x y : Nat) (hx : x < imgIn.width) (hy : y < imgIn.height) :
    (LIB_IMAGE_Closing tempBuffer imgTemp m imgIn imgOut k).1 = IMAGE_OK ∧
    load8 (LIB_IMAGE_Closing tempBuffer imgTemp m imgIn imgOut k).2 imgOut.pData
        (y * imgIn.width + x)
      = morphValue erosionReplaces 255
          (fun j => morphValue dilationReplaces 0 (load8 m imgIn.pData) imgIn.width
            imgIn.height (k / 2) (j % imgIn.width) (j / imgIn.width))
          imgIn.width imgIn.height (k / 2) x y := by
  have hT := initTemp_eq tempBuffer imgTemp imgIn ht0 (by omega) (by omega)
  obtain ⟨s1, s2, p⟩ := morph_two_step dilationReplaces 0 erosionReplaces 255 m imgIn
    (initTemp tempBuffer imgTemp imgIn) imgOut k hfi (by rw [hT]) hfo (by rw [hT]) (by rw [hT])
    hw hh (by omega) (by omega) (by rw [hT]; exact hti) (by rw [hT]; exact hto)
    (by decide) (by decide)
  unfold LIB_IMAGE_Closing LIB_IMAGE_Erosion LIB_IMAGE_Dilation
  rw [if_neg (by omega)]
  simp only [s1, ne_eq, not_true_eq_false, if_false]
  exact ⟨s2, p x y hx hy⟩

/-- C4 at the centre of the 3x3 image `demoMem` with a 3x3 kernel: the output
is the minimum 1 of the nine input pixels. -/
theorem erosion_interior_min_witness :
    ((∀ a b, 1 - 3 / 2 ≤ a → a ≤ 1 + 3 / 2 → 1 - 3 / 2 ≤ b → b ≤ 1 + 3 / 2 →
      load8 (LIB_IMAGE_Erosion demoMem (grayImage 1 3 3) (grayImage 2 3 3) 3).2
          (grayImage 2 3 3).pData (1 * (grayImage 1 3 3).width + 1)
        ≤ load8 demoMem (grayImage 1 3 3).pData (a * (grayImage 1 3 3).width + b)) ∧
    (∃ a b, 1 - 3 / 2 ≤ a ∧ a ≤ 1 + 3 / 2 ∧ 1 - 3 / 2 ≤ b ∧ b ≤ 1 + 3 / 2 ∧
      load8 (LIB_IMAGE_Erosion demoMem (grayImage 1 3 3) (grayImage 2 3 3) 3).2
          (grayImage 2 3 3).pData (1 * (grayImage 1 3 3).width + 1)
        = load8 demoMem (grayImage 1 3 3).pData (a * (grayImage 1 3 3).width + b))) ∧
    load8 (LIB_IMAGE_Erosion demoMem (grayImage 1 3 3) (grayImage 2 3 3) 3).2 2 4 = 1 :=
  ⟨erosion_interior_min demoMem (grayImage 1 3 3) (grayImage 2 3 3) 3 rfl rfl rfl rfl
    (by decide) (by decide) (by decide) 1 1 (by decide) (by decide) (by decide) (by decide),
   by decide⟩

/-- C5 at the centre of the 3x3 image `demoMem` with a 3x3 kernel: the output
is the maximum 9 of the nine input pixels. -/
theorem dilation_interior_max_witness :
    ((∀ a b, 1 - 3 / 2 ≤ a → a ≤ 1 + 3 / 2 → 1 - 3 / 2 ≤ b → b ≤ 1 + 3 / 2 →
      load8 demoMem (grayImage 1 3 3).pData (a * (grayImage 1 3 3).width + b)
        ≤ load8 (LIB_IMAGE_Dilation demoMem (grayImage 1 3 3) (grayImage 2 3 3) 3).2
            (grayImage 2 3 3).pData (1 * (grayImage 1 3 3).width + 1)) ∧
    (∃ a b, 1 - 3 / 2 ≤ a ∧ a ≤ 1 + 3 / 2 ∧ 1 - 3 / 2 ≤ b ∧ b ≤ 1 + 3 / 2 ∧
      load8 (LIB_IMAGE_Dilation demoMem (grayImage 1 3 3) (grayImage 2 3 3) 3).2
          (grayImage 2 3 3).pData (1 * (grayImage 1 3 3).width + 1)
        = load8 demoMem (grayImage 1 3 3).pData (a * (grayImage 1 3 3).width + b))) ∧
    load8 (LIB_IMAGE_Dilation demoMem (grayImage 1 3 3) (grayImage 2 3 3) 3).2 2 4 = 9 :=
  ⟨dilation_interior_max demoMem (grayImage 1 3 3) (grayImage 2 3 3) 3 rfl rfl rfl rfl
    (by decide) (by decide) (by decide) 1 1 (by decide) (by decide) (by decide) (by decide),
   by decide⟩

/-! ## C6: the border pixels -/

/-- C6: whenever the operation succeeds (GRAYSCALE descriptors of equal
dimensions; for opening and closing also width and height at most 128, with
the static scratch buffer apart from the two image buffers), each of
`LIB_IMAGE_Erosion`, `LIB_IMAGE_Dilation`, `LIB_IMAGE_Opening` and
`LIB_IMAGE_Closing` leaves every border pixel (`x < k/2`, `x >= width - k/2`,
`y < k/2` or `y >= height - k/2`) equal to the input pixel at that position,
for every kernel size and whether or not input and output share their buffer;
when the kernel does not fit in the image, every output pixel equals the input
pixel. -/
theorem border_pixels_copied (tempOpening tempClosing : Nat)
    (tmpO tmpC : IMAGE_HandleTypeDef) (m : Mem) (imgIn imgOut : IMAGE_HandleTypeDef) (k : Nat)
    (hfi : imgIn.format = IMAGE_FORMAT_GRAYSCALE)
    (hfo : imgOut.format = IMAGE_FORMAT_GRAYSCALE)
    (hw : imgIn.width = imgOut.width) (hh : imgIn.height = imgOut.height)
    (hw16 : imgIn.width < 65536) (hh16 : imgIn.height < 65536) :
    (∀ x y, x < imgIn.width → y < imgIn.height →
      (x < k / 2 ∨ imgIn.width - k / 2 ≤ x ∨ y < k / 2 ∨ imgIn.height - k / 2 ≤ y) →
      load8 (LIB_IMAGE_Erosion m imgIn imgOut k).2 imgOut.pData (y * imgIn.width + x)
        = load8 m imgIn.pData (y * imgIn.width + x) ∧
      load8 (LIB_IMAGE_Dilation m imgIn imgOut k).2 imgOut.pData (y * imgIn.width + x)
        = load8 m imgIn.pData (y * imgIn.width + x) ∧
      (imgIn.width ≤ 128 → imgIn.height ≤ 128 → tempOpening ≠ 0 →
        tempOpening ≠ imgIn.pData → tempOpening ≠ imgOut.pData →
        load8 (LIB_IMAGE_Opening tempOpening tmpO m imgIn imgOut k).2 imgOut.pData
            (y * imgIn.width + x)
          = load8 m imgIn.pData (y * imgIn.width + x)) ∧
      (imgIn.width ≤ 128 → imgIn.height ≤ 128 → tempClosing ≠ 0 →
        tempClosing ≠ imgIn.pData → tempClosing ≠ imgOut.pData →
        load8 (LIB_IMAGE_Closing tempClosing tmpC m imgIn imgOut k).2 imgOut.pData
            (y * imgIn.width + x)
          = load8 m imgIn.pData (y * imgIn.width + x))) ∧
    ((imgIn.width < k ∨ imgIn.height < k) → ∀ i, i < imgIn.width * imgIn.height →
      load8 (LIB_IMAGE_Erosion m imgIn imgOut k).2 imgOut.pData i = load8 m imgIn.pData i ∧
      load8 (LIB_IMAGE_Dilation m imgIn imgOut k).2 imgOut.pData i = load8 m imgIn.pData i ∧
      (imgIn.width ≤ 128 → imgIn.height ≤ 128 → tempOpening ≠ 0 →
        tempOpening ≠ imgIn.pData → tempOpening ≠ imgOut.pData →
        load8 (LIB_IMAGE_Opening tempOpening tmpO m imgIn imgOut k).2 imgOut.pData i
          = load8 m imgIn.pData i) ∧
      (imgIn.width ≤ 128 → imgIn.height ≤ 128 → tempClosing ≠ 0 →
        tempClosing ≠ imgIn.pData → tempClosing ≠ imgOut.pData →
        load8 (LIB_IMAGE_Closing tempClosing tmpC m imgIn imgOut k).2 imgOut.pData i
          = load8 m imgIn.pData i)) := by
  have main : ∀ x y, x < imgIn.width → y < imgIn.height →
      (x < k / 2 ∨ imgIn.width - k / 2 ≤ x ∨ y < k / 2 ∨ imgIn.height - k / 2 ≤ y) →
      load8 (LIB_IMAGE_Erosion m imgIn imgOut k).2 imgOut.pData (y * imgIn.width + x)
        = load8 m imgIn.pData (y * imgIn.width + x) ∧
      load8 (LIB_IMAGE_Dilation m imgIn imgOut k).2 imgOut.pData (y * imgIn.width + x)
        = load8 m imgIn.pData (y * imgIn.width + x) ∧
      (imgIn.width ≤ 128 → imgIn.height ≤ 128 → tempOpening ≠ 0 →
        tempOpening ≠ imgIn.pData → tempOpening ≠ imgOut.pData →
        load8 (LIB_IMAGE_Opening tempOpening tmpO m imgIn imgOut k).2 imgOut.pData
            (y * imgIn.width + x)
          = load8 m imgIn.pData (y * imgIn.width + x)) ∧
      (imgIn.width ≤ 128 → imgIn.height ≤ 128 → tempClosing ≠ 0 →
        tempClosing ≠ imgIn.pData → tempClosing ≠ imgOut.pData →
        load8 (LIB_IMAGE_Closing tempClosing tmpC m imgIn imgOut k).2 imgOut.pData
            (y * imgIn.width + x)
          = load8 m imgIn.pData (y * imgIn.width + x)) := by
    intro x y hx hy hb
    have hbord : isBorder imgIn.width imgIn.height (k / 2) x y := by
      unfold isBorder; omega
    have hcomp : ∀ (rep1 rep2 : Nat → Nat → Bool) (i1 i2 : Nat),
        morphValue rep2 i2
          (fun j => morphValue rep1 i1 (load8 m imgIn.pData) imgIn.width imgIn.height
            (k / 2) (j % imgIn.width) (j / imgIn.width))
          imgIn.width imgIn.height (k / 2) x y = load8 m imgIn.pData (y * imgIn.width + x) := by
      intro rep1 rep2 i1 i2
      rw [morphValue_border rep2 i2 _ hx hy hw16 hh16 hbord]
      simp only [pixel_mod y hx, pixel_div y hx]
      exact morphValue_border rep1 i1 _ hx hy hw16 hh16 hbord
    refine ⟨?_, ?_, ?_, ?_⟩
    · unfold LIB_IMAGE_Erosion
      rw [morphology_run _ _ m imgIn imgOut k hfi hfo hw hh]
      exact morph_loops_border _ _ _ _ _ _ _ m hw16 hh16 x y hx hy hbord
    · unfold LIB_IMAGE_Dilation
      rw [morphology_run _ _ m imgIn imgOut k hfi hfo hw hh]
      exact morph_loops_border _ _ _ _ _ _ _ m hw16 hh16 x y hx hy hbord
    · intro hw128 hh128 ht0 hti hto
      rw [(opening_pixel tempOpening tmpO m imgIn imgOut k hfi hfo hw hh hw128 hh128
        ht0 hti hto x y hx hy).2]
      exact hcomp _ _ _ _
    · intro hw128 hh128 ht0 hti hto
      rw [(closing_pixel tempClosing tmpC m imgIn imgOut k hfi hfo hw hh hw128 hh128
        ht0 hti hto x y hx hy).2]
      exact hcomp _ _ _ _
  refine ⟨main, fun hfit i hi => ?_⟩
  obtain ⟨hix, hiy, his⟩ := offset_split hi
  have := main (i % imgIn.width) (i / imgIn.width) hix hiy (by omega)
  rw [his] at this
  exact this

/-- C6 on the 3x3 image `demoMem` with a 3x3 kernel, at the border pixel
`(2, 1)` (offset 5, value 4): the four operations return it unchanged, erosion
and dilation also when run in place. -/
theorem border_pixels_copied_witness :
    (load8 (LIB_IMAGE_Erosion demoMem (grayImage 1 3 3) (grayImage 1 3 3) 3).2
        (grayImage 1 3 3).pData (1 * (grayImage 1 3 3).width + 2)
      = load8 demoMem (grayImage 1 3 3).pData (1 * (grayImage 1 3 3).width + 2) ∧
    load8 (LIB_IMAGE_Dilation demoMem (grayImage 1 3 3) (grayImage 1 3 3) 3).2
        (grayImage 1 3 3).pData (1 * (grayImage 1 3 3).width + 2)
      = load8 demoMem (grayImage 1 3 3).pData (1 * (grayImage 1 3 3).width + 2) ∧
    load8 (LIB_IMAGE_Opening 7 (grayImage 0 0 0) demoMem (grayImage 1 3 3)
        (grayImage 1 3 3) 3).2 (grayImage 1 3 3).pData (1 * (grayImage 1 3 3).width + 2)
      = load8 demoMem (grayImage 1 3 3).pData (1 * (grayImage 1 3 3).width + 2) ∧
    load8 (LIB_IMAGE_Closing 8 (grayImage 0 0 0) demoMem (grayImage 1 3 3)
        (grayImage 1 3 3) 3).2 (grayImage 1 3 3).pData (1 * (grayImage 1 3 3).width + 2)
      = load8 demoMem (grayImage 1 3 3).pData (1 * (grayImage 1 3 3).width + 2)) ∧
    load8 demoMem 1 5 = 4 :=
  have h := (border_pixels_copied 7 8 (grayImage 0 0 0) (grayImage 0 0 0) demoMem
    (grayImage 1 3 3) (grayImage 1 3 3) 3 rfl rfl rfl rfl (by decide) (by decide)).1
    2 1 (by decide) (by decide) (by decide)
  ⟨⟨h.1, h.2.1,
    h.2.2.1 (by decide) (by decide) (by decide) (by decide) (by decide),
    h.2.2.2 (by decide) (by decide) (by decide) (by decide) (by decide)⟩, by decide⟩

/-! ## C7: opening and closing as compositions -/

/-- C7: for GRAYSCALE images with width and height at most 128 and every
kernel size, the output of `LIB_IMAGE_Opening` is, pixel for pixel, the output
of `LIB_IMAGE_Dilation` applied to the result of `LIB_IMAGE_Erosion` on the
input (through any scratch image `imgMid` apart from input and output), and the
output of `LIB_IMAGE_Closing` is that of `LIB_IMAGE_Erosion` applied to the
result of `LIB_IMAGE_Dilation`; cycles 5 and 6 of `main` are these compositions
with kernel size 3 and the result written back over the input. -/
theorem opening_closing_compose (tempOpening tempClosing : Nat)
    (tmpO tmpC : IMAGE_HandleTypeDef) (m : Mem) (imgIn imgMid imgOut : IMAGE_HandleTypeDef)
    (k : Nat)
    (hfi : imgIn.format = IMAGE_FORMAT_GRAYSCALE)
    (hfm : imgMid.format = IMAGE_FORMAT_GRAYSCALE)
    (hfo : imgOut.format = IMAGE_FORMAT_GRAYSCALE)
    (hwm : imgIn.width = imgMid.width) (hhm : imgIn.height = imgMid.height)
    (hw : imgIn.width = imgOut.width) (hh : imgIn.height = imgOut.height)
    (hw128 : imgIn.width ≤ 128) (hh128 : imgIn.height ≤ 128)
    (hO0 : tempOpening ≠ 0) (hOi : tempOpening ≠ imgIn.pData)
    (hOo : tempOpening ≠ imgOut.pData)
    (hC0 : tempClosing ≠ 0) (hCi : tempClosing ≠ imgIn.pData)
    (hCo : tempClosing ≠ imgOut.pData)
    (hmi : imgMid.pData ≠ imgIn.pData) (hmo : imgMid.pData ≠ imgOut.pData) :
    (∀ i, i < imgIn.width * imgIn.height →
      load8 (LIB_IMAGE_Opening tempOpening tmpO m imgIn imgOut k).2 imgOut.pData i
        = load8 (LIB_IMAGE_Dilation (LIB_IMAGE_Erosion m imgIn imgMid k).2 imgMid imgOut k).2
            imgOut.pData i) ∧
    (∀ i, i < imgIn.width * imgIn.height →
      load8 (LIB_IMAGE_Closing tempClosing tmpC m imgIn imgOut k).2 imgOut.pData i
        = load8 (LIB_IMAGE_Erosion (LIB_IMAGE_Dilation m imgIn imgMid k).2 imgMid imgOut k).2
            imgOut.pData i) ∧
    (∀ i, i < imgIn.width * imgIn.height →
      load8 (LIB_IMAGE_Opening tempOpening tmpO m imgIn imgIn 3).2 imgIn.pData i
        = load8 (cycle5 m imgIn imgMid) imgIn.pData i) ∧
    (∀ i, i < imgIn.width * imgIn.height →
      load8 (LIB_IMAGE_Closing tempClosing tmpC m imgIn imgIn 3).2 imgIn.pData i
        = load8 (cycle6 m imgIn imgMid) imgIn.pData i) := by
  have hw16 : imgIn.width < 65536 := by omega
  have hh16 : imgIn.height < 65536 := by omega
  refine ⟨fun i hi => ?_, fun i hi => ?_, fun i hi => ?_, fun i hi => ?_⟩
  · obtain ⟨hix, hiy, his⟩ := offset_split hi
    have h1 := (opening_pixel tempOpening tmpO m imgIn imgOut k hfi hfo hw hh hw128 hh128
      hO0 hOi hOo _ _ hix hiy).2
    have h2 := (morph_two_step erosionReplaces 255 dilationReplaces 0 m imgIn imgMid imgOut k
      hfi hfm hfo hwm hhm hw hh hw16 hh16 hmi hmo (by decide) (by decide)).2.2 _ _ hix hiy
    rw [his] at h1 h2
    unfold LIB_IMAGE_Dilation LIB_IMAGE_Erosion
    rw [h1, h2]
  · obtain ⟨hix, hiy, his⟩ := offset_split hi
    have h1 := (closing_pixel tempClosing tmpC m imgIn imgOut k hfi hfo hw hh hw128 hh128
      hC0 hCi hCo _ _ hix hiy).2
    have h2 := (morph_two_step dilationReplaces 0 erosionReplaces 255 m imgIn imgMid imgOut k
      hfi hfm hfo hwm hhm hw hh hw16 hh16 hmi hmo (by decide) (by decide)).2.2 _ _ hix hiy
    rw [his] at h1 h2
    unfold LIB_IMAGE_Dilation LIB_IMAGE_Erosion
    rw [h1, h2]
  · obtain ⟨hix, hiy, his⟩ := offset_split hi
    have h1 := (opening_pixel tempOpening tmpO m imgIn imgIn 3 hfi hfi rfl rfl hw128 hh128
      hO0 hOi hOi _ _ hix hiy).2
    have h2 := (morph_two_step erosionReplaces 255 dilationReplaces 0 m imgIn imgMid imgIn 3
      hfi hfm hfi hwm hhm rfl rfl hw16 hh16 hmi hmi (by decide) (by decide)).2.2 _ _ hix hiy
    rw [his] at h1 h2
    unfold cycle5 LIB_IMAGE_Dilation LIB_IMAGE_Erosion
    rw [h1, h2]
  · obtain ⟨hix, hiy, his⟩ := offset_split hi
    have h1 := (closing_pixel tempClosing tmpC m imgIn imgIn 3 hfi hfi rfl rfl hw128 hh128
      hC0 hCi hCi _ _ hix hiy).2
    have h2 := (morph_two_step dilationReplaces 0 erosionReplaces 255 m imgIn imgMid imgIn 3
      hfi hfm hfi hwm hhm rfl rfl hw16 hh16 hmi hmi (by decide) (by decide)).2.2 _ _ hix hiy
    rw [his] at h1 h2
    unfold cycle6 LIB_IMAGE_Dilation LIB_IMAGE_Erosion
    rw [h1, h2]

/-- C7 on the 3x3 image `demoMem` with a 3x3 kernel, scratch image in buffer 3
and output in buffer 2; the centre pixel of the opening is 9 (the erosion puts
1 there, the dilation then sees the 9 of the copied corner). -/
theorem opening_closing_compose_witness :
    ((∀ i, i < (grayImage 1 3 3).width * (grayImage 1 3 3).height →
      load8 (LIB_IMAGE_Opening 7 (grayImage 0 0 0) demoMem (grayImage 1 3 3)
          (grayImage 2 3 3) 3).2 (grayImage 2 3 3).pData i
        = load8 (LIB_IMAGE_Dilation (LIB_IMAGE_Erosion demoMem (grayImage 1 3 3)
            (grayImage 3 3 3) 3).2 (grayImage 3 3 3) (grayImage 2 3 3) 3).2
            (grayImage 2 3 3).pData i) ∧
    (∀ i, i < (grayImage 1 3 3).width * (grayImage 1 3 3).height →
      load8 (LIB_IMAGE_Closing 8 (grayImage 0 0 0) demoMem (grayImage 1 3 3)
          (grayImage 2 3 3) 3).2 (grayImage 2 3 3).pData i
        = load8 (LIB_IMAGE_Erosion (LIB_IMAGE_Dilation demoMem (grayImage 1 3 3)
            (grayImage 3 3 3) 3).2 (grayImage 3 3 3) (grayImage 2 3 3) 3).2
            (grayImage 2 3 3).pData i) ∧
    (∀ i, i < (grayImage 1 3 3).width * (grayImage 1 3 3).height →
      load8 (LIB_IMAGE_Opening 7 (grayImage 0 0 0) demoMem (grayImage 1 3 3)
          (grayImage 1 3 3) 3).2 (grayImage 1 3 3).pData i
        = load8 (cycle5 demoMem (grayImage 1 3 3) (grayImage 3 3 3)) (grayImage 1 3 3).pData i) ∧
    (∀ i, i < (grayImage 1 3 3).width * (grayImage 1 3 3).height →
      load8 (LIB_IMAGE_Closing 8 (grayImage 0 0 0) demoMem (grayImage 1 3 3)
          (grayImage 1 3 3) 3).2 (grayImage 1 3 3).pData i
        = load8 (cycle6 demoMem (grayImage 1 3 3) (grayImage 3 3 3))
            (grayImage 1 3 3).pData i)) ∧
    load8 (LIB_IMAGE_Opening 7 (grayImage 0 0 0) demoMem (grayImage 1 3 3)
      (grayImage 2 3 3) 3).2 2 4 = 9 :=
  ⟨opening_closing_compose 7 8 (grayImage 0 0 0) (grayImage 0 0 0) demoMem (grayImage 1 3 3)
    (grayImage 3 3 3) (grayImage 2 3 3) 3 rfl rfl rfl rfl rfl rfl rfl (by decide) (by decide)
    (by decide) (by decide) (by decide) (by decide) (by decide) (by decide) (by decide)
    (by decide), by decide⟩

/-! ## Threshold engine: histogram and cumulative arrays -/

theorem countLE_cons (a : Nat) (l : List Nat) (t : Nat) :
    countLE (a :: l) t = (if a ≤ t then 1 else 0) + countLE l t := by
  unfold countLE
  by_cases h : a ≤ t
  · simp [List.filter_cons, h]; omega
  · simp [List.filter_cons, h]

theorem sumLE_cons (a : Nat) (l : List Nat) (t : Nat) :
    sumLE (a :: l) t = (if a ≤ t then a else 0) + sumLE l t := by
  unfold sumLE
  by_cases h : a ≤ t
  · simp [List.filter_cons, h]
  · simp [List.filter_cons, h]

theorem countLE_le_length (l : List Nat) (t : Nat) : countLE l t ≤ l.length := by
  unfold countLE
  exact List.length_filter_le _ _

theorem countLE_succ (l : List Nat) (t : Nat) :
    countLE l (t + 1) = countLE l t + l.count (t + 1) := by
  induction l with
  | nil => simp [countLE]
  | cons a l ih =>
    rw [countLE_cons, countLE_cons, ih, List.count_cons]
    by_cases h1 : a ≤ t
    · have h2 : a ≤ t + 1 := by omega
      have h3 : ¬ (a = t + 1) := by omega
      simp [h1, h2, h3]; omega
    · by_cases h3 : a = t + 1
      · subst h3; simp; omega
      · have h2 : ¬ a ≤ t + 1 := by omega
        simp [h1, h2, h3]

theorem sumLE_succ (l : List Nat) (t : Nat) :
    sumLE l (t + 1) = sumLE l t + (t + 1) * l.count (t + 1) := by
  induction l with
  | nil => simp [sumLE]
  | cons a l ih =>
    rw [sumLE_cons, sumLE_cons, ih, List.count_cons]
    by_cases h1 : a ≤ t
    · have h2 : a ≤ t + 1 := by omega
      have h3 : ¬ (a = t + 1) := by omega
      simp [h1, h2, h3]; omega
    · by_cases h3 : a = t + 1
      · subst h3; simp; ring
      · have h2 : ¬ a ≤ t + 1 := by omega
        simp [h1, h2, h3]

theorem countLE_zero (l : List Nat) : countLE l 0 = l.count 0 := by
  induction l with
  | nil => simp [countLE]
  | cons a l ih =>
    rw [countLE_cons, ih, List.count_cons]
    by_cases h : a = 0
    · subst h; simp; omega
    · have h2 : ¬ a ≤ 0 := by omega
      simp [h, h2]

theorem sumLE_zero (l : List Nat) : sumLE l 0 = 0 := by
  induction l with
  | nil => simp [sumLE]
  | cons a l ih =>
    rw [sumLE_cons, ih]
    by_cases h : a ≤ 0
    · have : a = 0 := by omega
      simp [this]
    · simp [h]

/-- The class-0 pixels sum to at most `t` each; the others to at least `t + 1`
each. -/
theorem sumLE_bounds (l : List Nat) (t : Nat) :
    sumLE l t ≤ t * countLE l t ∧
    sumLE l t + (t + 1) * (l.length - countLE l t) ≤ l.sum := by
  induction l with
  | nil => simp [sumLE, countLE]
  | cons a l ih =>
    obtain ⟨ih1, ih2⟩ := ih
    have hc := countLE_le_length l t
    rw [sumLE_cons, countLE_cons, List.length_cons, List.sum_cons]
    by_cases h : a ≤ t
    · simp only [h, if_true]
      have e1 : t * (1 + countLE l t) = t + t * countLE l t := by ring
      have e2 : l.length + 1 - (1 + countLE l t) = l.length - countLE l t := by omega
      rw [e1, e2]
      constructor <;> omega
    · simp only [h, if_false, Nat.zero_add]
      have e2 : l.length + 1 - countLE l t = (l.length - countLE l t) + 1 := by omega
      have e3 : (t + 1) * ((l.length - countLE l t) + 1)
          = (t + 1) * (l.length - countLE l t) + (t + 1) := by ring
      rw [e2, e3]
      constructor <;> omega

theorem countLE_of_all_le (l : List Nat) (t : Nat) (h : ∀ v ∈ l, v ≤ t) :
    countLE l t = l.length ∧ sumLE l t = l.sum := by
  unfold countLE sumLE
  have : l.filter (fun v => decide (v ≤ t)) = l :=
    List.filter_eq_self.2 (fun v hv => by simpa using h v hv)
  rw [this]
  exact ⟨rfl, rfl⟩

theorem countLE_pos_iff (l : List Nat) (t : Nat) : 0 < countLE l t ↔ ∃ v ∈ l, v ≤ t := by
  unfold countLE
  rw [List.length_pos_iff_exists_mem]
  constructor
  · rintro ⟨v, hv⟩
    rw [List.mem_filter] at hv
    exact ⟨v, hv.1, by simpa using hv.2⟩
  · rintro ⟨v, hv, hle⟩
    exact ⟨v, List.mem_filter.2 ⟨hv, by simpa using hle⟩⟩

theorem countLE_lt_iff (l : List Nat) (t : Nat) :
    countLE l t < l.length ↔ ∃ v ∈ l, t < v := by
  induction l with
  | nil => simp [countLE]
  | cons a l ih =>
    have hc := countLE_le_length l t
    rw [countLE_cons, List.length_cons]
    by_cases h : a ≤ t
    · simp only [h, if_true, List.mem_cons]
      constructor
      · intro hlt
        obtain ⟨v, hv, hvt⟩ := ih.1 (by omega)
        exact ⟨v, Or.inr hv, hvt⟩
      · rintro ⟨v, hv | hv, hvt⟩
        · subst hv; omega
        · have := ih.2 ⟨v, hv, hvt⟩
          omega
    · simp only [h, if_false, List.mem_cons]
      constructor
      · intro _
        exact ⟨a, Or.inl rfl, by omega⟩
      · intro _
        omega

/-- Levels between which no pixel lies have the same class 0. -/
theorem countLE_congr (l : List Nat) (t u : Nat) (h : ∀ v ∈ l, (v ≤ t ↔ v ≤ u)) :
    countLE l t = countLE l u ∧ sumLE l t = sumLE l u := by
  unfold countLE sumLE
  have : l.filter (fun v => decide (v ≤ t)) = l.filter (fun v => decide (v ≤ u)) :=
    List.filter_congr (fun v hv => by simp [h v hv])
  rw [this]
  exact ⟨rfl, rfl⟩

/-- The histogram loop counts the occurrences of every value. -/
theorem histogram_fold (l : List Nat) (hist : Histogram)
    (hb : ∀ v, hist.bin v + l.length < 4294967296) (v : Nat) :
    (l.foldl (fun (h : Histogram) (a : Nat) =>
        (⟨Function.update h.bin a ((h.bin a + 1) % 4294967296)⟩ : Histogram)) hist).bin v
      = hist.bin v + l.count v := by
  induction l generalizing hist with
  | nil => simp
  | cons a l ih =>
    rw [List.foldl_cons, ih]
    · have hlt : hist.bin a + 1 < 4294967296 := by
        have := hb a
        rw [List.length_cons] at this
        omega
      rw [List.count_cons]
      by_cases h : a = v
      · subst h
        simp [Nat.mod_eq_of_lt hlt]
        omega
      · have h2 : v ≠ a := fun hc => h hc.symm
        simp [Function.update_noteq h2, h]
    · intro w
      have := hb w
      have ha := hb a
      rw [List.length_cons] at this ha
      by_cases h : w = a
      · subst h
        simp only [Function.update_same]
        have hlt : hist.bin w + 1 < 4294967296 := by omega
        rw [Nat.mod_eq_of_lt hlt]
        omega
      · simp only [Function.update_noteq h]
        omega

theorem histogram_eq_count (m : Mem) (p n : Nat) (hn : n < 4294967296) (v : Nat) :
    (histogram m p n).bin v = (pixelValues m p n).count v := by
  have h := histogram_fold (pixelValues m p n) ⟨fun _ => 0⟩
    (by intro w; simp [pixelValues]; exact hn) v
  unfold pixelValues at h ⊢
  rw [List.foldl_map] at h
  unfold histogram
  simpa [histogramStep] using h

theorem totalPixels_lt (img : IMAGE_HandleTypeDef) : totalPixels img < 4294967296 := by
  unfold totalPixels
  exact Nat.mod_lt _ (by decide)

theorem pixelValues_length (m : Mem) (p n : Nat) : (pixelValues m p n).length = n := by
  simp [pixelValues]

theorem pixelValues_le (m : Mem) (p n : Nat) : ∀ v ∈ pixelValues m p n, v ≤ 255 := by
  intro v hv
  unfold pixelValues at hv
  rw [List.mem_map] at hv
  obtain ⟨j, _, rfl⟩ := hv
  have := load8_lt m p j
  omega

theorem otsuProb_eq (m : Mem) (img : IMAGE_HandleTypeDef) (v : Nat) :
    otsuProb m img v
      = ((pixelValues m img.pData (totalPixels img)).count v : ℚ) / (totalPixels img : ℚ) := by
  unfold otsuProb
  rw [histogram_eq_count m img.pData _ (totalPixels_lt img)]

/-- The array `cumSum` holds the fraction of the pixels that are at most `t`. -/
theorem cumSum_otsuProb (m : Mem) (img : IMAGE_HandleTypeDef) (t : Nat) :
    cumSum (otsuProb m img) t
      = (countLE (pixelValues m img.pData (totalPixels img)) t : ℚ)
          / (totalPixels img : ℚ) := by
  induction t with
  | zero =>
    show otsuProb m img 0 = _
    rw [otsuProb_eq, countLE_zero]
  | succ t ih =>
    show cumSum (otsuProb m img) t + otsuProb m img (t + 1) = _
    rw [ih, otsuProb_eq, countLE_succ]
    push_cast
    ring

/-- The array `cumMean` holds the sum of the pixels that are at most `t`,
divided by the number of pixels. -/
theorem cumMean_otsuProb (m : Mem) (img : IMAGE_HandleTypeDef) (t : Nat) :
    cumMean (otsuProb m img) t
      = (sumLE (pixelValues m img.pData (totalPixels img)) t : ℚ)
          / (totalPixels img : ℚ) := by
  induction t with
  | zero =>
    show (0 : ℚ) = _
    rw [sumLE_zero]
    simp
  | succ t ih =>
    show cumMean (otsuProb m img) t + ((t + 1 : Nat) : ℚ) * otsuProb m img (t + 1) = _
    rw [ih, otsuProb_eq, sumLE_succ]
    push_cast
    ring

/-- A level is kept by the threshold loop exactly when both classes hold a
pixel. -/
theorem specValid_iff (m : Mem) (img : IMAGE_HandleTypeDef) (t : Nat)
    (hpos : 0 < totalPixels img) :
    specValid m img t ↔
      0 < countLE (pixelValues m img.pData (totalPixels img)) t ∧
      countLE (pixelValues m img.pData (totalPixels img)) t < totalPixels img := by
  have hN : (0 : ℚ) < (totalPixels img : ℚ) := by exact_mod_cast hpos
  have hle := countLE_le_length (pixelValues m img.pData (totalPixels img)) t
  rw [pixelValues_length] at hle
  unfold specValid specWeight1 specWeight0
  rw [cumSum_otsuProb]
  constructor
  · rintro ⟨h0, h1⟩
    constructor
    · rcases Nat.eq_zero_or_pos (countLE (pixelValues m img.pData (totalPixels img)) t)
        with hz | hz
      · exfalso; apply h0; rw [hz]; simp
      · exact hz
    · rcases Nat.lt_or_ge (countLE (pixelValues m img.pData (totalPixels img)) t)
        (totalPixels img) with hz | hz
      · exact hz
      · exfalso; apply h1
        have : countLE (pixelValues m img.pData (totalPixels img)) t = totalPixels img := by
          omega
        rw [this, div_self (ne_of_gt hN)]
        ring
  · rintro ⟨h0, h1⟩
    have hc : (0 : ℚ) < (countLE (pixelValues m img.pData (totalPixels img)) t : ℚ) := by
      exact_mod_cast h0
    have hc1 : (countLE (pixelValues m img.pData (totalPixels img)) t : ℚ)
        < (totalPixels img : ℚ) := by exact_mod_cast h1
    constructor
    · exact ne_of_gt (div_pos hc hN)
    · have : (countLE (pixelValues m img.pData (totalPixels img)) t : ℚ)
          / (totalPixels img : ℚ) < 1 := (div_lt_one hN).2 hc1
      intro hz
      linarith

/-- At a level that is kept, both weights are positive, the `variance` of the
code is the score of the specification, and the score is positive (the mean of
class 0 is at most `t`, the mean of class 1 at least `t + 1`). -/
theorem otsu_level_facts (m : Mem) (img : IMAGE_HandleTypeDef) (t : Nat)
    (hpos : 0 < totalPixels img) (hv : specValid m img t) :
    otsuVariance (cumSum (otsuProb m img)) (cumMean (otsuProb m img)) t = specScore m img t ∧
    0 < specScore m img t := by
  obtain ⟨h0, h1⟩ := (specValid_iff m img t hpos).1 hv
  have hN : (0 : ℚ) < (totalPixels img : ℚ) := by exact_mod_cast hpos
  have hc : (0 : ℚ) < (countLE (pixelValues m img.pData (totalPixels img)) t : ℚ) := by
    exact_mod_cast h0
  have hc1 : (countLE (pixelValues m img.pData (totalPixels img)) t : ℚ)
      < (totalPixels img : ℚ) := by exact_mod_cast h1
  obtain ⟨b1, b2⟩ := sumLE_bounds (pixelValues m img.pData (totalPixels img)) t
  rw [pixelValues_length,
    ← (countLE_of_all_le _ 255 (pixelValues_le m img.pData (totalPixels img))).2] at b2
  have hw0 : 0 < specWeight0 m img t := by
    unfold specWeight0
    rw [cumSum_otsuProb]
    exact div_pos hc hN
  have hw1 : 0 < specWeight1 m img t := by
    unfold specWeight1 specWeight0
    rw [cumSum_otsuProb]
    have : (countLE (pixelValues m img.pData (totalPixels img)) t : ℚ)
        / (totalPixels img : ℚ) < 1 := (div_lt_one hN).2 hc1
    linarith
  have hvar : otsuVariance (cumSum (otsuProb m img)) (cumMean (otsuProb m img)) t
      = specScore m img t := by
    unfold otsuVariance specScore
    unfold specWeight1 specWeight0 at *
    simp only [gt_iff_lt, hw0, hw1, if_true]
    ring
  refine ⟨hvar, ?_⟩
  have key1 : cumMean (otsuProb m img) t ≤ (t : ℚ) * specWeight0 m img t := by
    unfold specWeight0
    rw [cumSum_otsuProb, cumMean_otsuProb]
    have hq : (sumLE (pixelValues m img.pData (totalPixels img)) t : ℚ)
        ≤ (t : ℚ) * (countLE (pixelValues m img.pData (totalPixels img)) t : ℚ) := by
      exact_mod_cast b1
    calc (sumLE (pixelValues m img.pData (totalPixels img)) t : ℚ) / (totalPixels img : ℚ)
        ≤ ((t : ℚ) * (countLE (pixelValues m img.pData (totalPixels img)) t : ℚ))
            / (totalPixels img : ℚ) := (div_le_div_iff_of_pos_right hN).2 hq
      _ = (t : ℚ) * ((countLE (pixelValues m img.pData (totalPixels img)) t : ℚ)
            / (totalPixels img : ℚ)) := by ring
  have key2 : ((t : ℚ) + 1) * specWeight1 m img t
      ≤ cumMean (otsuProb m img) 255 - cumMean (otsuProb m img) t := by
    unfold specWeight1 specWeight0
    rw [cumSum_otsuProb, cumMean_otsuProb, cumMean_otsuProb]
    have hq : (sumLE (pixelValues m img.pData (totalPixels img)) t : ℚ)
        + ((t : ℚ) + 1) * ((totalPixels img : ℚ)
            - (countLE (pixelValues m img.pData (totalPixels img)) t : ℚ))
        ≤ (sumLE (pixelValues m img.pData (totalPixels img)) 255 : ℚ) := by
      have := b2
      have hcast : ((totalPixels img - countLE (pixelValues m img.pData (totalPixels img)) t
          : Nat) : ℚ) = (totalPixels img : ℚ)
            - (countLE (pixelValues m img.pData (totalPixels img)) t : ℚ) :=
        Nat.cast_sub (Nat.le_of_lt h1)
      rw [← hcast]
      exact_mod_cast this
    have e : ((t : ℚ) + 1) * (1 - (countLE (pixelValues m img.pData (totalPixels img)) t : ℚ)
          / (totalPixels img : ℚ))
        = (((t : ℚ) + 1) * ((totalPixels img : ℚ)
            - (countLE (pixelValues m img.pData (totalPixels img)) t : ℚ)))
            / (totalPixels img : ℚ) := by
      field_simp
    rw [e, ← sub_div]
    exact (div_le_div_iff_of_pos_right hN).2 (by linarith)
  have hm0 : cumMean (otsuProb m img) t / specWeight0 m img t ≤ (t : ℚ) :=
    (div_le_iff₀ hw0).2 key1
  have hm1 : (t : ℚ) + 1
      ≤ (cumMean (otsuProb m img) 255 - cumMean (otsuProb m img) t) / specWeight1 m img t :=
    (le_div_iff₀ hw1).2 key2
  unfold specScore
  have hneg : cumMean (otsuProb m img) t / specWeight0 m img t
      - (cumMean (otsuProb m img) 255 - cumMean (otsuProb m img) t) / specWeight1 m img t
      < 0 := by linarith
  exact mul_pos (mul_pos hw0 hw1) (sq_pos_of_neg hneg)

/-! ## Threshold engine: the threshold loop -/

/-- Invariant of the threshold loop after the levels below `n`:
`maxVariance` is non-negative and dominates the variance of every level kept
so far; either nothing has been recorded, or `bestThreshold` is the first
level that reaches `maxVariance`, and `maxVariance` is positive. -/
theorem otsu_loop_inv (cs cm : Nat → ℚ) (n : Nat) :
    0 ≤ ((List.range n).foldl (otsuStep cs cm) (0, 0)).1 ∧
    (∀ u, u < n → ¬ (cs u = 0 ∨ 1 - cs u = 0) →
      otsuVariance cs cm u ≤ ((List.range n).foldl (otsuStep cs cm) (0, 0)).1) ∧
    ((((List.range n).foldl (otsuStep cs cm) (0, 0)).1 = 0 ∧
        ((List.range n).foldl (otsuStep cs cm) (0, 0)).2 = 0) ∨
      (((List.range n).foldl (otsuStep cs cm) (0, 0)).2 < n ∧
        ¬ (cs ((List.range n).foldl (otsuStep cs cm) (0, 0)).2 = 0 ∨
            1 - cs ((List.range n).foldl (otsuStep cs cm) (0, 0)).2 = 0) ∧
        otsuVariance cs cm ((List.range n).foldl (otsuStep cs cm) (0, 0)).2
          = ((List.range n).foldl (otsuStep cs cm) (0, 0)).1 ∧
        0 < ((List.range n).foldl (otsuStep cs cm) (0, 0)).1 ∧
        ∀ u, u < ((List.range n).foldl (otsuStep cs cm) (0, 0)).2 →
          ¬ (cs u = 0 ∨ 1 - cs u = 0) →
          otsuVariance cs cm u < ((List.range n).foldl (otsuStep cs cm) (0, 0)).1)) := by
  refine foldl_range_inv
    (fun i (st : ℚ × Nat) =>
      0 ≤ st.1 ∧
      (∀ u, u < i → ¬ (cs u = 0 ∨ 1 - cs u = 0) → otsuVariance cs cm u ≤ st.1) ∧
      ((st.1 = 0 ∧ st.2 = 0) ∨
        (st.2 < i ∧ ¬ (cs st.2 = 0 ∨ 1 - cs st.2 = 0) ∧ otsuVariance cs cm st.2 = st.1 ∧
          0 < st.1 ∧
          ∀ u, u < st.2 → ¬ (cs u = 0 ∨ 1 - cs u = 0) → otsuVariance cs cm u < st.1)))
    (otsuStep cs cm) (0, 0) n ?_ ?_
  · exact ⟨le_refl _, fun u hu => by omega, Or.inl ⟨rfl, rfl⟩⟩
  · rintro i ⟨mx, best⟩ _ ⟨ha, hb, hc⟩
    simp only at ha hb hc
    unfold otsuStep
    by_cases hskip : cs i = 0 ∨ 1 - cs i = 0
    · rw [if_pos hskip]
      refine ⟨ha, ?_, ?_⟩
      · intro u hu hval
        rcases Nat.lt_succ_iff_lt_or_eq.1 hu with h1 | h1
        · exact hb u h1 hval
        · subst h1; exact absurd hskip hval
      · rcases hc with hc | ⟨c1, c2, c3, c4, c5⟩
        · exact Or.inl hc
        · exact Or.inr ⟨Nat.lt_succ_of_lt c1, c2, c3, c4, c5⟩
    · rw [if_neg hskip]
      by_cases hgt : otsuVariance cs cm i > mx
      · rw [if_pos hgt]
        refine ⟨le_of_lt (lt_of_le_of_lt ha hgt), ?_, Or.inr ⟨Nat.lt_succ_self i, hskip, rfl,
          lt_of_le_of_lt ha hgt, ?_⟩⟩
        · intro u hu hval
          rcases Nat.lt_succ_iff_lt_or_eq.1 hu with h1 | h1
          · exact le_of_lt (lt_of_le_of_lt (hb u h1 hval) hgt)
          · subst h1; exact le_refl _
        · intro u hu hval
          exact lt_of_le_of_lt (hb u hu hval) hgt
      · rw [if_neg hgt]
        refine ⟨ha, ?_, ?_⟩
        · intro u hu hval
          rcases Nat.lt_succ_iff_lt_or_eq.1 hu with h1 | h1
          · exact hb u h1 hval
          · subst h1; exact not_lt.1 hgt
        · rcases hc with hc | ⟨c1, c2, c3, c4, c5⟩
          · exact Or.inl hc
          · exact Or.inr ⟨Nat.lt_succ_of_lt c1, c2, c3, c4, c5⟩

theorem otsu_run (m : Mem) (img : IMAGE_HandleTypeDef)
    (hf : img.format = IMAGE_FORMAT_GRAYSCALE) :
    LIB_IMAGE_OtsuThreshold m img
      = ((List.range 256).foldl
          (otsuStep (cumSum (otsuProb m img)) (cumMean (otsuProb m img))) (0, 0)).2 := by
  unfold LIB_IMAGE_OtsuThreshold
  rw [if_neg (by simp [hf])]

/-- The result of `LIB_IMAGE_OtsuThreshold` on a non-empty GRAYSCALE image in
terms of the levels that are kept: with no such level the result is 0;
otherwise it is the first kept level of greatest score. -/
theorem otsu_result (m : Mem) (img : IMAGE_HandleTypeDef)
    (hf : img.format = IMAGE_FORMAT_GRAYSCALE) (hpos : 0 < totalPixels img) :
    ((∀ t, t < 256 → ¬ specValid m img t) → LIB_IMAGE_OtsuThreshold m img = 0) ∧
    ((∃ t, t < 256 ∧ specValid m img t) →
      LIB_IMAGE_OtsuThreshold m img < 256 ∧
      specValid m img (LIB_IMAGE_OtsuThreshold m img) ∧
      (∀ u, u < 256 → specValid m img u →
        specScore m img u ≤ specScore m img (LIB_IMAGE_OtsuThreshold m img)) ∧
      (∀ u, u < LIB_IMAGE_OtsuThreshold m img → specValid m img u →
        specScore m img u < specScore m img (LIB_IMAGE_OtsuThreshold m img))) := by
  have hvalid : ∀ u, specValid m img u ↔
      ¬ (cumSum (otsuProb m img) u = 0 ∨ 1 - cumSum (otsuProb m img) u = 0) := by
    intro u
    unfold specValid specWeight1 specWeight0
    rw [not_or]
  obtain ⟨_, hb, hc⟩ := otsu_loop_inv (cumSum (otsuProb m img)) (cumMean (otsuProb m img)) 256
  rw [← otsu_run m img hf] at hc
  constructor
  · intro hnone
    rcases hc with hc | ⟨c1, c2, _⟩
    · exact hc.2
    · exact absurd ((hvalid _).2 c2) (hnone _ c1)
  · rintro ⟨t, ht, htv⟩
    rcases hc with hc | ⟨c1, c2, c3, c4, c5⟩
    · exfalso
      have h1 := hb t ht ((hvalid t).1 htv)
      rw [hc.1, (otsu_level_facts m img t hpos htv).1] at h1
      exact absurd (otsu_level_facts m img t hpos htv).2 (not_lt.2 h1)
    · have hrv := (hvalid _).2 c2
      have hrs := (otsu_level_facts m img _ hpos hrv).1
      refine ⟨c1, hrv, ?_, ?_⟩
      · intro u hu huv
        rw [← hrs, c3, ← (otsu_level_facts m img u hpos huv).1]
        exact hb u hu ((hvalid u).1 huv)
      · intro u hu huv
        rw [← hrs, c3, ← (otsu_level_facts m img u hpos huv).1]
        exact c5 u hu ((hvalid u).1 huv)

theorem mem_pixelValues (m : Mem) (p n v : Nat) :
    v ∈ pixelValues m p n ↔ ∃ j, j < n ∧ load8 m p j = v := by
  unfold pixelValues
  rw [List.mem_map]
  constructor
  · rintro ⟨j, hj, rfl⟩
    exact ⟨j, List.mem_range.1 hj, rfl⟩
  · rintro ⟨j, hj, rfl⟩
    exact ⟨j, List.mem_range.2 hj, rfl⟩

/-- The score of a level depends on its class 0 only. -/
theorem specScore_congr (m : Mem) (img : IMAGE_HandleTypeDef) (t u : Nat)
    (hc : countLE (pixelValues m img.pData (totalPixels img)) t
      = countLE (pixelValues m img.pData (totalPixels img)) u)
    (hs : sumLE (pixelValues m img.pData (totalPixels img)) t
      = sumLE (pixelValues m img.pData (totalPixels img)) u) :
    specScore m img t = specScore m img u := by
  unfold specScore specWeight1 specWeight0
  rw [cumSum_otsuProb, cumSum_otsuProb, cumMean_otsuProb m img t, cumMean_otsuProb m img u,
    hc, hs]

/-- On an image whose pixels take exactly the two intensities `a < b`, both
present, `LIB_IMAGE_OtsuThreshold` returns `a`: the levels `a .. b-1` are the
ones kept, they all have the same score, and the first is recorded. -/
theorem otsu_returns_lower (m : Mem) (img : IMAGE_HandleTypeDef) (a b : Nat)
    (hf : img.format = IMAGE_FORMAT_GRAYSCALE) (hab : a < b) (hb : b < 256)
    (hvals : ∀ j, j < totalPixels img →
      load8 m img.pData j = a ∨ load8 m img.pData j = b)
    (ha : ∃ j, j < totalPixels img ∧ load8 m img.pData j = a)
    (hbb : ∃ j, j < totalPixels img ∧ load8 m img.pData j = b) :
    LIB_IMAGE_OtsuThreshold m img = a := by
  have hpos : 0 < totalPixels img := by
    obtain ⟨j, hj, _⟩ := ha
    omega
  have hmem : ∀ v, v ∈ pixelValues m img.pData (totalPixels img) → v = a ∨ v = b := by
    intro v hv
    obtain ⟨j, hj, rfl⟩ := (mem_pixelValues _ _ _ _).1 hv
    exact hvals j hj
  have hvalid : ∀ t, specValid m img t ↔ a ≤ t ∧ t < b := by
    intro t
    rw [specValid_iff m img t hpos, countLE_pos_iff]
    have hl := countLE_lt_iff (pixelValues m img.pData (totalPixels img)) t
    rw [pixelValues_length] at hl
    rw [hl]
    constructor
    · rintro ⟨⟨v, hv, hvt⟩, ⟨v', hv', hvt'⟩⟩
      rcases hmem v hv with h1 | h1 <;> rcases hmem v' hv' with h2 | h2 <;> omega
    · rintro ⟨h1, h2⟩
      exact ⟨⟨a, (mem_pixelValues _ _ _ _).2 ha, h1⟩, ⟨b, (mem_pixelValues _ _ _ _).2 hbb, h2⟩⟩
  obtain ⟨_, hsome⟩ := otsu_result m img hf hpos
  obtain ⟨_, hrv, _, hfirst⟩ := hsome ⟨a, by omega, (hvalid a).2 ⟨Nat.le_refl a, hab⟩⟩
  obtain ⟨hr1, hr2⟩ := (hvalid _).1 hrv
  rcases Nat.lt_or_ge a (LIB_IMAGE_OtsuThreshold m img) with hlt | hge
  · exfalso
    have h1 := hfirst a hlt ((hvalid a).2 ⟨Nat.le_refl a, hab⟩)
    obtain ⟨e1, e2⟩ := countLE_congr (pixelValues m img.pData (totalPixels img)) a
      (LIB_IMAGE_OtsuThreshold m img)
      (fun v hv => by rcases hmem v hv with h | h <;> omega)
    rw [specScore_congr m img a _ e1 e2] at h1
    exact lt_irrefl _ h1
  · omega

theorem applyThreshold_run (m : Mem) (imgIn imgOut : IMAGE_HandleTypeDef) (threshold : Nat)
    (hfi : imgIn.format = IMAGE_FORMAT_GRAYSCALE)
    (hfo : imgOut.format = IMAGE_FORMAT_GRAYSCALE)
    (hw : imgIn.width = imgOut.width) (hh : imgIn.height = imgOut.height) :
    LIB_IMAGE_ApplyThreshold m imgIn imgOut threshold
      = (IMAGE_OK, (List.range (totalPixels imgIn)).foldl
          (thresholdStep imgIn.pData imgOut.pData threshold) m) := by
  unfold LIB_IMAGE_ApplyThreshold
  rw [if_neg (by simp [hfi, hfo]), if_neg (by simp [hw, hh])]

/-! ## C2, C8, C9: the threshold engine -/

/-- C2: over the rationals, `LIB_IMAGE_OtsuThreshold` on a non-empty GRAYSCALE
image returns the lowest level of 0..255 whose score
`w0*w1*(mean0-mean1)^2` is the greatest among the levels with both weights
non-zero (every lower such level has a strictly smaller score), and returns 0
when no such level has a positive score. -/
theorem otsu_argmax (m : Mem) (img : IMAGE_HandleTypeDef)
    (hf : img.format = IMAGE_FORMAT_GRAYSCALE)
    (hw16 : img.width < 65536) (hh16 : img.height < 65536)
    (hpos : 0 < img.width * img.height) :
    ((∃ t, t < 256 ∧ specValid m img t ∧ 0 < specScore m img t) →
      LIB_IMAGE_OtsuThreshold m img < 256 ∧
      specValid m img (LIB_IMAGE_OtsuThreshold m img) ∧
      (∀ u, u < 256 → specValid m img u →
        specScore m img u ≤ specScore m img (LIB_IMAGE_OtsuThreshold m img)) ∧
      (∀ u, u < LIB_IMAGE_OtsuThreshold m img → specValid m img u →
        specScore m img u < specScore m img (LIB_IMAGE_OtsuThreshold m img))) ∧
    ((∀ t, t < 256 → specValid m img t → specScore m img t ≤ 0) →
      LIB_IMAGE_OtsuThreshold m img = 0) := by
  have hposT : 0 < totalPixels img := by
    rw [totalPixels_eq img hw16 hh16]; exact hpos
  obtain ⟨hnone, hsome⟩ := otsu_result m img hf hposT
  constructor
  · rintro ⟨t, ht, htv, _⟩
    exact hsome ⟨t, ht, htv⟩
  · intro hall
    apply hnone
    intro t ht htv
    exact absurd (otsu_level_facts m img t hposT htv).2 (not_lt.2 (hall t ht htv))

/-- C2 on the 4x4 image of eight 10s and eight 200s, where the levels 10..199
are kept with equal scores: the first one, 10, is returned. -/
theorem otsu_argmax_witness :
    (((∃ t, t < 256 ∧ specValid clusterMem (grayImage 1 4 4) t ∧
          0 < specScore clusterMem (grayImage 1 4 4) t) →
      LIB_IMAGE_OtsuThreshold clusterMem (grayImage 1 4 4) < 256 ∧
      specValid clusterMem (grayImage 1 4 4)
        (LIB_IMAGE_OtsuThreshold clusterMem (grayImage 1 4 4)) ∧
      (∀ u, u < 256 → specValid clusterMem (grayImage 1 4 4) u →
        specScore clusterMem (grayImage 1 4 4) u
          ≤ specScore clusterMem (grayImage 1 4 4)
              (LIB_IMAGE_OtsuThreshold clusterMem (grayImage 1 4 4))) ∧
      (∀ u, u < LIB_IMAGE_OtsuThreshold clusterMem (grayImage 1 4 4) →
        specValid clusterMem (grayImage 1 4 4) u →
        specScore clusterMem (grayImage 1 4 4) u
          < specScore clusterMem (grayImage 1 4 4)
              (LIB_IMAGE_OtsuThreshold clusterMem (grayImage 1 4 4)))) ∧
    ((∀ t, t < 256 → specValid clusterMem (grayImage 1 4 4) t →
        specScore clusterMem (grayImage 1 4 4) t ≤ 0) →
      LIB_IMAGE_OtsuThreshold clusterMem (grayImage 1 4 4) = 0)) ∧
    LIB_IMAGE_OtsuThreshold clusterMem (grayImage 1 4 4) = 10 :=
  ⟨otsu_argmax clusterMem (grayImage 1 4 4) rfl (by decide) (by decide) (by decide),
   otsu_returns_lower clusterMem (grayImage 1 4 4) 10 200 rfl (by decide) (by decide)
    (by decide) (by decide) (by decide)⟩

/-- The value `roundHalfEven n d` is an integer nearest to `n/d`, and the even
one when `n/d` lies half way between two integers. -/
theorem roundHalfEven_nearest (n d : Nat) (hd : 0 < d) :
    2 * (n - roundHalfEven n d * d) ≤ d ∧ 2 * (roundHalfEven n d * d - n) ≤ d ∧
    (2 * (n % d) = d → roundHalfEven n d % 2 = 0) := by
  have hdm := Nat.div_add_mod n d
  have hlt := Nat.mod_lt n hd
  have hmul : (n / d + 1) * d = d * (n / d) + d := by ring
  have hmul2 : n / d * d = d * (n / d) := by ring
  unfold roundHalfEven
  by_cases h1 : 2 * (n % d) < d
  · rw [if_pos h1, hmul2]
    omega
  · rw [if_neg h1]
    by_cases h2 : d < 2 * (n % d)
    · rw [if_pos h2, hmul]
      omega
    · rw [if_neg h2]
      by_cases h3 : n / d % 2 = 0
      · rw [if_pos h3, hmul2]
        omega
      · rw [if_neg h3, hmul]
        omega

/-- The rounding at some known values of the format: 1/3 and 1/10, two ties
above `2^24`, the conversion of the largest `uint32_t`, the tie below `2^128`,
and two values in the subnormal range. -/
theorem f32Round_samples :
    f32Round (1 / 3) = F32.fin (11184811 / 33554432) ∧
    f32Round (1 / 10) = F32.fin (13421773 / 134217728) ∧
    F32.ofNat 16777217 = F32.fin 16777216 ∧
    F32.ofNat 16777219 = F32.fin 16777220 ∧
    F32.ofNat 4294967295 = F32.fin 4294967296 ∧
    f32Round (2 ^ 128 - 2 ^ 103) = F32.inf false ∧
    f32Round (1 / 2 ^ 150) = F32.fin 0 ∧
    f32Round (3 / 2 ^ 150) = F32.fin (1 / 2 ^ 148) := by
  decide!

theorem F32.lt_irrefl (a : F32) : F32.lt a a = false := by
  cases a with
  | fin q => simp [F32.lt]
  | inf s => cases s <;> rfl
  | nan => rfl

/-- The minimum found by the kernel loops is below every input pixel of the
window, in image coordinates. -/
theorem windowScan_min_window (src : Nat → Nat) {w h hk x y a b : Nat}
    (hx2 : x + hk < w) (hy2 : y + hk < h) (hw16 : w < 65536) (hh16 : h < 65536)
    (ha1 : y - hk ≤ a) (ha2 : a ≤ y + hk) (hb1 : x - hk ≤ b) (hb2 : b ≤ x + hk) :
    windowScan erosionReplaces 255 src w hk x y ≤ src (a * w + b) := by
  have hle := windowScan_min_le src w hk x y
    ((a : Int) - (y : Int)) ((mem_kernelOffsets _ _).2 (by omega))
    ((b : Int) - (x : Int)) ((mem_kernelOffsets _ _).2 (by omega))
  rw [idx32_neighbour (show b < w by omega) (show a < h by omega) hw16 hh16] at hle
  exact hle

/-- The maximum found by the kernel loops is above every input pixel of the
window, in image coordinates. -/
theorem windowScan_max_window (src : Nat → Nat) {w h hk x y a b : Nat}
    (hx2 : x + hk < w) (hy2 : y + hk < h) (hw16 : w < 65536) (hh16 : h < 65536)
    (ha1 : y - hk ≤ a) (ha2 : a ≤ y + hk) (hb1 : x - hk ≤ b) (hb2 : b ≤ x + hk) :
    src (a * w + b) ≤ windowScan dilationReplaces 0 src w hk x y := by
  have hle := windowScan_max_ge src w hk x y
    ((a : Int) - (y : Int)) ((mem_kernelOffsets _ _).2 (by omega))
    ((b : Int) - (x : Int)) ((mem_kernelOffsets _ _).2 (by omega))
  rw [idx32_neighbour (show b < w by omega) (show a < h by omega) hw16 hh16] at hle
  exact hle

/-- At a non-border pixel the kernel loops return the initial value or an
input pixel of the window, in image coordinates. -/
theorem windowScan_window_pick (replaces : Nat → Nat → Bool) (init : Nat) (src : Nat → Nat)
    {w h hk x y : Nat} (hx1 : hk ≤ x) (hx2 : x + hk < w) (hy1 : hk ≤ y) (hy2 : y + hk < h)
    (hw16 : w < 65536) (hh16 : h < 65536) :
    windowScan replaces init src w hk x y = init ∨
    ∃ a b, y - hk ≤ a ∧ a ≤ y + hk ∧ x - hk ≤ b ∧ b ≤ x + hk ∧
      windowScan replaces init src w hk x y = src (a * w + b) := by
  rcases windowScan_pick replaces init src w hk x y with h1 | ⟨ky, hky, kx, hkx, h1⟩
  · exact Or.inl h1
  · obtain ⟨a, b, ha1, ha2, hb1, hb2, hidx⟩ :=
      idx32_offset hx1 hx2 hy1 hy2 hkx hky hw16 hh16
    exact Or.inr ⟨a, b, ha1, ha2, hb1, hb2, by rw [h1, hidx]⟩

/-- The dilation of the eroded image is below the input at a border pixel and
at a pixel whose window holds no border pixel. -/
theorem open_value_le (src : Nat → Nat) {w h hk x y : Nat} (hx : x < w) (hy : y < h)
    (hw16 : w < 65536) (hh16 : h < 65536)
    (hpix : isBorder w h hk x y ∨
      (2 * hk ≤ x ∧ x + 2 * hk < w ∧ 2 * hk ≤ y ∧ y + 2 * hk < h)) :
    morphValue dilationReplaces 0
        (fun j => morphValue erosionReplaces 255 src w h hk (j % w) (j / w)) w h hk x y
      ≤ src (y * w + x) := by
  rcases hpix with hb | ⟨hx1, hx2, hy1, hy2⟩
  · rw [morphValue_border _ _ _ hx hy hw16 hh16 hb]
    simp only [pixel_mod y hx, pixel_div y hx]
    rw [morphValue_border _ _ _ hx hy hw16 hh16 hb]
  · by_cases hb : isBorder w h hk x y
    · rw [morphValue_border _ _ _ hx hy hw16 hh16 hb]
      simp only [pixel_mod y hx, pixel_div y hx]
      rw [morphValue_border _ _ _ hx hy hw16 hh16 hb]
    · have hval : morphValue dilationReplaces 0
          (fun j => morphValue erosionReplaces 255 src w h hk (j % w) (j / w)) w h hk x y
          = windowScan dilationReplaces 0
              (fun j => morphValue erosionReplaces 255 src w h hk (j % w) (j / w)) w hk x y := by
        unfold morphValue
        rw [if_neg hb]
      rw [hval]
      rcases windowScan_window_pick dilationReplaces 0
        (fun j => morphValue erosionReplaces 255 src w h hk (j % w) (j / w))
        (show hk ≤ x by omega) (show x + hk < w by omega) (show hk ≤ y by omega)
        (show y + hk < h by omega) hw16 hh16 with h0 | ⟨a, b, ha1, ha2, hb1, hb2, h1⟩
      · rw [h0]; exact Nat.zero_le _
      · rw [h1]
        have hbw : b < w := by omega
        simp only [pixel_mod a hbw, pixel_div a hbw]
        have hnb : ¬ isBorder w h hk b a :=
          (not_isBorder_iff _ _ _ _ _).2 ⟨by omega, by omega, by omega, by omega⟩
        unfold morphValue
        rw [if_neg hnb]
        exact windowScan_min_window src (show b + hk < w by omega) (show a + hk < h by omega)
          hw16 hh16 (by omega) (by omega) (by omega) (by omega)

/-- The erosion of the dilated image is above the input at a border pixel and
at a pixel whose window holds no border pixel. -/
theorem close_value_ge (src : Nat → Nat) (hsrc : ∀ j, src j < 256) {w h hk x y : Nat}
    (hx : x < w) (hy : y < h) (hw16 : w < 65536) (hh16 : h < 65536)
    (hpix : isBorder w h hk x y ∨
      (2 * hk ≤ x ∧ x + 2 * hk < w ∧ 2 * hk ≤ y ∧ y + 2 * hk < h)) :
    src (y * w + x)
      ≤ morphValue erosionReplaces 255
          (fun j => morphValue dilationReplaces 0 src w h hk (j % w) (j / w)) w h hk x y := by
  rcases hpix with hb | ⟨hx1, hx2, hy1, hy2⟩
  · rw [morphValue_border _ _ _ hx hy hw16 hh16 hb]
    simp only [pixel_mod y hx, pixel_div y hx]
    rw [morphValue_border _ _ _ hx hy hw16 hh16 hb]
  · by_cases hb : isBorder w h hk x y
    · rw [morphValue_border _ _ _ hx hy hw16 hh16 hb]
      simp only [pixel_mod y hx, pixel_div y hx]
      rw [morphValue_border _ _ _ hx hy hw16 hh16 hb]
    · have hval : morphValue erosionReplaces 255
          (fun j => morphValue dilationReplaces 0 src w h hk (j % w) (j / w)) w h hk x y
          = windowScan erosionReplaces 255
              (fun j => morphValue dilationReplaces 0 src w h hk (j % w) (j / w)) w hk x y := by
        unfold morphValue
        rw [if_neg hb]
      rw [hval]
      rcases windowScan_window_pick erosionReplaces 255
        (fun j => morphValue dilationReplaces 0 src w h hk (j % w) (j / w))
        (show hk ≤ x by omega) (show x + hk < w by omega) (show hk ≤ y by omega)
        (show y + hk < h by omega) hw16 hh16 with h0 | ⟨a, b, ha1, ha2, hb1, hb2, h1⟩
      · rw [h0]
        have := hsrc (y * w + x)
        omega
      · rw [h1]
        have hbw : b < w := by omega
        simp only [pixel_mod a hbw, pixel_div a hbw]
        have hnb : ¬ isBorder w h hk b a :=
          (not_isBorder_iff _ _ _ _ _).2 ⟨by omega, by omega, by omega, by omega⟩
        unfold morphValue
        rw [if_neg hnb]
        exact windowScan_max_window src (show b + hk < w by omega) (show a + hk < h by omega)
          hw16 hh16 (by omega) (by omega) (by omega) (by omega)

/-! ## C11, C12: opening and closing against the input -/

/-- C11 fails as stated: on the 3x3 image `demoMem` with a 3x3 kernel the
centre pixel of the opening is 9 while the input pixel is 5 (the dilation sees
the border pixels that the erosion has copied). -/
theorem opening_brighter_than_input :
    (grayImage 1 3 3).width ≤ 128 ∧ (grayImage 1 3 3).height ≤ 128 ∧
    (LIB_IMAGE_Opening 7 (grayImage 0 0 0) demoMem (grayImage 1 3 3) (grayImage 2 3 3) 3).1
      = IMAGE_OK ∧
    load8 demoMem 1 4 = 5 ∧
    load8 (LIB_IMAGE_Opening 7 (grayImage 0 0 0) demoMem (grayImage 1 3 3)
      (grayImage 2 3 3) 3).2 2 4 = 9 ∧
    ¬ (load8 (LIB_IMAGE_Opening 7 (grayImage 0 0 0) demoMem (grayImage 1 3 3)
        (grayImage 2 3 3) 3).2 2 4 ≤ load8 demoMem 1 4) := by
  decide

/-- C11, amended: for GRAYSCALE images with width and height at most 128 and
every kernel size, the opening is not brighter than the input at every border
pixel and at every pixel whose neighbourhood holds no border pixel
(`2h <= x < width - 2h` and `2h <= y < height - 2h` with `h = k/2`). -/
theorem opening_le_input (tempOpening : Nat) (tmpO : IMAGE_HandleTypeDef) (m : Mem)
    (imgIn imgOut : IMAGE_HandleTypeDef) (k : Nat)
    (hfi : imgIn.format = IMAGE_FORMAT_GRAYSCALE)
    (hfo : imgOut.format = IMAGE_FORMAT_GRAYSCALE)
    (hw : imgIn.width = imgOut.width) (hh : imgIn.height = imgOut.height)
    (hw128 : imgIn.width ≤ 128) (hh128 : imgIn.height ≤ 128)
    (hO0 : tempOpening ≠ 0) (hOi : tempOpening ≠ imgIn.pData)
    (hOo : tempOpening ≠ imgOut.pData)
    (x y : Nat) (hx : x < imgIn.width) (hy : y < imgIn.height)
    (hpix : (x < k / 2 ∨ imgIn.width - k / 2 ≤ x ∨ y < k / 2 ∨ imgIn.height - k / 2 ≤ y) ∨
      (2 * (k / 2) ≤ x ∧ x + 2 * (k / 2) < imgIn.width ∧
        2 * (k / 2) ≤ y ∧ y + 2 * (k / 2) < imgIn.height)) :
    load8 (LIB_IMAGE_Opening tempOpening tmpO m imgIn imgOut k).2 imgOut.pData
        (y * imgIn.width + x)
      ≤ load8 m imgIn.pData (y * imgIn.width + x) := by
  rw [(opening_pixel tempOpening tmpO m imgIn imgOut k hfi hfo hw hh hw128 hh128
    hO0 hOi hOo x y hx hy).2]
  apply open_value_le (load8 m imgIn.pData) hx hy (by omega) (by omega)
  rcases hpix with hb | hd
  · left
    unfold isBorder
    omega
  · exact Or.inr hd

/-- C11, amended, at the centre of the 5x5 image `gridMem` with a 3x3 kernel:
the bright centre pixel (200) is not exceeded by the opening. -/
theorem opening_le_input_witness :
    load8 (LIB_IMAGE_Opening 7 (grayImage 0 0 0) gridMem (grayImage 1 5 5)
        (grayImage 2 5 5) 3).2 (grayImage 2 5 5).pData (2 * (grayImage 1 5 5).width + 2)
      ≤ load8 gridMem (grayImage 1 5 5).pData (2 * (grayImage 1 5 5).width + 2) :=
  opening_le_input 7 (grayImage 0 0 0) gridMem (grayImage 1 5 5) (grayImage 2 5 5) 3
    rfl rfl rfl rfl (by decide) (by decide) (by decide) (by decide) (by decide)
    2 2 (by decide) (by decide) (by decide)

/-- C12 fails as stated: on the 3x3 image `demoMem` with a 3x3 kernel the
centre pixel of the closing is 1 while the input pixel is 5 (the erosion sees
the border pixels that the dilation has copied). -/
theorem closing_darker_than_input :
    (grayImage 1 3 3).width ≤ 128 ∧ (grayImage 1 3 3).height ≤ 128 ∧
    (LIB_IMAGE_Closing 8 (grayImage 0 0 0) demoMem (grayImage 1 3 3) (grayImage 2 3 3) 3).1
      = IMAGE_OK ∧
    load8 demoMem 1 4 = 5 ∧
    load8 (LIB_IMAGE_Closing 8 (grayImage 0 0 0) demoMem (grayImage 1 3 3)
      (grayImage 2 3 3) 3).2 2 4 = 1 ∧
    ¬ (load8 demoMem 1 4 ≤ load8 (LIB_IMAGE_Closing 8 (grayImage 0 0 0) demoMem
        (grayImage 1 3 3) (grayImage 2 3 3) 3).2 2 4) := by
  decide

/-- C12, amended: for GRAYSCALE images with width and height at most 128 and
every kernel size, the closing is not darker than the input at every border
pixel and at every pixel whose neighbourhood holds no border pixel
(`2h <= x < width - 2h` and `2h <= y < height - 2h` with `h = k/2`). -/
theorem closing_ge_input (tempClosing : Nat) (tmpC : IMAGE_HandleTypeDef) (m : Mem)
    (imgIn imgOut : IMAGE_HandleTypeDef) (k : Nat)
    (hfi : imgIn.format = IMAGE_FORMAT_GRAYSCALE)
    (hfo : imgOut.format = IMAGE_FORMAT_GRAYSCALE)
    (hw : imgIn.width = imgOut.width) (hh : imgIn.height = imgOut.height)
    (hw128 : imgIn.width ≤ 128) (hh128 : imgIn.height ≤ 128)
    (hC0 : tempClosing ≠ 0) (hCi : tempClosing ≠ imgIn.pData)
    (hCo : tempClosing ≠ imgOut.pData)
    (x y : Nat) (hx : x < imgIn.width) (hy : y < imgIn.height)
    (hpix : (x < k / 2 ∨ imgIn.width - k / 2 ≤ x ∨ y < k / 2 ∨ imgIn.height - k / 2 ≤ y) ∨
      (2 * (k / 2) ≤ x ∧ x + 2 * (k / 2) < imgIn.width ∧
        2 * (k / 2) ≤ y ∧ y + 2 * (k / 2) < imgIn.height)) :
    load8 m imgIn.pData (y * imgIn.width + x)
      ≤ load8 (LIB_IMAGE_Closing tempClosing tmpC m imgIn imgOut k).2 imgOut.pData
          (y * imgIn.width + x) := by
  rw [(closing_pixel tempClosing tmpC m imgIn imgOut k hfi hfo hw hh hw128 hh128
    hC0 hCi hCo x y hx hy).2]
  apply close_value_ge (load8 m imgIn.pData) (fun j => load8_lt m imgIn.pData j) hx hy
    (by omega) (by omega)
  rcases hpix with hb | hd
  · left
    unfold isBorder
    omega
  · exact Or.inr hd

/-- C12, amended, at the centre of the 5x5 image `gridMem` with a 3x3 kernel. -/
theorem closing_ge_input_witness :
    load8 gridMem (grayImage 1 5 5).pData (2 * (grayImage 1 5 5).width + 2)
      ≤ load8 (LIB_IMAGE_Closing 8 (grayImage 0 0 0) gridMem (grayImage 1 5 5)
          (grayImage 2 5 5) 3).2 (grayImage 2 5 5).pData (2 * (grayImage 1 5 5).width + 2) :=
  closing_ge_input 8 (grayImage 0 0 0) gridMem (grayImage 1 5 5) (grayImage 2 5 5) 3
    rfl rfl rfl rfl (by decide) (by decide) (by decide) (by decide) (by decide)
    2 2 (by decide) (by decide) (by decide)

/-! ## C13: duality of erosion and dilation -/

/-- The value stored by the erosion is 255 minus the value stored by the
dilation of the inverted input, at every pixel. -/
theorem morphValue_dual (src src' : Nat → Nat) (hsrc : ∀ j, src j < 256)
    {w h hk x y : Nat} (hx : x < w) (hy : y < h) (hw16 : w < 65536) (hh16 : h < 65536)
    (hinv : ∀ j, j < w * h → src' j = 255 - src j) :
    morphValue erosionReplaces 255 src w h hk x y
      = 255 - morphValue dilationReplaces 0 src' w h hk x y := by
  by_cases hb : isBorder w h hk x y
  · rw [morphValue_border _ _ _ hx hy hw16 hh16 hb, morphValue_border _ _ _ hx hy hw16 hh16 hb,
      hinv _ (pixel_lt hx hy)]
    have := hsrc (y * w + x)
    omega
  · obtain ⟨hx1, hx2, hy1, hy2⟩ := (not_isBorder_iff _ _ _ _ _).1 hb
    unfold morphValue
    rw [if_neg hb, if_neg hb]
    have hcE := windowScan_min_window src hx2 hy2 hw16 hh16
      (show y - hk ≤ y by omega) (show y ≤ y + hk by omega)
      (show x - hk ≤ x by omega) (show x ≤ x + hk by omega)
    have hcD := windowScan_max_window src' hx2 hy2 hw16 hh16
      (show y - hk ≤ y by omega) (show y ≤ y + hk by omega)
      (show x - hk ≤ x by omega) (show x ≤ x + hk by omega)
    rw [hinv _ (pixel_lt hx hy)] at hcD
    have hc := hsrc (y * w + x)
    rcases windowScan_window_pick dilationReplaces 0 src' hx1 hx2 hy1 hy2 hw16 hh16
      with hD | ⟨a, b, ha1, ha2, hb1, hb2, hD⟩
    · rcases windowScan_window_pick erosionReplaces 255 src hx1 hx2 hy1 hy2 hw16 hh16
        with hE | ⟨a', b', ha1', ha2', hb1', hb2', hE⟩
      · omega
      · have h1 := windowScan_max_window src' hx2 hy2 hw16 hh16 ha1' ha2' hb1' hb2'
        rw [hinv _ (pixel_lt (show b' < w by omega) (show a' < h by omega))] at h1
        have h2 := hsrc (a' * w + b')
        omega
    · rw [hinv _ (pixel_lt (show b < w by omega) (show a < h by omega))] at hD
      have h3 := windowScan_min_window src hx2 hy2 hw16 hh16 ha1 ha2 hb1 hb2
      have h4 := hsrc (a * w + b)
      rcases windowScan_window_pick erosionReplaces 255 src hx1 hx2 hy1 hy2 hw16 hh16
        with hE | ⟨a', b', ha1', ha2', hb1', hb2', hE⟩
      · omega
      · have h1 := windowScan_max_window src' hx2 hy2 hw16 hh16 ha1' ha2' hb1' hb2'
        rw [hinv _ (pixel_lt (show b' < w by omega) (show a' < h by omega))] at h1
        have h2 := hsrc (a' * w + b')
        omega

/-- C13: erosion and dilation are dual under pixel inversion.  For GRAYSCALE
descriptors of equal dimensions on distinct buffers, every kernel size and a
memory `mInv` whose input buffer holds the inverted image `255 - X`, the
erosion of `X` equals 255 minus the dilation of the inverted image at every
pixel, the interior pixels in particular. -/
theorem erosion_dilation_dual (m mInv : Mem) (imgIn imgOut : IMAGE_HandleTypeDef) (k : Nat)
    (hfi : imgIn.format = IMAGE_FORMAT_GRAYSCALE)
    (hfo : imgOut.format = IMAGE_FORMAT_GRAYSCALE)
    (hw : imgIn.width = imgOut.width) (hh : imgIn.height = imgOut.height)
    (hw16 : imgIn.width < 65536) (hh16 : imgIn.height < 65536)
    (hne : imgIn.pData ≠ imgOut.pData)
    (hinv : ∀ j, j < imgIn.width * imgIn.height →
      load8 mInv imgIn.pData j = 255 - load8 m imgIn.pData j)
    (x y : Nat) (hx : x < imgIn.width) (hy : y < imgIn.height) :
    load8 (LIB_IMAGE_Erosion m imgIn imgOut k).2 imgOut.pData (y * imgIn.width + x)
      = 255 - load8 (LIB_IMAGE_Dilation mInv imgIn imgOut k).2 imgOut.pData
          (y * imgIn.width + x) := by
  unfold LIB_IMAGE_Erosion LIB_IMAGE_Dilation
  rw [(morphology_pixel erosionReplaces 255 m imgIn imgOut k hfi hfo hw hh hw16 hh16 hne
      (by decide)).2.1 x y hx hy,
    (morphology_pixel dilationReplaces 0 mInv imgIn imgOut k hfi hfo hw hh hw16 hh16 hne
      (by decide)).2.1 x y hx hy]
  exact morphValue_dual (load8 m imgIn.pData) (load8 mInv imgIn.pData)
    (fun j => load8_lt m imgIn.pData j) hx hy hw16 hh16 hinv

/-- C13 at the centre of the 3x3 image `demoMem` and its inverse `demoMemInv`
with a 3x3 kernel: the erosion gives 1, the dilation of the inverse 254. -/
theorem erosion_dilation_dual_witness :
    load8 (LIB_IMAGE_Erosion demoMem (grayImage 1 3 3) (grayImage 2 3 3) 3).2
        (grayImage 2 3 3).pData (1 * (grayImage 1 3 3).width + 1)
      = 255 - load8 (LIB_IMAGE_Dilation demoMemInv (grayImage 1 3 3) (grayImage 2 3 3) 3).2
          (grayImage 2 3 3).pData (1 * (grayImage 1 3 3).width + 1) ∧
    load8 (LIB_IMAGE_Dilation demoMemInv (grayImage 1 3 3) (grayImage 2 3 3) 3).2 2 4 = 254 :=
  ⟨erosion_dilation_dual demoMem demoMemInv (grayImage 1 3 3) (grayImage 2 3 3) 3
    rfl rfl rfl rfl (by decide) (by decide) (by decide) (by decide) 1 1 (by decide)
    (by decide), by decide⟩

/-! ## C14: the binarizer on binary images -/

/-- C14: `LIB_IMAGE_ApplyThreshold` is idempotent on binary images.  For a
GRAYSCALE image whose pixels are all 0 or 255 and a threshold in 0..254, the
call succeeds and every output pixel equals the input pixel. -/
theorem applyThreshold_idempotent (m : Mem) (imgIn imgOut : IMAGE_HandleTypeDef)
    (threshold : Nat)
    (hfi : imgIn.format = IMAGE_FORMAT_GRAYSCALE)
    (hfo : imgOut.format = IMAGE_FORMAT_GRAYSCALE)
    (hw : imgIn.width = imgOut.width) (hh : imgIn.height = imgOut.height)
    (hw16 : imgIn.width < 65536) (hh16 : imgIn.height < 65536)
    (hthr : threshold ≤ 254)
    (hbin : ∀ i, i < imgIn.width * imgIn.height →
      load8 m imgIn.pData i = 0 ∨ load8 m imgIn.pData i = 255) :
    (LIB_IMAGE_ApplyThreshold m imgIn imgOut threshold).1 = IMAGE_OK ∧
    ∀ i, i < imgIn.width * imgIn.height →
      load8 (LIB_IMAGE_ApplyThreshold m imgIn imgOut threshold).2 imgOut.pData i
        = load8 m imgIn.pData i := by
  rw [applyThreshold_run m imgIn imgOut threshold hfi hfo hw hh,
    totalPixels_eq imgIn hw16 hh16]
  refine ⟨rfl, fun i hi => ?_⟩
  have hout :=
    (threshold_loop imgIn.pData imgOut.pData threshold m (imgIn.width * imgIn.height)).1 i hi
  simp only at hout ⊢
  rw [hout]
  rcases hbin i hi with h | h
  · rw [h, if_neg (by omega)]
  · rw [h, if_pos (by omega)]

/-- C14 on the 2x2 image `bimodalMem` with threshold 254, binarized in place. -/
theorem applyThreshold_idempotent_witness :
    (LIB_IMAGE_ApplyThreshold bimodalMem (grayImage 1 2 2) (grayImage 1 2 2) 254).1
      = IMAGE_OK ∧
    ∀ i, i < (grayImage 1 2 2).width * (grayImage 1 2 2).height →
      load8 (LIB_IMAGE_ApplyThreshold bimodalMem (grayImage 1 2 2) (grayImage 1 2 2) 254).2
          (grayImage 1 2 2).pData i
        = load8 bimodalMem (grayImage 1 2 2).pData i :=
  applyThreshold_idempotent bimodalMem (grayImage 1 2 2) (grayImage 1 2 2) 254
    rfl rfl rfl rfl (by decide) (by decide) (by decide) (by decide)

/-! ## Validation: status codes and the cells left untouched -/

theorem status_ne : IMAGE_OK ≠ IMAGE_ERROR := by decide

/-- The status of the common body of erosion and dilation, and the memory
after a rejected call. -/
theorem morphology_status (replaces : Nat → Nat → Bool) (init : Nat) (m : Mem)
    (imgIn imgOut : IMAGE_HandleTypeDef) (k : Nat) :
    ((morphology replaces init m imgIn imgOut k).1 = IMAGE_ERROR ↔
      (imgIn.format ≠ IMAGE_FORMAT_GRAYSCALE ∨ imgOut.format ≠ IMAGE_FORMAT_GRAYSCALE ∨
        imgIn.width ≠ imgOut.width ∨ imgIn.height ≠ imgOut.height)) ∧
    ((morphology replaces init m imgIn imgOut k).1 = IMAGE_OK ↔
      (imgIn.format = IMAGE_FORMAT_GRAYSCALE ∧ imgOut.format = IMAGE_FORMAT_GRAYSCALE ∧
        imgIn.width = imgOut.width ∧ imgIn.height = imgOut.height)) ∧
    ((morphology replaces init m imgIn imgOut k).1 ≠ IMAGE_OK →
      (morphology replaces init m imgIn imgOut k).2 = m) := by
  unfold morphology
  by_cases h1 : imgIn.format ≠ IMAGE_FORMAT_GRAYSCALE ∨ imgOut.format ≠ IMAGE_FORMAT_GRAYSCALE
  · rw [if_pos h1]
    refine ⟨⟨fun _ => ?_, fun _ => rfl⟩, ⟨fun hc => absurd hc.symm status_ne, fun hc => ?_⟩,
      fun _ => rfl⟩
    · rcases h1 with h | h
      · exact Or.inl h
      · exact Or.inr (Or.inl h)
    · rcases h1 with h | h
      · exact absurd hc.1 h
      · exact absurd hc.2.1 h
  · rw [if_neg h1]
    rw [not_or, not_not, not_not] at h1
    by_cases h2 : imgIn.width ≠ imgOut.width ∨ imgIn.height ≠ imgOut.height
    · rw [if_pos h2]
      refine ⟨⟨fun _ => Or.inr (Or.inr h2), fun _ => rfl⟩,
        ⟨fun hc => absurd hc.symm status_ne, fun hc => ?_⟩, fun _ => rfl⟩
      rcases h2 with h | h
      · exact absurd hc.2.2.1 h
      · exact absurd hc.2.2.2 h
    · rw [if_neg h2]
      rw [not_or, not_not, not_not] at h2
      refine ⟨⟨fun hc => absurd hc status_ne, fun hc => ?_⟩,
        ⟨fun _ => ⟨h1.1, h1.2, h2.1, h2.2⟩, fun _ => rfl⟩, fun hc => absurd rfl hc⟩
      rcases hc with h | h | h | h
      · exact absurd h1.1 h
      · exact absurd h1.2 h
      · exact absurd h2.1 h
      · exact absurd h2.2 h

/-- The pixel loops write inside the image region of the output buffer only. -/
theorem morph_loops_frame (replaces : Nat → Nat → Bool) (init pIn pOut w h hk : Nat)
    (m0 : Mem) (hw16 : w < 65536) (hh16 : h < 65536) :
    ∀ q j, (q ≠ pOut ∨ w * h ≤ j) →
      ((List.range h).foldl (morphRow replaces init pIn pOut w h hk) m0).cell q j
        = m0.cell q j := by
  refine morph_loops_inv replaces init pIn pOut w h hk
    (fun _ a => ∀ q j, (q ≠ pOut ∨ w * h ≤ j) → a.cell q j = m0.cell q j) m0
    (fun _ _ _ _ hQ => hQ) (fun _ _ _ => rfl) ?_
  intro X Y a hX hY hQ q j hqj
  rw [morphPixel_eq, idx32_pixel hX hY hw16 hh16]
  have hlt := pixel_lt hX hY
  rw [store8_other _ _ _ _ _ _ (by rintro ⟨h1, h2⟩; rcases hqj with hq | hq <;> omega)]
  exact hQ q j hqj

/-- Erosion and dilation change no cell outside the image region of the
output buffer, whatever the descriptors are. -/
theorem morphology_frame (replaces : Nat → Nat → Bool) (init : Nat) (m : Mem)
    (imgIn imgOut : IMAGE_HandleTypeDef) (k : Nat)
    (hw16 : imgIn.width < 65536) (hh16 : imgIn.height < 65536) :
    ∀ q j, (q ≠ imgOut.pData ∨ imgIn.width * imgIn.height ≤ j) →
      (morphology replaces init m imgIn imgOut k).2.cell q j = m.cell q j := by
  intro q j hqj
  unfold morphology
  split
  · rfl
  · split
    · rfl
    · exact morph_loops_frame replaces init imgIn.pData imgOut.pData imgIn.width
        imgIn.height (k / 2) m hw16 hh16 q j hqj

/-- Two passes through the scratch image of opening and closing when the
input or the output descriptor is not acceptable: the status is
`IMAGE_ERROR` and the output buffer keeps its content. -/
theorem two_pass_reject (rep1 : Nat → Nat → Bool) (init1 : Nat) (rep2 : Nat → Nat → Bool)
    (init2 : Nat) (tempBuffer : Nat) (imgTemp : IMAGE_HandleTypeDef) (m : Mem)
    (imgIn imgOut : IMAGE_HandleTypeDef) (k : Nat)
    (hw128 : imgIn.width ≤ 128) (hh128 : imgIn.height ≤ 128)
    (ht0 : tempBuffer ≠ 0) (hto : imgOut.pData ≠ tempBuffer)
    (hbad : imgIn.format ≠ IMAGE_FORMAT_GRAYSCALE ∨ imgOut.format ≠ IMAGE_FORMAT_GRAYSCALE ∨
      imgIn.width ≠ imgOut.width ∨ imgIn.height ≠ imgOut.height) :
    (if (morphology rep1 init1 m imgIn (initTemp tempBuffer imgTemp imgIn) k).1 ≠ IMAGE_OK
      then (IMAGE_ERROR,
        (morphology rep1 init1 m imgIn (initTemp tempBuffer imgTemp imgIn) k).2)
      else morphology rep2 init2
        (morphology rep1 init1 m imgIn (initTemp tempBuffer imgTemp imgIn) k).2
        (initTemp tempBuffer imgTemp imgIn) imgOut k).1 = IMAGE_ERROR ∧
    ∀ j, (if (morphology rep1 init1 m imgIn (initTemp tempBuffer imgTemp imgIn) k).1 ≠ IMAGE_OK
      then (IMAGE_ERROR,
        (morphology rep1 init1 m imgIn (initTemp tempBuffer imgTemp imgIn) k).2)
      else morphology rep2 init2
        (morphology rep1 init1 m imgIn (initTemp tempBuffer imgTemp imgIn) k).2
        (initTemp tempBuffer imgTemp imgIn) imgOut k).2.cell imgOut.pData j
        = m.cell imgOut.pData j := by
  have hfirst : ∀ j,
      (morphology rep1 init1 m imgIn (initTemp tempBuffer imgTemp imgIn) k).2.cell
        imgOut.pData j = m.cell imgOut.pData j := by
    intro j
    apply morphology_frame rep1 init1 m imgIn _ k (by omega) (by omega)
    by_cases hz : imgIn.width = 0 ∨ imgIn.height = 0
    · right
      rcases hz with h | h <;> simp [h]
    · left
      rw [not_or] at hz
      rw [initTemp_eq tempBuffer imgTemp imgIn ht0 hz.1 hz.2]
      exact hto
  by_cases hs : (morphology rep1 init1 m imgIn (initTemp tempBuffer imgTemp imgIn) k).1
      ≠ IMAGE_OK
  · rw [if_pos hs]
    exact ⟨rfl, hfirst⟩
  · rw [if_neg hs]
    rw [not_not] at hs
    obtain ⟨g1, g2, g3, g4⟩ := (morphology_status rep1 init1 m imgIn _ k).2.1.1 hs
    have hbad2 : (initTemp tempBuffer imgTemp imgIn).format ≠ IMAGE_FORMAT_GRAYSCALE ∨
        imgOut.format ≠ IMAGE_FORMAT_GRAYSCALE ∨
        (initTemp tempBuffer imgTemp imgIn).width ≠ imgOut.width ∨
        (initTemp tempBuffer imgTemp imgIn).height ≠ imgOut.height := by
      rcases hbad with h | h | h | h
      · exact absurd g1 h
      · exact Or.inr (Or.inl h)
      · exact Or.inr (Or.inr (Or.inl (by rw [← g3]; exact h)))
      · exact Or.inr (Or.inr (Or.inr (by rw [← g4]; exact h)))
    have herr := (morphology_status rep2 init2
      (morphology rep1 init1 m imgIn (initTemp tempBuffer imgTemp imgIn) k).2
      (initTemp tempBuffer imgTemp imgIn) imgOut k).1.2 hbad2
    refine ⟨herr, fun j => ?_⟩
    rw [(morphology_status rep2 init2 _ _ imgOut k).2.2
      (by rw [herr]; exact fun hc => status_ne hc.symm)]
    exact hfirst j

/-- Two passes through the scratch image of opening and closing on acceptable
descriptors with non-zero dimensions: both passes succeed. -/
theorem two_pass_ok (rep1 : Nat → Nat → Bool) (init1 : Nat) (rep2 : Nat → Nat → Bool)
    (init2 : Nat) (tempBuffer : Nat) (imgTemp : IMAGE_HandleTypeDef) (m : Mem)
    (imgIn imgOut : IMAGE_HandleTypeDef) (k : Nat)
    (hfi : imgIn.format = IMAGE_FORMAT_GRAYSCALE)
    (hfo : imgOut.format = IMAGE_FORMAT_GRAYSCALE)
    (hw : imgIn.width = imgOut.width) (hh : imgIn.height = imgOut.height)
    (hwpos : 0 < imgIn.width) (hhpos : 0 < imgIn.height) (ht0 : tempBuffer ≠ 0) :
    (if (morphology rep1 init1 m imgIn (initTemp tempBuffer imgTemp imgIn) k).1 ≠ IMAGE_OK
      then (IMAGE_ERROR,
        (morphology rep1 init1 m imgIn (initTemp tempBuffer imgTemp imgIn) k).2)
      else morphology rep2 init2
        (morphology rep1 init1 m imgIn (initTemp tempBuffer imgTemp imgIn) k).2
        (initTemp tempBuffer imgTemp imgIn) imgOut k).1 = IMAGE_OK := by
  have hT := initTemp_eq tempBuffer imgTemp imgIn ht0 (by omega) (by omega)
  have h1 : (morphology rep1 init1 m imgIn (initTemp tempBuffer imgTemp imgIn) k).1
      = IMAGE_OK :=
    (morphology_status rep1 init1 m imgIn _ k).2.1.2
      ⟨hfi, by rw [hT], by rw [hT], by rw [hT]⟩
  rw [if_neg (by rw [h1]; exact fun hc => hc rfl)]
  exact (morphology_status rep2 init2 _ _ imgOut k).2.1.2
    ⟨by rw [hT], hfo, by rw [hT]; exact hw, by rw [hT]; exact hh⟩

/-- A body guarded by the two validation tests: the status is `IMAGE_ERROR`
exactly when one of the tests fires, and then the memory is returned as it
was. -/
theorem guarded_status (c1 c2 : Prop) [Decidable c1] [Decidable c2] (m after : Mem) :
    ((if c1 then (IMAGE_ERROR, m) else if c2 then (IMAGE_ERROR, m)
        else (IMAGE_OK, after)).1 = IMAGE_ERROR ↔ (c1 ∨ c2)) ∧
    ((if c1 then (IMAGE_ERROR, m) else if c2 then (IMAGE_ERROR, m)
        else (IMAGE_OK, after)).1 = IMAGE_ERROR →
      (if c1 then (IMAGE_ERROR, m) else if c2 then (IMAGE_ERROR, m)
        else (IMAGE_OK, after)).2 = m) := by
  by_cases h1 : c1
  · rw [if_pos h1]
    exact ⟨⟨fun _ => Or.inl h1, fun _ => rfl⟩, fun _ => rfl⟩
  · rw [if_neg h1]
    by_cases h2 : c2
    · rw [if_pos h2]
      exact ⟨⟨fun _ => Or.inr h2, fun _ => rfl⟩, fun _ => rfl⟩
    · rw [if_neg h2]
      refine ⟨⟨fun hc => absurd hc status_ne, fun hc => ?_⟩, fun hc => absurd hc status_ne⟩
      rcases hc with h | h
      · exact absurd h h1
      · exact absurd h h2

/-! ## C15: rejected calls of the four basic operations -/

/-- C15: `LIB_IMAGE_ApplyThreshold`, `LIB_IMAGE_Erosion` and
`LIB_IMAGE_Dilation` return `IMAGE_ERROR` exactly when one of the descriptors
is not GRAYSCALE or width or height differ; `LIB_IMAGE_ConvertToGrayscale`
returns it exactly when the input is not RGB565, the output is not GRAYSCALE
or the dimensions differ; and whenever `IMAGE_ERROR` is returned the memory,
the output buffer included, is as it was before the call. -/
theorem validation_rejects (m : Mem) (imgIn imgOut : IMAGE_HandleTypeDef)
    (threshold k : Nat) :
    (((LIB_IMAGE_ApplyThreshold m imgIn imgOut threshold).1 = IMAGE_ERROR ↔
        (imgIn.format ≠ IMAGE_FORMAT_GRAYSCALE ∨ imgOut.format ≠ IMAGE_FORMAT_GRAYSCALE ∨
          imgIn.width ≠ imgOut.width ∨ imgIn.height ≠ imgOut.height)) ∧
      ((LIB_IMAGE_ApplyThreshold m imgIn imgOut threshold).1 = IMAGE_ERROR →
        (LIB_IMAGE_ApplyThreshold m imgIn imgOut threshold).2 = m)) ∧
    (((LIB_IMAGE_Erosion m imgIn imgOut k).1 = IMAGE_ERROR ↔
        (imgIn.format ≠ IMAGE_FORMAT_GRAYSCALE ∨ imgOut.format ≠ IMAGE_FORMAT_GRAYSCALE ∨
          imgIn.width ≠ imgOut.width ∨ imgIn.height ≠ imgOut.height)) ∧
      ((LIB_IMAGE_Erosion m imgIn imgOut k).1 = IMAGE_ERROR →
        (LIB_IMAGE_Erosion m imgIn imgOut k).2 = m)) ∧
    (((LIB_IMAGE_Dilation m imgIn imgOut k).1 = IMAGE_ERROR ↔
        (imgIn.format ≠ IMAGE_FORMAT_GRAYSCALE ∨ imgOut.format ≠ IMAGE_FORMAT_GRAYSCALE ∨
          imgIn.width ≠ imgOut.width ∨ imgIn.height ≠ imgOut.height)) ∧
      ((LIB_IMAGE_Dilation m imgIn imgOut k).1 = IMAGE_ERROR →
        (LIB_IMAGE_Dilation m imgIn imgOut k).2 = m)) ∧
    (((LIB_IMAGE_ConvertToGrayscale m imgIn imgOut).1 = IMAGE_ERROR ↔
        (imgIn.format ≠ IMAGE_FORMAT_RGB565 ∨ imgOut.format ≠ IMAGE_FORMAT_GRAYSCALE ∨
          imgIn.width ≠ imgOut.width ∨ imgIn.height ≠ imgOut.height)) ∧
      ((LIB_IMAGE_ConvertToGrayscale m imgIn imgOut).1 = IMAGE_ERROR →
        (LIB_IMAGE_ConvertToGrayscale m imgIn imgOut).2 = m)) := by
  refine ⟨?_, ?_, ?_, ?_⟩
  · unfold LIB_IMAGE_ApplyThreshold
    have g := guarded_status
      (imgIn.format ≠ IMAGE_FORMAT_GRAYSCALE ∨ imgOut.format ≠ IMAGE_FORMAT_GRAYSCALE)
      (imgIn.width ≠ imgOut.width ∨ imgIn.height ≠ imgOut.height) m
      ((List.range (totalPixels imgIn)).foldl
        (thresholdStep imgIn.pData imgOut.pData threshold) m)
    rw [or_assoc] at g
    exact g
  · unfold LIB_IMAGE_Erosion morphology
    have g := guarded_status
      (imgIn.format ≠ IMAGE_FORMAT_GRAYSCALE ∨ imgOut.format ≠ IMAGE_FORMAT_GRAYSCALE)
      (imgIn.width ≠ imgOut.width ∨ imgIn.height ≠ imgOut.height) m
      ((List.range imgIn.height).foldl
        (morphRow erosionReplaces 255 imgIn.pData imgOut.pData imgIn.width imgIn.height
          (k / 2)) m)
    rw [or_assoc] at g
    exact g
  · unfold LIB_IMAGE_Dilation morphology
    have g := guarded_status
      (imgIn.format ≠ IMAGE_FORMAT_GRAYSCALE ∨ imgOut.format ≠ IMAGE_FORMAT_GRAYSCALE)
      (imgIn.width ≠ imgOut.width ∨ imgIn.height ≠ imgOut.height) m
      ((List.range imgIn.height).foldl
        (morphRow dilationReplaces 0 imgIn.pData imgOut.pData imgIn.width imgIn.height
          (k / 2)) m)
    rw [or_assoc] at g
    exact g
  · unfold LIB_IMAGE_ConvertToGrayscale
    have g := guarded_status
      (imgIn.format ≠ IMAGE_FORMAT_RGB565 ∨ imgOut.format ≠ IMAGE_FORMAT_GRAYSCALE)
      (imgIn.width ≠ imgOut.width ∨ imgIn.height ≠ imgOut.height) m
      ((List.range (totalPixels imgIn)).foldl (grayscaleStep imgIn.pData imgOut.pData) m)
    rw [or_assoc] at g
    exact g

/-! ## C16, C17: rejected and accepted calls of opening and closing -/

/-- C16: for images within the 128x128 limit, `LIB_IMAGE_Opening` and
`LIB_IMAGE_Closing` return `IMAGE_ERROR` whenever the input or the output
descriptor is not GRAYSCALE or their dimensions differ, also when the first
pass has succeeded into the scratch buffer and only the second pass rejects the
output descriptor, and then no cell of the output buffer is modified (the
static scratch buffer is not the output buffer). -/
theorem opening_closing_reject (tempOpening tempClosing : Nat)
    (tmpO tmpC : IMAGE_HandleTypeDef) (m : Mem) (imgIn imgOut : IMAGE_HandleTypeDef) (k : Nat)
    (hw128 : imgIn.width ≤ 128) (hh128 : imgIn.height ≤ 128)
    (hO0 : tempOpening ≠ 0) (hOo : imgOut.pData ≠ tempOpening)
    (hC0 : tempClosing ≠ 0) (hCo : imgOut.pData ≠ tempClosing)
    (hbad : imgIn.format ≠ IMAGE_FORMAT_GRAYSCALE ∨ imgOut.format ≠ IMAGE_FORMAT_GRAYSCALE ∨
      imgIn.width ≠ imgOut.width ∨ imgIn.height ≠ imgOut.height) :
    ((LIB_IMAGE_Opening tempOpening tmpO m imgIn imgOut k).1 = IMAGE_ERROR ∧
      ∀ j, (LIB_IMAGE_Opening tempOpening tmpO m imgIn imgOut k).2.cell imgOut.pData j
        = m.cell imgOut.pData j) ∧
    ((LIB_IMAGE_Closing tempClosing tmpC m imgIn imgOut k).1 = IMAGE_ERROR ∧
      ∀ j, (LIB_IMAGE_Closing tempClosing tmpC m imgIn imgOut k).2.cell imgOut.pData j
        = m.cell imgOut.pData j) := by
  constructor
  · unfold LIB_IMAGE_Opening LIB_IMAGE_Erosion LIB_IMAGE_Dilation
    rw [if_neg (by omega)]
    exact two_pass_reject erosionReplaces 255 dilationReplaces 0 tempOpening tmpO m imgIn
      imgOut k hw128 hh128 hO0 hOo hbad
  · unfold LIB_IMAGE_Closing LIB_IMAGE_Erosion LIB_IMAGE_Dilation
    rw [if_neg (by omega)]
    exact two_pass_reject dilationReplaces 0 erosionReplaces 255 tempClosing tmpC m imgIn
      imgOut k hw128 hh128 hC0 hCo hbad

/-- C16 on the 3x3 image `demoMem` with an RGB565 output descriptor: the
erosion has run into the scratch buffer 7 (its centre holds 1), the dilation
rejects the output descriptor, the status is `IMAGE_ERROR` and the output
buffer 2 is untouched. -/
theorem opening_closing_reject_witness :
    (((LIB_IMAGE_Opening 7 (grayImage 0 0 0) demoMem (grayImage 1 3 3) (colorImage 2 3 3)
        3).1 = IMAGE_ERROR ∧
      ∀ j, (LIB_IMAGE_Opening 7 (grayImage 0 0 0) demoMem (grayImage 1 3 3) (colorImage 2 3 3)
        3).2.cell (colorImage 2 3 3).pData j = demoMem.cell (colorImage 2 3 3).pData j) ∧
    ((LIB_IMAGE_Closing 8 (grayImage 0 0 0) demoMem (grayImage 1 3 3) (colorImage 2 3 3)
        3).1 = IMAGE_ERROR ∧
      ∀ j, (LIB_IMAGE_Closing 8 (grayImage 0 0 0) demoMem (grayImage 1 3 3) (colorImage 2 3 3)
        3).2.cell (colorImage 2 3 3).pData j = demoMem.cell (colorImage 2 3 3).pData j)) ∧
    (LIB_IMAGE_Erosion demoMem (grayImage 1 3 3) (initTemp 7 (grayImage 0 0 0) (grayImage 1 3 3))
      3).1 = IMAGE_OK ∧
    load8 (LIB_IMAGE_Opening 7 (grayImage 0 0 0) demoMem (grayImage 1 3 3) (colorImage 2 3 3)
      3).2 7 4 = 1 :=
  ⟨opening_closing_reject 7 8 (grayImage 0 0 0) (grayImage 0 0 0) demoMem (grayImage 1 3 3)
    (colorImage 2 3 3) 3 (by decide) (by decide) (by decide) (by decide) (by decide)
    (by decide) (Or.inr (Or.inl (by decide))), by decide, by decide⟩

/-- C17: when the input exceeds the resolution of the scratch buffer
(`width > 128` or `height > 128`), `LIB_IMAGE_Opening` and `LIB_IMAGE_Closing`
return `IMAGE_ERROR` and leave the memory as it was; for a GRAYSCALE input of
non-zero width and height at most 128 and a matching GRAYSCALE output
descriptor they return `IMAGE_OK`. -/
theorem opening_closing_capacity (tempOpening tempClosing : Nat)
    (tmpO tmpC : IMAGE_HandleTypeDef) (m : Mem) (imgIn imgOut : IMAGE_HandleTypeDef) (k : Nat)
    (hO0 : tempOpening ≠ 0) (hC0 : tempClosing ≠ 0) :
    ((imgIn.width > 128 ∨ imgIn.height > 128) →
      LIB_IMAGE_Opening tempOpening tmpO m imgIn imgOut k = (IMAGE_ERROR, m) ∧
      LIB_IMAGE_Closing tempClosing tmpC m imgIn imgOut k = (IMAGE_ERROR, m)) ∧
    (imgIn.format = IMAGE_FORMAT_GRAYSCALE → imgOut.format = IMAGE_FORMAT_GRAYSCALE →
      imgIn.width = imgOut.width → imgIn.height = imgOut.height →
      0 < imgIn.width → imgIn.width ≤ 128 → 0 < imgIn.height → imgIn.height ≤ 128 →
      (LIB_IMAGE_Opening tempOpening tmpO m imgIn imgOut k).1 = IMAGE_OK ∧
      (LIB_IMAGE_Closing tempClosing tmpC m imgIn imgOut k).1 = IMAGE_OK) := by
  constructor
  · intro hbig
    unfold LIB_IMAGE_Opening LIB_IMAGE_Closing
    rw [if_pos hbig, if_pos hbig]
    exact ⟨rfl, rfl⟩
  · intro hfi hfo hw hh hwpos hw128 hhpos hh128
    constructor
    · unfold LIB_IMAGE_Opening LIB_IMAGE_Erosion LIB_IMAGE_Dilation
      rw [if_neg (by omega)]
      exact two_pass_ok erosionReplaces 255 dilationReplaces 0 tempOpening tmpO m imgIn imgOut
        k hfi hfo hw hh hwpos hhpos hO0
    · unfold LIB_IMAGE_Closing LIB_IMAGE_Erosion LIB_IMAGE_Dilation
      rw [if_neg (by omega)]
      exact two_pass_ok dilationReplaces 0 erosionReplaces 255 tempClosing tmpC m imgIn imgOut
        k hfi hfo hw hh hwpos hhpos hC0

/-- C17 on a 129x3 image (rejected, memory unchanged) and on the 3x3 image
`demoMem` (accepted). -/
theorem opening_closing_capacity_witness :
    (LIB_IMAGE_Opening 7 (grayImage 0 0 0) demoMem (grayImage 1 129 3) (grayImage 2 129 3) 3
        = (IMAGE_ERROR, demoMem) ∧
      LIB_IMAGE_Closing 8 (grayImage 0 0 0) demoMem (grayImage 1 129 3) (grayImage 2 129 3) 3
        = (IMAGE_ERROR, demoMem)) ∧
    ((LIB_IMAGE_Opening 7 (grayImage 0 0 0) demoMem (grayImage 1 3 3) (grayImage 2 3 3) 3).1
        = IMAGE_OK ∧
      (LIB_IMAGE_Closing 8 (grayImage 0 0 0) demoMem (grayImage 1 3 3) (grayImage 2 3 3) 3).1
        = IMAGE_OK) :=
  ⟨(opening_closing_capacity 7 8 (grayImage 0 0 0) (grayImage 0 0 0) demoMem
      (grayImage 1 129 3) (grayImage 2 129 3) 3 (by decide) (by decide)).1
      (Or.inl (by decide)),
   (opening_closing_capacity 7 8 (grayImage 0 0 0) (grayImage 0 0 0) demoMem
      (grayImage 1 3 3) (grayImage 2 3 3) 3 (by decide) (by decide)).2
      rfl rfl rfl rfl (by decide) (by decide) (by decide) (by decide)⟩

/-! ## C18, C19: descriptor construction -/

/-- C18 fails as stated: the format value 4 is none of the three recognized
encodings, and `LIB_IMAGE_InitStruct` accepts it. -/
theorem initStruct_accepts_format_4 :
    4 ≠ IMAGE_FORMAT_GRAYSCALE ∧ 4 ≠ IMAGE_FORMAT_RGB565 ∧ 4 ≠ IMAGE_FORMAT_RGB888 ∧
    LIB_IMAGE_InitStruct (some (grayImage 0 0 0)) 5 1 1 4
      = (IMAGE_OK, some { pData := 5, width := 1, height := 1, format := 4, size := 4 }) := by
  decide

/-- C18, amended: `LIB_IMAGE_InitStruct` returns `IMAGE_ERROR` and leaves the
descriptor unchanged whenever a pointer is null or the format value, the width
or the height is 0; in every other case, a format value outside 1..3 included,
it returns `IMAGE_OK` with format, height, width and buffer set to the
arguments. -/
theorem initStruct_spec (img : Option IMAGE_HandleTypeDef) (pImg height width format : Nat) :
    ((img = none ∨ pImg = 0 ∨ format = 0 ∨ width = 0 ∨ height = 0) →
      LIB_IMAGE_InitStruct img pImg height width format = (IMAGE_ERROR, img)) ∧
    (∀ d, img = some d → pImg ≠ 0 → format ≠ 0 → width ≠ 0 → height ≠ 0 →
      LIB_IMAGE_InitStruct img pImg height width format
        = (IMAGE_OK, some
            { pData := pImg, width := width, height := height, format := format,
              size := (format * height * width) % 4294967296 })) := by
  constructor
  · intro hbad
    cases img with
    | none => rfl
    | some d =>
      unfold LIB_IMAGE_InitStruct
      simp only
      by_cases h1 : pImg = 0
      · rw [if_pos h1]
      · rw [if_neg h1]
        by_cases h2 : format = 0
        · rw [if_pos h2]
        · rw [if_neg h2]
          by_cases h3 : width = 0
          · rw [if_pos h3]
          · rw [if_neg h3]
            by_cases h4 : height = 0
            · rw [if_pos h4]
            · exfalso
              rcases hbad with h | h | h | h | h
              · exact Option.noConfusion h
              · exact h1 h
              · exact h2 h
              · exact h3 h
              · exact h4 h
  · intro d hd h1 h2 h3 h4
    subst hd
    unfold LIB_IMAGE_InitStruct
    simp only
    rw [if_neg h1, if_neg h2, if_neg h3, if_neg h4]

/-- C18, amended, on a null buffer pointer, on a zero format and on the
arguments of `main` for the grayscale buffer. -/
theorem initStruct_spec_witness :
    LIB_IMAGE_InitStruct (some (grayImage 0 0 0)) 0 128 128 IMAGE_FORMAT_GRAYSCALE
      = (IMAGE_ERROR, some (grayImage 0 0 0)) ∧
    LIB_IMAGE_InitStruct (some (grayImage 0 0 0)) 5 128 128 0
      = (IMAGE_ERROR, some (grayImage 0 0 0)) ∧
    LIB_IMAGE_InitStruct (some (grayImage 0 0 0)) 5 128 128 IMAGE_FORMAT_GRAYSCALE
      = (IMAGE_OK, some
          { pData := 5, width := 128, height := 128, format := IMAGE_FORMAT_GRAYSCALE,
            size := (IMAGE_FORMAT_GRAYSCALE * 128 * 128) % 4294967296 }) :=
  ⟨(initStruct_spec (some (grayImage 0 0 0)) 0 128 128 IMAGE_FORMAT_GRAYSCALE).1
      (Or.inr (Or.inl rfl)),
   (initStruct_spec (some (grayImage 0 0 0)) 5 128 128 0).1 (Or.inr (Or.inr (Or.inl rfl))),
   (initStruct_spec (some (grayImage 0 0 0)) 5 128 128 IMAGE_FORMAT_GRAYSCALE).2
      (grayImage 0 0 0) rfl (by decide) (by decide) (by decide) (by decide)⟩

/-- C19 fails as stated: the RGB888 descriptor of a 65535x65535 image is
constructed successfully with `size = 4294574083`, while the product
`3 * 65535 * 65535` is 12884508675. -/
theorem initStruct_size_wraps :
    LIB_IMAGE_InitStruct (some (grayImage 0 0 0)) 5 65535 65535 IMAGE_FORMAT_RGB888
      = (IMAGE_OK, some
          { pData := 5, width := 65535, height := 65535, format := IMAGE_FORMAT_RGB888,
            size := 4294574083 }) ∧
    IMAGE_FORMAT_RGB888 * 65535 * 65535 = 12884508675 ∧
    (4294574083 : Nat) ≠ IMAGE_FORMAT_RGB888 * 65535 * 65535 := by
  decide

/-- C19, amended: the `size` field of a descriptor constructed by
`LIB_IMAGE_InitStruct` is the product bytes-per-pixel x width x height reduced
modulo 2^32; it is the product itself whenever that is below 2^32, which is
the case for every GRAYSCALE descriptor of 16-bit width and height. -/
theorem initStruct_size (d d' : IMAGE_HandleTypeDef) (pImg height width format : Nat)
    (hok : LIB_IMAGE_InitStruct (some d) pImg height width format = (IMAGE_OK, some d')) :
    d'.size = (format * width * height) % 4294967296 ∧
    (format * width * height < 4294967296 → d'.size = format * width * height) ∧
    (format = IMAGE_FORMAT_GRAYSCALE → width < 65536 → height < 65536 →
      d'.size = format * width * height) := by
  have hsize : d'.size = (format * width * height) % 4294967296 := by
    unfold LIB_IMAGE_InitStruct at hok
    simp only at hok
    by_cases h1 : pImg = 0
    · rw [if_pos h1] at hok
      exact absurd (congrArg Prod.fst hok).symm status_ne
    · rw [if_neg h1] at hok
      by_cases h2 : format = 0
      · rw [if_pos h2] at hok
        exact absurd (congrArg Prod.fst hok).symm status_ne
      · rw [if_neg h2] at hok
        by_cases h3 : width = 0
        · rw [if_pos h3] at hok
          exact absurd (congrArg Prod.fst hok).symm status_ne
        · rw [if_neg h3] at hok
          by_cases h4 : height = 0
          · rw [if_pos h4] at hok
            exact absurd (congrArg Prod.fst hok).symm status_ne
          · rw [if_neg h4] at hok
            have hd := Option.some.inj (congrArg Prod.snd hok)
            rw [← hd]
            show (format * height * width) % 4294967296 = _
            rw [Nat.mul_assoc, Nat.mul_comm height width, ← Nat.mul_assoc]
  refine ⟨hsize, fun hlt => ?_, fun hf hw16 hh16 => ?_⟩
  · rw [hsize, Nat.mod_eq_of_lt hlt]
  · rw [hsize, hf]
    unfold IMAGE_FORMAT_GRAYSCALE
    rw [Nat.one_mul]
    exact Nat.mod_eq_of_lt (mul_lt_two_pow_32 hw16 hh16)

/-- C19, amended, on the descriptor that `main` builds for a grayscale buffer:
1 x 128 x 128 = 16384 bytes. -/
theorem initStruct_size_witness :
    (grayImage 5 128 128).size = (IMAGE_FORMAT_GRAYSCALE * 128 * 128) % 4294967296 ∧
    (IMAGE_FORMAT_GRAYSCALE * 128 * 128 < 4294967296 →
      (grayImage 5 128 128).size = IMAGE_FORMAT_GRAYSCALE * 128 * 128) ∧
    (IMAGE_FORMAT_GRAYSCALE = IMAGE_FORMAT_GRAYSCALE → 128 < 65536 → 128 < 65536 →
      (grayImage 5 128 128).size = IMAGE_FORMAT_GRAYSCALE * 128 * 128) :=
  initStruct_size (grayImage 0 0 0) (grayImage 5 128 128) 5 128 128 IMAGE_FORMAT_GRAYSCALE
    (by decide)

/-! ## C20: the threshold engine on a rejected image -/

/-- C20 fails as stated: the value returned for an RGB565 descriptor is the
level computed for the GRAYSCALE 2x2 image of 0s and 255s in the same buffer,
so the caller cannot tell the rejection from a threshold level. -/
theorem otsu_error_is_a_level :
    (colorImage 1 2 2).format ≠ IMAGE_FORMAT_GRAYSCALE ∧
    (grayImage 1 2 2).format = IMAGE_FORMAT_GRAYSCALE ∧
    LIB_IMAGE_OtsuThreshold bimodalMem (colorImage 1 2 2)
      = LIB_IMAGE_OtsuThreshold bimodalMem (grayImage 1 2 2) := by
  refine ⟨by decide, rfl, ?_⟩
  have h1 : LIB_IMAGE_OtsuThreshold bimodalMem (colorImage 1 2 2) = 0 := by
    unfold LIB_IMAGE_OtsuThreshold
    rw [if_pos (by decide)]
  have h2 : LIB_IMAGE_OtsuThreshold bimodalMem (grayImage 1 2 2) = 0 :=
    otsu_returns_lower bimodalMem (grayImage 1 2 2) 0 255 rfl (by decide) (by decide)
      (by decide) (by decide) (by decide)
  rw [h1, h2]

/-- C20, amended: for an image whose encoding is not GRAYSCALE,
`LIB_IMAGE_OtsuThreshold` returns 0 whatever the memory holds, that is without
reading a pixel; 0 is also a computed level, so the value does not tell the
rejection apart. -/
theorem otsu_rejects_with_zero (m m' : Mem) (img : IMAGE_HandleTypeDef)
    (hf : img.format ≠ IMAGE_FORMAT_GRAYSCALE) :
    LIB_IMAGE_OtsuThreshold m img = 0 ∧
    LIB_IMAGE_OtsuThreshold m' img = LIB_IMAGE_OtsuThreshold m img := by
  unfold LIB_IMAGE_OtsuThreshold
  rw [if_pos hf, if_pos hf]
  exact ⟨rfl, rfl⟩

/-- C20, amended, on an RGB565 descriptor over two different memories. -/
theorem otsu_rejects_with_zero_witness :
    LIB_IMAGE_OtsuThreshold demoMem (colorImage 1 2 2) = 0 ∧
    LIB_IMAGE_OtsuThreshold clusterMem (colorImage 1 2 2)
      = LIB_IMAGE_OtsuThreshold demoMem (colorImage 1 2 2) :=
  otsu_rejects_with_zero demoMem clusterMem (colorImage 1 2 2) (by decide)

/-! ## C21: the binarizer in place -/

/-- C21: `LIB_IMAGE_ApplyThreshold` is in-place safe.  For a GRAYSCALE image
and any threshold, the call whose output descriptor refers to the buffer of the
input succeeds and leaves in that buffer, pixel for pixel, what the call with a
separate output buffer leaves in the separate buffer. -/
theorem applyThreshold_in_place (m : Mem) (imgIn imgSame imgSep : IMAGE_HandleTypeDef)
    (threshold : Nat)
    (hfi : imgIn.format = IMAGE_FORMAT_GRAYSCALE)
    (hfs : imgSame.format = IMAGE_FORMAT_GRAYSCALE)
    (hfp : imgSep.format = IMAGE_FORMAT_GRAYSCALE)
    (hws : imgIn.width = imgSame.width) (hhs : imgIn.height = imgSame.height)
    (hwp : imgIn.width = imgSep.width) (hhp : imgIn.height = imgSep.height)
    (hw16 : imgIn.width < 65536) (hh16 : imgIn.height < 65536)
    (hsame : imgSame.pData = imgIn.pData) (_hsep : imgSep.pData ≠ imgIn.pData) :
    (LIB_IMAGE_ApplyThreshold m imgIn imgSame threshold).1 = IMAGE_OK ∧
    ∀ i, i < imgIn.width * imgIn.height →
      load8 (LIB_IMAGE_ApplyThreshold m imgIn imgSame threshold).2 imgIn.pData i
        = load8 (LIB_IMAGE_ApplyThreshold m imgIn imgSep threshold).2 imgSep.pData i := by
  rw [applyThreshold_run m imgIn imgSame threshold hfi hfs hws hhs,
    applyThreshold_run m imgIn imgSep threshold hfi hfp hwp hhp,
    totalPixels_eq imgIn hw16 hh16, hsame]
  refine ⟨rfl, fun i hi => ?_⟩
  have h1 :=
    (threshold_loop imgIn.pData imgIn.pData threshold m (imgIn.width * imgIn.height)).1 i hi
  have h2 :=
    (threshold_loop imgIn.pData imgSep.pData threshold m (imgIn.width * imgIn.height)).1 i hi
  simp only at h1 h2 ⊢
  rw [h1, h2]

/-- C21 on the 2x2 image `memOfList 1 [10, 200, 9, 11]` at level 10: in place
and into buffer 2. -/
theorem applyThreshold_in_place_witness :
    ((LIB_IMAGE_ApplyThreshold (memOfList 1 [10, 200, 9, 11]) (grayImage 1 2 2)
        (grayImage 1 2 2) 10).1 = IMAGE_OK ∧
    ∀ i, i < (grayImage 1 2 2).width * (grayImage 1 2 2).height →
      load8 (LIB_IMAGE_ApplyThreshold (memOfList 1 [10, 200, 9, 11]) (grayImage 1 2 2)
          (grayImage 1 2 2) 10).2 (grayImage 1 2 2).pData i
        = load8 (LIB_IMAGE_ApplyThreshold (memOfList 1 [10, 200, 9, 11]) (grayImage 1 2 2)
          (grayImage 2 2 2) 10).2 (grayImage 2 2 2).pData i) ∧
    load8 (LIB_IMAGE_ApplyThreshold (memOfList 1 [10, 200, 9, 11]) (grayImage 1 2 2)
      (grayImage 1 2 2) 10).2 1 1 = 255 :=
  ⟨applyThreshold_in_place (memOfList 1 [10, 200, 9, 11]) (grayImage 1 2 2) (grayImage 1 2 2)
    (grayImage 2 2 2) 10 rfl rfl rfl rfl rfl rfl rfl (by decide) (by decide) rfl (by decide),
   by decide⟩

/-! ## C23, C27: the arithmetic of the color reducer -/

/-- C23: `LIB_IMAGE_ConvertToGrayscale` maps every pixel of value 0x0000 to
the output luminance 0. -/
theorem convertToGrayscale_black (m : Mem) (imgIn imgOut : IMAGE_HandleTypeDef)
    (hfi : imgIn.format = IMAGE_FORMAT_RGB565)
    (hfo : imgOut.format = IMAGE_FORMAT_GRAYSCALE)
    (hw : imgIn.width = imgOut.width) (hh : imgIn.height = imgOut.height)
    (hw16 : imgIn.width < 65536) (hh16 : imgIn.height < 65536)
    (i : Nat) (hi : i < imgIn.width * imgIn.height)
    (hp : load16 m imgIn.pData i = 0x0000) :
    (LIB_IMAGE_ConvertToGrayscale m imgIn imgOut).1 = IMAGE_OK ∧
    load8 (LIB_IMAGE_ConvertToGrayscale m imgIn imgOut).2 imgOut.pData i = 0 := by
  rw [convertToGrayscale_run m imgIn imgOut hfi hfo hw hh hw16 hh16]
  refine ⟨rfl, ?_⟩
  show load8 ((List.range (imgIn.width * imgIn.height)).foldl
    (grayscaleStep imgIn.pData imgOut.pData) m) imgOut.pData i = 0
  rw [(grayscale_loop imgIn.pData imgOut.pData m _).1 i hi, hp]
  decide

/-- C23 at the first pixel of a 2x1 image holding 0x0000 and 0xFFFF. -/
theorem convertToGrayscale_black_witness :
    (LIB_IMAGE_ConvertToGrayscale (memOfList 1 [0, 0, 255, 255]) (colorImage 1 2 1)
      (grayImage 2 2 1)).1 = IMAGE_OK ∧
    load8 (LIB_IMAGE_ConvertToGrayscale (memOfList 1 [0, 0, 255, 255]) (colorImage 1 2 1)
      (grayImage 2 2 1)).2 (grayImage 2 2 1).pData 0 = 0 :=
  convertToGrayscale_black (memOfList 1 [0, 0, 255, 255]) (colorImage 1 2 1) (grayImage 2 2 1)
    rfl rfl rfl rfl (by decide) (by decide) 0 (by decide) (by decide)

/-- C27: for every pixel value the three components fit in a `uint8_t`, the
weighted sum `299*R + 587*G + 114*B` is below 2^31, its quotient by 1000 is at
most 250, and so the `uint16_t` temporary and the `uint8_t` cast of
`LIB_IMAGE_ConvertToGrayscale` leave the quotient as it is. -/
theorem grayscale_no_overflow (p : Nat) :
    ((p >>> 11) &&& 0x1F) <<< 3 < 256 ∧ ((p >>> 5) &&& 0x3F) <<< 2 < 256 ∧
    (p &&& 0x1F) <<< 3 < 256 ∧
    299 * (((p >>> 11) &&& 0x1F) <<< 3) + 587 * (((p >>> 5) &&& 0x3F) <<< 2)
      + 114 * ((p &&& 0x1F) <<< 3) < 2147483648 ∧
    (299 * (((p >>> 11) &&& 0x1F) <<< 3) + 587 * (((p >>> 5) &&& 0x3F) <<< 2)
      + 114 * ((p &&& 0x1F) <<< 3)) / 1000 ≤ 250 ∧
    ((299 * (((p >>> 11) &&& 0x1F) <<< 3) + 587 * (((p >>> 5) &&& 0x3F) <<< 2)
      + 114 * ((p &&& 0x1F) <<< 3)) / 1000) % 65536 % 256
      = (299 * (((p >>> 11) &&& 0x1F) <<< 3) + 587 * (((p >>> 5) &&& 0x3F) <<< 2)
        + 114 * ((p &&& 0x1F) <<< 3)) / 1000 ∧
    grayOfPixel p
      = (299 * (((p >>> 11) &&& 0x1F) <<< 3) + 587 * (((p >>> 5) &&& 0x3F) <<< 2)
        + 114 * ((p &&& 0x1F) <<< 3)) / 1000 := by
  have hr : (p >>> 11) &&& 0x1F ≤ 0x1F := Nat.and_le_right
  have hg : (p >>> 5) &&& 0x3F ≤ 0x3F := Nat.and_le_right
  have hb : p &&& 0x1F ≤ 0x1F := Nat.and_le_right
  refine ⟨?_, ?_, ?_, ?_, ?_, ?_, grayOfPixel_eq p⟩
  all_goals
    simp only [Nat.shiftLeft_eq]
    generalize (p >>> 11) &&& 0x1F = r at hr ⊢
    generalize (p >>> 5) &&& 0x3F = g at hg ⊢
    generalize p &&& 0x1F = b at hb ⊢
    norm_num at hr hg hb ⊢
    omega

/-! ## C26: erosion below and dilation above the input -/

theorem erode_value_le (src : Nat → Nat) {w h hk x y : Nat} (hx : x < w) (hy : y < h)
    (hw16 : w < 65536) (hh16 : h < 65536) :
    morphValue erosionReplaces 255 src w h hk x y ≤ src (y * w + x) := by
  by_cases hb : isBorder w h hk x y
  · rw [morphValue_border _ _ _ hx hy hw16 hh16 hb]
  · obtain ⟨_, hx2, _, hy2⟩ := (not_isBorder_iff _ _ _ _ _).1 hb
    unfold morphValue
    rw [if_neg hb]
    exact windowScan_min_window src hx2 hy2 hw16 hh16 (by omega) (by omega) (by omega)
      (by omega)

theorem dilate_value_ge (src : Nat → Nat) {w h hk x y : Nat} (hx : x < w) (hy : y < h)
    (hw16 : w < 65536) (hh16 : h < 65536) :
    src (y * w + x) ≤ morphValue dilationReplaces 0 src w h hk x y := by
  by_cases hb : isBorder w h hk x y
  · rw [morphValue_border _ _ _ hx hy hw16 hh16 hb]
  · obtain ⟨_, hx2, _, hy2⟩ := (not_isBorder_iff _ _ _ _ _).1 hb
    unfold morphValue
    rw [if_neg hb]
    exact windowScan_max_window src hx2 hy2 hw16 hh16 (by omega) (by omega) (by omega)
      (by omega)

/-- C26: for a GRAYSCALE image on distinct input and output buffers and every
kernel size, `LIB_IMAGE_Erosion` is anti-extensive and `LIB_IMAGE_Dilation` is
extensive at every pixel index, the border included. -/
theorem erosion_le_input_le_dilation (m : Mem) (imgIn imgOut : IMAGE_HandleTypeDef) (k : Nat)
    (hfi : imgIn.format = IMAGE_FORMAT_GRAYSCALE)
    (hfo : imgOut.format = IMAGE_FORMAT_GRAYSCALE)
    (hw : imgIn.width = imgOut.width) (hh : imgIn.height = imgOut.height)
    (hw16 : imgIn.width < 65536) (hh16 : imgIn.height < 65536)
    (hne : imgIn.pData ≠ imgOut.pData) (i : Nat) (hi : i < imgIn.width * imgIn.height) :
    load8 (LIB_IMAGE_Erosion m imgIn imgOut k).2 imgOut.pData i ≤ load8 m imgIn.pData i ∧
    load8 m imgIn.pData i ≤ load8 (LIB_IMAGE_Dilation m imgIn imgOut k).2 imgOut.pData i := by
  obtain ⟨hix, hiy, his⟩ := offset_split hi
  have hE := (morphology_pixel erosionReplaces 255 m imgIn imgOut k hfi hfo hw hh hw16 hh16
    hne (by decide)).2.1 _ _ hix hiy
  have hD := (morphology_pixel dilationReplaces 0 m imgIn imgOut k hfi hfo hw hh hw16 hh16
    hne (by decide)).2.1 _ _ hix hiy
  have h1 := @erode_value_le (load8 m imgIn.pData) _ _ (k / 2) _ _ hix hiy hw16 hh16
  have h2 := @dilate_value_ge (load8 m imgIn.pData) _ _ (k / 2) _ _ hix hiy hw16 hh16
  rw [his] at hE hD h1 h2
  unfold LIB_IMAGE_Erosion LIB_IMAGE_Dilation
  rw [hE, hD]
  exact ⟨h1, h2⟩

/-- C26 at the centre (index 4) of the 3x3 image `demoMem` with a 3x3 kernel:
1 <= 5 <= 9. -/
theorem erosion_le_input_le_dilation_witness :
    (load8 (LIB_IMAGE_Erosion demoMem (grayImage 1 3 3) (grayImage 2 3 3) 3).2
        (grayImage 2 3 3).pData 4 ≤ load8 demoMem (grayImage 1 3 3).pData 4 ∧
      load8 demoMem (grayImage 1 3 3).pData 4
        ≤ load8 (LIB_IMAGE_Dilation demoMem (grayImage 1 3 3) (grayImage 2 3 3) 3).2
            (grayImage 2 3 3).pData 4) ∧
    load8 (LIB_IMAGE_Erosion demoMem (grayImage 1 3 3) (grayImage 2 3 3) 3).2 2 4 = 1 ∧
    load8 (LIB_IMAGE_Dilation demoMem (grayImage 1 3 3) (grayImage 2 3 3) 3).2 2 4 = 9 :=
  ⟨erosion_le_input_le_dilation demoMem (grayImage 1 3 3) (grayImage 2 3 3) 3 rfl rfl rfl rfl
    (by decide) (by decide) (by decide) 4 (by decide), by decide, by decide⟩

/-! ## C24, C28: the Otsu level and the intensities present -/

/-- A level is kept exactly when some pixel is at most the level and some
pixel is above it. -/
theorem specValid_pixels (m : Mem) (img : IMAGE_HandleTypeDef) (t : Nat)
    (hpos : 0 < totalPixels img) :
    specValid m img t ↔
      (∃ j, j < totalPixels img ∧ load8 m img.pData j ≤ t) ∧
      (∃ j, j < totalPixels img ∧ t < load8 m img.pData j) := by
  rw [specValid_iff m img t hpos, countLE_pos_iff]
  have hl := countLE_lt_iff (pixelValues m img.pData (totalPixels img)) t
  rw [pixelValues_length] at hl
  rw [hl]
  constructor
  · rintro ⟨⟨v, hv, hvt⟩, ⟨v', hv', hvt'⟩⟩
    obtain ⟨j, hj, rfl⟩ := (mem_pixelValues _ _ _ _).1 hv
    obtain ⟨j', hj', rfl⟩ := (mem_pixelValues _ _ _ _).1 hv'
    exact ⟨⟨j, hj, hvt⟩, ⟨j', hj', hvt'⟩⟩
  · rintro ⟨⟨j, hj, hvt⟩, ⟨j', hj', hvt'⟩⟩
    exact ⟨⟨_, (mem_pixelValues _ _ _ _).2 ⟨j, hj, rfl⟩, hvt⟩,
      ⟨_, (mem_pixelValues _ _ _ _).2 ⟨j', hj', rfl⟩, hvt'⟩⟩

/-- C24: over the rationals, for a GRAYSCALE image holding two distinct
intensities, with `lo` the smallest and `hi` the largest intensity present,
the level `t` returned by `LIB_IMAGE_OtsuThreshold` satisfies `lo <= t < hi`;
hence the image binarized at `t` holds a 0 pixel and a 255 pixel. -/
theorem otsu_between_min_max (m : Mem) (img imgOut : IMAGE_HandleTypeDef) (lo hi : Nat)
    (hf : img.format = IMAGE_FORMAT_GRAYSCALE)
    (hfo : imgOut.format = IMAGE_FORMAT_GRAYSCALE)
    (hw : img.width = imgOut.width) (hh : img.height = imgOut.height)
    (hw16 : img.width < 65536) (hh16 : img.height < 65536)
    (hlo : ∃ i, i < img.width * img.height ∧ load8 m img.pData i = lo)
    (hhi : ∃ i, i < img.width * img.height ∧ load8 m img.pData i = hi)
    (hrange : ∀ i, i < img.width * img.height →
      lo ≤ load8 m img.pData i ∧ load8 m img.pData i ≤ hi)
    (hlt : lo < hi) :
    lo ≤ LIB_IMAGE_OtsuThreshold m img ∧ LIB_IMAGE_OtsuThreshold m img < hi ∧
    (∃ i, i < img.width * img.height ∧
      load8 (LIB_IMAGE_ApplyThreshold m img imgOut (LIB_IMAGE_OtsuThreshold m img)).2
        imgOut.pData i = 0) ∧
    (∃ i, i < img.width * img.height ∧
      load8 (LIB_IMAGE_ApplyThreshold m img imgOut (LIB_IMAGE_OtsuThreshold m img)).2
        imgOut.pData i = 255) := by
  have hT := totalPixels_eq img hw16 hh16
  obtain ⟨ilo, hilo, hvlo⟩ := hlo
  obtain ⟨ihi, hihi, hvhi⟩ := hhi
  have hpos : 0 < totalPixels img := by rw [hT]; omega
  have hhi256 : hi < 256 := by rw [← hvhi]; exact load8_lt _ _ _
  have hvalidlo : specValid m img lo :=
    (specValid_pixels m img lo hpos).2
      ⟨⟨ilo, by rw [hT]; exact hilo, by omega⟩, ⟨ihi, by rw [hT]; exact hihi, by omega⟩⟩
  obtain ⟨_, hrv, _, _⟩ := (otsu_result m img hf hpos).2 ⟨lo, by omega, hvalidlo⟩
  obtain ⟨⟨j, hj, hjle⟩, ⟨j', hj', hjlt⟩⟩ :=
    (specValid_pixels m img _ hpos).1 hrv
  rw [hT] at hj hj'
  have h1 := (hrange j hj).1
  have h2 := (hrange j' hj').2
  have hlow : lo ≤ LIB_IMAGE_OtsuThreshold m img := by omega
  have hhigh : LIB_IMAGE_OtsuThreshold m img < hi := by omega
  refine ⟨hlow, hhigh, ⟨ilo, hilo, ?_⟩, ⟨ihi, hihi, ?_⟩⟩
  · rw [applyThreshold_run m img imgOut _ hf hfo hw hh, hT]
    have hout := (threshold_loop img.pData imgOut.pData (LIB_IMAGE_OtsuThreshold m img) m
      (img.width * img.height)).1 ilo hilo
    simp only at hout ⊢
    rw [hout, hvlo, if_neg (by omega)]
  · rw [applyThreshold_run m img imgOut _ hf hfo hw hh, hT]
    have hout := (threshold_loop img.pData imgOut.pData (LIB_IMAGE_OtsuThreshold m img) m
      (img.width * img.height)).1 ihi hihi
    simp only at hout ⊢
    rw [hout, hvhi, if_pos (by omega)]

/-- C24 on the 5x5 image `gridMem`, whose intensities range from 1 to 200. -/
theorem otsu_between_min_max_witness :
    1 ≤ LIB_IMAGE_OtsuThreshold gridMem (grayImage 1 5 5) ∧
    LIB_IMAGE_OtsuThreshold gridMem (grayImage 1 5 5) < 200 ∧
    (∃ i, i < (grayImage 1 5 5).width * (grayImage 1 5 5).height ∧
      load8 (LIB_IMAGE_ApplyThreshold gridMem (grayImage 1 5 5) (grayImage 2 5 5)
        (LIB_IMAGE_OtsuThreshold gridMem (grayImage 1 5 5))).2 (grayImage 2 5 5).pData i = 0) ∧
    (∃ i, i < (grayImage 1 5 5).width * (grayImage 1 5 5).height ∧
      load8 (LIB_IMAGE_ApplyThreshold gridMem (grayImage 1 5 5) (grayImage 2 5 5)
        (LIB_IMAGE_OtsuThreshold gridMem (grayImage 1 5 5))).2 (grayImage 2 5 5).pData i
        = 255) :=
  otsu_between_min_max gridMem (grayImage 1 5 5) (grayImage 2 5 5) 1 200 rfl rfl rfl rfl
    (by decide) (by decide) ⟨1, by decide, by decide⟩ ⟨12, by decide, by decide⟩
    (by decide) (by decide)

/-- C28: over the rationals, for a non-empty GRAYSCALE image whose pixels all
have the intensity `v`, every level has an empty class and is skipped,
`LIB_IMAGE_OtsuThreshold` returns 0, and the image binarized at that level is
all 255 when `v > 0` and all 0 when `v = 0`. -/
theorem otsu_uniform (m : Mem) (img imgOut : IMAGE_HandleTypeDef) (v : Nat)
    (hf : img.format = IMAGE_FORMAT_GRAYSCALE)
    (hfo : imgOut.format = IMAGE_FORMAT_GRAYSCALE)
    (hw : img.width = imgOut.width) (hh : img.height = imgOut.height)
    (hw16 : img.width < 65536) (hh16 : img.height < 65536)
    (hpos : 0 < img.width * img.height)
    (hv : ∀ i, i < img.width * img.height → load8 m img.pData i = v) :
    (∀ t, ¬ specValid m img t) ∧
    LIB_IMAGE_OtsuThreshold m img = 0 ∧
    (LIB_IMAGE_ApplyThreshold m img imgOut (LIB_IMAGE_OtsuThreshold m img)).1 = IMAGE_OK ∧
    ∀ i, i < img.width * img.height →
      load8 (LIB_IMAGE_ApplyThreshold m img imgOut (LIB_IMAGE_OtsuThreshold m img)).2
        imgOut.pData i = if v > 0 then 255 else 0 := by
  have hT := totalPixels_eq img hw16 hh16
  have hposT : 0 < totalPixels img := by rw [hT]; exact hpos
  have hnone : ∀ t, ¬ specValid m img t := by
    intro t hval
    obtain ⟨⟨j, hj, hjle⟩, ⟨j', hj', hjlt⟩⟩ := (specValid_pixels m img t hposT).1 hval
    rw [hT] at hj hj'
    rw [hv j hj] at hjle
    rw [hv j' hj'] at hjlt
    omega
  have hr : LIB_IMAGE_OtsuThreshold m img = 0 :=
    (otsu_result m img hf hposT).1 (fun t _ => hnone t)
  refine ⟨hnone, hr, ?_, ?_⟩
  · rw [applyThreshold_run m img imgOut _ hf hfo hw hh]
  · intro i hi
    rw [hr, applyThreshold_run m img imgOut 0 hf hfo hw hh, hT]
    have hout := (threshold_loop img.pData imgOut.pData 0 m (img.width * img.height)).1 i hi
    simp only at hout ⊢
    rw [hout, hv i hi]

/-- C28 on the 2x2 image `uniformMem` of intensity 7, binarized into buffer 2. -/
theorem otsu_uniform_witness :
    (∀ t, ¬ specValid uniformMem (grayImage 1 2 2) t) ∧
    LIB_IMAGE_OtsuThreshold uniformMem (grayImage 1 2 2) = 0 ∧
    (LIB_IMAGE_ApplyThreshold uniformMem (grayImage 1 2 2) (grayImage 2 2 2)
      (LIB_IMAGE_OtsuThreshold uniformMem (grayImage 1 2 2))).1 = IMAGE_OK ∧
    ∀ i, i < (grayImage 1 2 2).width * (grayImage 1 2 2).height →
      load8 (LIB_IMAGE_ApplyThreshold uniformMem (grayImage 1 2 2) (grayImage 2 2 2)
        (LIB_IMAGE_OtsuThreshold uniformMem (grayImage 1 2 2))).2 (grayImage 2 2 2).pData i
        = if 7 > 0 then 255 else 0 :=
  otsu_uniform uniformMem (grayImage 1 2 2) (grayImage 2 2 2) 7 rfl rfl rfl rfl
    (by decide) (by decide) (by decide) (by decide)

/-! ## C25: the indices of the morphology engine -/

/-- The index expression of the kernel loops at a non-border pixel, as an
integer and as an offset, lies inside the image. -/
theorem neighbour_index_bounds {x y w h hk : Nat} {kx ky : Int}
    (hx1 : hk ≤ x) (hx2 : x + hk < w) (hy1 : hk ≤ y) (hy2 : y + hk < h)
    (hkx1 : -(hk : Int) ≤ kx) (hkx2 : kx ≤ (hk : Int))
    (hky1 : -(hk : Int) ≤ ky) (hky2 : ky ≤ (hk : Int))
    (hw16 : w < 65536) (hh16 : h < 65536) :
    0 ≤ ((y : Int) + ky) * (w : Int) + ((x : Int) + kx) ∧
    ((y : Int) + ky) * (w : Int) + ((x : Int) + kx) < ((w * h : Nat) : Int) ∧
    idx32 (((y : Int) + ky) * (w : Int) + ((x : Int) + kx)) < w * h := by
  obtain ⟨a, ha⟩ : ∃ a : Nat, (y : Int) + ky = (a : Int) :=
    ⟨((y : Int) + ky).toNat, by omega⟩
  obtain ⟨b, hb⟩ : ∃ b : Nat, (x : Int) + kx = (b : Int) :=
    ⟨((x : Int) + kx).toNat, by omega⟩
  have hbw : b < w := by omega
  have hah : a < h := by omega
  have hlt := pixel_lt hbw hah
  have hc : (a : Int) * (w : Int) + (b : Int) = ((a * w + b : Nat) : Int) := by
    push_cast; ring
  rw [ha, hb]
  refine ⟨?_, ?_, ?_⟩
  · rw [hc]; exact Int.ofNat_nonneg _
  · rw [hc]; exact_mod_cast hlt
  · rw [idx32_pixel hbw hah hw16 hh16]; exact hlt

/-- Two passes through the scratch image of opening and closing change no cell
at an offset beyond the image, in any buffer. -/
theorem two_pass_frame (rep1 : Nat → Nat → Bool) (init1 : Nat) (rep2 : Nat → Nat → Bool)
    (init2 : Nat) (imgMid : IMAGE_HandleTypeDef) (m : Mem)
    (imgIn imgOut : IMAGE_HandleTypeDef) (k : Nat)
    (hw16 : imgIn.width < 65536) (hh16 : imgIn.height < 65536) :
    ∀ q j, imgIn.width * imgIn.height ≤ j →
      (if (morphology rep1 init1 m imgIn imgMid k).1 ≠ IMAGE_OK
        then (IMAGE_ERROR, (morphology rep1 init1 m imgIn imgMid k).2)
        else morphology rep2 init2 (morphology rep1 init1 m imgIn imgMid k).2
          imgMid imgOut k).2.cell q j = m.cell q j := by
  intro q j hj
  have hfirst : (morphology rep1 init1 m imgIn imgMid k).2.cell q j = m.cell q j :=
    morphology_frame rep1 init1 m imgIn imgMid k hw16 hh16 q j (Or.inr hj)
  by_cases hs : (morphology rep1 init1 m imgIn imgMid k).1 ≠ IMAGE_OK
  · rw [if_pos hs]
    exact hfirst
  · rw [if_neg hs]
    rw [not_not] at hs
    obtain ⟨_, _, g3, g4⟩ := (morphology_status rep1 init1 m imgIn imgMid k).2.1.1 hs
    rw [morphology_frame rep2 init2 _ imgMid imgOut k (by rw [← g3]; exact hw16)
      (by rw [← g4]; exact hh16) q j (Or.inr (by rw [← g3, ← g4]; exact hj))]
    exact hfirst

/-- C25: for descriptors of 16-bit width and height and every kernel size,
every index formed by `LIB_IMAGE_Erosion` and `LIB_IMAGE_Dilation` lies in
`[0, width*height)`: the index `y*width + x` of each pixel, and at each
non-border pixel the index `(y+ky)*width + (x+kx)` for all offsets with
`|kx|, |ky| <= k/2`, as integers without wrap-around; the two functions change
no cell outside that range of the output buffer; and `LIB_IMAGE_Opening` and
`LIB_IMAGE_Closing` change no cell at an offset of `128*128` or more, so the
intermediate image stays inside the scratch buffer. -/
theorem morphology_indices_in_bounds (tempOpening tempClosing : Nat)
    (tmpO tmpC : IMAGE_HandleTypeDef) (m : Mem) (imgIn imgOut : IMAGE_HandleTypeDef) (k : Nat)
    (hw16 : imgIn.width < 65536) (hh16 : imgIn.height < 65536) :
    (∀ x y, x < imgIn.width → y < imgIn.height →
      idx32 ((y : Int) * (imgIn.width : Int) + (x : Int)) < imgIn.width * imgIn.height) ∧
    (∀ x y, x < imgIn.width → y < imgIn.height →
      ¬ isBorder imgIn.width imgIn.height (k / 2) x y →
      ∀ kx ky : Int, -((k / 2 : Nat) : Int) ≤ kx → kx ≤ ((k / 2 : Nat) : Int) →
        -((k / 2 : Nat) : Int) ≤ ky → ky ≤ ((k / 2 : Nat) : Int) →
        0 ≤ ((y : Int) + ky) * (imgIn.width : Int) + ((x : Int) + kx) ∧
        ((y : Int) + ky) * (imgIn.width : Int) + ((x : Int) + kx)
          < ((imgIn.width * imgIn.height : Nat) : Int) ∧
        idx32 (((y : Int) + ky) * (imgIn.width : Int) + ((x : Int) + kx))
          < imgIn.width * imgIn.height) ∧
    (∀ q j, (LIB_IMAGE_Erosion m imgIn imgOut k).2.cell q j ≠ m.cell q j →
      q = imgOut.pData ∧ j < imgIn.width * imgIn.height) ∧
    (∀ q j, (LIB_IMAGE_Dilation m imgIn imgOut k).2.cell q j ≠ m.cell q j →
      q = imgOut.pData ∧ j < imgIn.width * imgIn.height) ∧
    (∀ q j, (LIB_IMAGE_Opening tempOpening tmpO m imgIn imgOut k).2.cell q j ≠ m.cell q j →
      j < imgIn.width * imgIn.height ∧ imgIn.width * imgIn.height ≤ 128 * 128) ∧
    (∀ q j, (LIB_IMAGE_Closing tempClosing tmpC m imgIn imgOut k).2.cell q j ≠ m.cell q j →
      j < imgIn.width * imgIn.height ∧ imgIn.width * imgIn.height ≤ 128 * 128) := by
  refine ⟨?_, ?_, ?_, ?_, ?_, ?_⟩
  · intro x y hx hy
    rw [idx32_pixel hx hy hw16 hh16]
    exact pixel_lt hx hy
  · intro x y _ _ hnb kx ky hkx1 hkx2 hky1 hky2
    obtain ⟨hx1, hx2, hy1, hy2⟩ := (not_isBorder_iff _ _ _ _ _).1 hnb
    exact neighbour_index_bounds hx1 hx2 hy1 hy2 hkx1 hkx2 hky1 hky2 hw16 hh16
  · intro q j hne
    by_contra hc
    apply hne
    unfold LIB_IMAGE_Erosion
    exact morphology_frame _ _ m imgIn imgOut k hw16 hh16 q j (by omega)
  · intro q j hne
    by_contra hc
    apply hne
    unfold LIB_IMAGE_Dilation
    exact morphology_frame _ _ m imgIn imgOut k hw16 hh16 q j (by omega)
  · intro q j hne
    by_cases hbig : imgIn.width > 128 ∨ imgIn.height > 128
    · exfalso
      apply hne
      unfold LIB_IMAGE_Opening
      rw [if_pos hbig]
    · have hle : imgIn.width * imgIn.height ≤ 128 * 128 :=
        Nat.mul_le_mul (by omega) (by omega)
      refine ⟨?_, hle⟩
      by_contra hc
      apply hne
      unfold LIB_IMAGE_Opening LIB_IMAGE_Erosion LIB_IMAGE_Dilation
      rw [if_neg hbig]
      exact two_pass_frame erosionReplaces 255 dilationReplaces 0 _ m imgIn imgOut k
        hw16 hh16 q j (by omega)
  · intro q j hne
    by_cases hbig : imgIn.width > 128 ∨ imgIn.height > 128
    · exfalso
      apply hne
      unfold LIB_IMAGE_Closing
      rw [if_pos hbig]
    · have hle : imgIn.width * imgIn.height ≤ 128 * 128 :=
        Nat.mul_le_mul (by omega) (by omega)
      refine ⟨?_, hle⟩
      by_contra hc
      apply hne
      unfold LIB_IMAGE_Closing LIB_IMAGE_Erosion LIB_IMAGE_Dilation
      rw [if_neg hbig]
      exact two_pass_frame dilationReplaces 0 erosionReplaces 255 _ m imgIn imgOut k
        hw16 hh16 q j (by omega)

/-- C25 on the 3x3 image `demoMem` with a 3x3 kernel: at the centre pixel the
offsets `(1, 1)` give the index 8 < 9, and the opening has changed cell 4 of
the scratch buffer 7, which lies below `128*128`. -/
theorem morphology_indices_in_bounds_witness :
    (0 ≤ (((1 : Nat) : Int) + 1) * ((grayImage 1 3 3).width : Int) + (((1 : Nat) : Int) + 1) ∧
      (((1 : Nat) : Int) + 1) * ((grayImage 1 3 3).width : Int) + (((1 : Nat) : Int) + 1)
        < (((grayImage 1 3 3).width * (grayImage 1 3 3).height : Nat) : Int) ∧
      idx32 ((((1 : Nat) : Int) + 1) * ((grayImage 1 3 3).width : Int)
        + (((1 : Nat) : Int) + 1))
        < (grayImage 1 3 3).width * (grayImage 1 3 3).height) ∧
    (4 < (grayImage 1 3 3).width * (grayImage 1 3 3).height ∧
      (grayImage 1 3 3).width * (grayImage 1 3 3).height ≤ 128 * 128) :=
  have h := morphology_indices_in_bounds 7 8 (grayImage 0 0 0) (grayImage 0 0 0) demoMem
    (grayImage 1 3 3) (grayImage 2 3 3) 3 (by decide) (by decide)
  ⟨h.2.1 1 1 (by decide) (by decide) (by decide) 1 1 (by decide) (by decide) (by decide)
    (by decide), h.2.2.2.2.1 7 4 (by decide)⟩

/-! ## C22: the pipeline controller -/

end LibImage
